import Mathlib

/-!
kmscon: UTF-8 decoder, VT parser, keyboard translator, input method, rings
and hooks.

A shallow embedding of `src/kmscon_utf8.c` (the byte-at-a-time UTF-8 decoder),
of `src/vte.c` (Paul Williams's state machine with the CSI parameter collector,
and the keyboard translator `kmscon_vte_handle_keyboard`), of
`src/kmscon_im.c` (the pinyin input method: dictionary load, key handling and
dictionary search) and of `src/misc.c` (the byte ring and the hook list),
followed by theorems about them.

Conventions of the embedding.

* `uint32_t` values are natural numbers; a conversion to `uint32_t` is an
  explicit reduction modulo `2 ^ 32`.
* `char` values are integers: a byte `b ≥ 0x80` held in a `char` is `b - 256`
  where plain `char` is signed and `b` where it is unsigned (`char_of_byte`).
* C enumerations are inductive types with one constructor per enumerator.
* Calls into the console, and calls of the write callback, are recorded in
  order in the `trace` field of the terminal; `log_*` calls are diagnostics and
  are not recorded.
* Null-pointer guards (`if (!mach)`, `if (!vte || !vte->con)`) have no
  counterpart: the embedded objects always exist.
* An array access outside `csi_argv[0 .. CSI_ARG_MAX - 1]` makes the embedded
  function return `none`.
* A `shl_array` is the list of its `length` elements; an access at an index
  that is not below the length makes the embedded function return `none`.
* An `int` that holds an array length or an index is an integer: the arrays are
  taken to have fewer than `2 ^ 31` elements.  The one computation in `size_t`
  whose wrap-around shows on such arrays, `length - 1` compared with `selected`,
  is reduced modulo `2 ^ 64`.
* Labels of a `switch` over key codes or keysyms are the constructors of an
  inductive type, with one more constructor for all values without a label.
* Calls of the output callback of `im_keyboard` are returned in order in
  `output`; the `while` loop of `im_keyboard` takes one unit of fuel for each
  round and `none` is returned when the fuel runs out.
* A singly linked list is the list of its entries in the order of the `next`
  pointers.  Where the code compares or follows a pointer to an entry (the
  hook's `cur_entry`), entries carry their address and the pointer is that
  address; following a pointer to an entry that is no longer linked makes the
  embedded function return `none`.
* `malloc` is taken to succeed.  The `goto next` loops of `kmscon_ring_write`
  and the loop of `kmscon_hook_call` take one unit of fuel for each round.
-/

namespace Kmscon

/-! ## UTF-8 decoder (`kmscon_utf8.h`, `kmscon_utf8.c`) -/

/-- States of the decoder: `enum tsm_utf8_mach_state`. -/
inductive tsm_utf8_mach_state where
  | TSM_UTF8_START
  | TSM_UTF8_ACCEPT
  | TSM_UTF8_REJECT
  | TSM_UTF8_EXPECT1
  | TSM_UTF8_EXPECT2
  | TSM_UTF8_EXPECT3
  deriving DecidableEq, Repr

open tsm_utf8_mach_state

/-- The decoder object: `struct tsm_utf8_mach`. -/
structure tsm_utf8_mach where
  state : tsm_utf8_mach_state
  ch : Nat
  deriving DecidableEq, Repr

/-- Modelled from the spec: the REPLACEMENT sentinel `TSM_UCS4_REPLACEMENT` of
`libtsm.h`, a header that is not part of the sources; U+FFFD. -/
def TSM_UCS4_REPLACEMENT : Nat := 0xFFFD

/-- Value of a byte once it is stored in a plain `char`: sign-extended where
`char` is signed, unchanged where it is unsigned. -/
def char_of_byte (char_signed : Bool) (b : Nat) : Int :=
  if char_signed = true ∧ 128 ≤ b then (b : Int) - 256 else (b : Int)

/-- Conversion of an integer to `uint32_t` (the assignment `c = ci`). -/
def uint32_of_int (i : Int) : Nat :=
  (i % 4294967296).toNat

/-- Conversion of a `uint32_t` to `int` (two's complement). -/
def int_of_uint32 (n : Nat) : Int :=
  if n < 2147483648 then (n : Int) else (n : Int) - 4294967296

/-- The machine after `tsm_utf8_mach_new`: zeroed, then state START. -/
def tsm_utf8_mach_new : tsm_utf8_mach :=
  { state := TSM_UTF8_START, ch := 0 }

/-- Embedding of `tsm_utf8_mach_feed`: the machine after the call; the `int`
the C function returns is the `state` of that machine.  The shifted operands
are masked first, so no shift leaves 32 bits.  The `default:` arm of the
switch has no counterpart (the state type has exactly the six enumerators). -/
def tsm_utf8_mach_feed (mach : tsm_utf8_mach) (ci : Int) : tsm_utf8_mach :=
  let c := uint32_of_int ci
  match mach.state with
  | TSM_UTF8_START | TSM_UTF8_ACCEPT | TSM_UTF8_REJECT =>
    if c = 0xC0 ∨ c = 0xC1 then
      { mach with state := TSM_UTF8_REJECT }
    else if c &&& 0x80 = 0 then
      { ch := c, state := TSM_UTF8_ACCEPT }
    else if c &&& 0xC0 = 0x80 then
      { mach with state := TSM_UTF8_START }
    else if c &&& 0xE0 = 0xC0 then
      { ch := (c &&& 0x1F) <<< 6, state := TSM_UTF8_EXPECT1 }
    else if c &&& 0xF0 = 0xE0 then
      { ch := (c &&& 0x0F) <<< 12, state := TSM_UTF8_EXPECT2 }
    else if c &&& 0xF8 = 0xF0 then
      { ch := (c &&& 0x07) <<< 18, state := TSM_UTF8_EXPECT3 }
    else
      { mach with state := TSM_UTF8_REJECT }
  | TSM_UTF8_EXPECT3 =>
    { ch := mach.ch ||| ((c &&& 0x3F) <<< 12),
      state := if c &&& 0xC0 = 0x80 then TSM_UTF8_EXPECT2 else TSM_UTF8_REJECT }
  | TSM_UTF8_EXPECT2 =>
    { ch := mach.ch ||| ((c &&& 0x3F) <<< 6),
      state := if c &&& 0xC0 = 0x80 then TSM_UTF8_EXPECT1 else TSM_UTF8_REJECT }
  | TSM_UTF8_EXPECT1 =>
    { ch := mach.ch ||| (c &&& 0x3F),
      state := if c &&& 0xC0 = 0x80 then TSM_UTF8_ACCEPT else TSM_UTF8_REJECT }

/-- Embedding of `tsm_utf8_mach_get`. -/
def tsm_utf8_mach_get (mach : tsm_utf8_mach) : Nat :=
  if mach.state ≠ TSM_UTF8_ACCEPT then TSM_UCS4_REPLACEMENT else mach.ch

/-- Embedding of `tsm_utf8_mach_reset`. -/
def tsm_utf8_mach_reset (mach : tsm_utf8_mach) : tsm_utf8_mach :=
  { mach with state := TSM_UTF8_START }

/-- Feeding a list of `char` values in order: the machine after the last one. -/
def tsm_utf8_mach_feed_all (mach : tsm_utf8_mach) (cs : List Int) : tsm_utf8_mach :=
  cs.foldl tsm_utf8_mach_feed mach

/-- The states `tsm_utf8_mach_feed` returned, one per fed `char`, in order. -/
def tsm_utf8_mach_feed_states : tsm_utf8_mach → List Int → List tsm_utf8_mach_state
  | _, [] => []
  | mach, c :: cs =>
    (tsm_utf8_mach_feed mach c).state :: tsm_utf8_mach_feed_states (tsm_utf8_mach_feed mach c) cs

/-! ## Parser data (`vte.c`) -/

/-- Input parser states: `enum parser_state`. -/
inductive parser_state where
  | STATE_NONE
  | STATE_GROUND
  | STATE_ESC
  | STATE_ESC_INT
  | STATE_CSI_ENTRY
  | STATE_CSI_PARAM
  | STATE_CSI_INT
  | STATE_CSI_IGNORE
  | STATE_DCS_ENTRY
  | STATE_DCS_PARAM
  | STATE_DCS_INT
  | STATE_DCS_PASS
  | STATE_DCS_IGNORE
  | STATE_OSC_STRING
  | STATE_ST_IGNORE
  | STATE_NUM
  deriving DecidableEq, Repr

/-- Input parser actions: `enum parser_action`. -/
inductive parser_action where
  | ACTION_NONE
  | ACTION_IGNORE
  | ACTION_PRINT
  | ACTION_EXECUTE
  | ACTION_CLEAR
  | ACTION_COLLECT
  | ACTION_PARAM
  | ACTION_ESC_DISPATCH
  | ACTION_CSI_DISPATCH
  | ACTION_DCS_START
  | ACTION_DCS_COLLECT
  | ACTION_DCS_END
  | ACTION_OSC_START
  | ACTION_OSC_COLLECT
  | ACTION_OSC_END
  | ACTION_NUM
  deriving DecidableEq, Repr

open parser_state parser_action

/-- Max CSI arguments: `#define CSI_ARG_MAX 16`. -/
abbrev CSI_ARG_MAX : Nat := 16

/-- Terminal flag `FLAG_CURSOR_KEY_MODE`. -/
def FLAG_CURSOR_KEY_MODE : Nat := 0x01

/-- Terminal flag `FLAG_KEYPAD_APPLICATION_MODE`. -/
def FLAG_KEYPAD_APPLICATION_MODE : Nat := 0x02

/-- Terminal flag `FLAG_LINE_FEED_NEW_LINE_MODE`. -/
def FLAG_LINE_FEED_NEW_LINE_MODE : Nat := 0x04

/-- Modelled from the spec: `struct font_char_attr` of `font.h`, a header that
is not part of the sources: foreground and background RGB triples and the
flags bold, underline, inverse, blink, protect. -/
structure font_char_attr where
  fr : Nat
  fg : Nat
  fb : Nat
  br : Nat
  bg : Nat
  bb : Nat
  bold : Bool
  underline : Bool
  inverse : Bool
  blink : Bool
  protect : Bool
  deriving DecidableEq, Repr

/-- A `kmscon_symbol_t` handed to the console.  `kmscon_symbol_make` lives in
`unicode.c`, which is not part of the sources, so its result is kept as the
uninterpreted term `make ucs4`; `raw v` is a constant passed as it stands. -/
inductive kmscon_symbol_t where
  | make (ucs4 : Nat)
  | raw (v : Nat)
  deriving DecidableEq, Repr

/-- One call that leaves the parser: a console operation
(`kmscon_console_*`) or a call of the write callback (`vte_write`). -/
inductive vte_event where
  | console_write (sym : kmscon_symbol_t) (attr : font_char_attr)
  | console_move_left (num : Int)
  | console_move_right (num : Int)
  | console_move_up (num : Int) (scroll : Bool)
  | console_move_down (num : Int) (scroll : Bool)
  | console_move_line_home
  | console_newline
  | console_erase_cursor_to_screen
  | console_erase_screen_to_cursor
  | console_erase_screen
  | console_erase_cursor_to_end
  | console_erase_home_to_cursor
  | console_erase_current_line
  | vte_write (u8 : List Nat)
  deriving DecidableEq, Repr

open vte_event

/-- The terminal object: `struct kmscon_vte`, without the reference count and
the callback pointers, with the calls made so far in `trace` (oldest first).
`vte.c` names the decoder `kmscon_utf8_mach`; its functions are the
`tsm_utf8_mach` functions of `kmscon_utf8.c`. -/
structure kmscon_vte where
  mach : tsm_utf8_mach
  state : parser_state
  csi_argc : Nat
  csi_argv : Mathlib.Vector Int CSI_ARG_MAX
  cattr : font_char_attr
  flags : Nat
  trace : List vte_event
  deriving DecidableEq

/-- The attributes `kmscon_vte_new` installs (and SGR 0 restores). -/
def default_cattr : font_char_attr :=
  { fr := 255, fg := 255, fb := 255, br := 0, bg := 0, bb := 0,
    bold := false, underline := false, inverse := false,
    blink := false, protect := false }

/-- Embedding of `kmscon_vte_new`: the object is zeroed by `memset`, then the
state, the attributes and the decoder are set. -/
def kmscon_vte_new : kmscon_vte :=
  { mach := tsm_utf8_mach_new,
    state := STATE_GROUND,
    csi_argc := 0,
    csi_argv := Mathlib.Vector.replicate CSI_ARG_MAX 0,
    cattr := default_cattr,
    flags := 0,
    trace := [] }

/-- Append one call to the trace. -/
def emit (vte : kmscon_vte) (e : vte_event) : kmscon_vte :=
  { vte with trace := vte.trace ++ [e] }

/-- Read of `csi_argv[i]`; `none` outside the array. -/
def csi_argv_read (argv : Mathlib.Vector Int CSI_ARG_MAX) (i : Nat) : Option Int :=
  if h : i < CSI_ARG_MAX then some (argv.get ⟨i, h⟩) else none

/-- Write of `csi_argv[i] = v`; `none` outside the array. -/
def csi_argv_write (argv : Mathlib.Vector Int CSI_ARG_MAX) (i : Nat) (v : Int) :
    Option (Mathlib.Vector Int CSI_ARG_MAX) :=
  if h : i < CSI_ARG_MAX then some (argv.set ⟨i, h⟩ v) else none

/-! ## Parser actions (`vte.c`) -/

/-- Embedding of `do_execute`: execute control character (C0 or C1). -/
def do_execute (vte : kmscon_vte) (ctrl : Nat) : kmscon_vte :=
  if ctrl = 0x00 then vte
  else if ctrl = 0x05 then emit vte (vte_write [0x06])
  else if ctrl = 0x07 then vte
  else if ctrl = 0x08 then emit vte (console_move_left 1)
  else if ctrl = 0x09 then vte
  else if ctrl = 0x0a ∨ ctrl = 0x0b ∨ ctrl = 0x0c then
    if vte.flags &&& FLAG_LINE_FEED_NEW_LINE_MODE ≠ 0 then emit vte console_newline
    else emit vte (console_move_down 1 true)
  else if ctrl = 0x0d then emit vte console_move_line_home
  else if ctrl = 0x0e then vte
  else if ctrl = 0x0f then vte
  else if ctrl = 0x11 then vte
  else if ctrl = 0x13 then vte
  else if ctrl = 0x18 then vte
  else if ctrl = 0x1a then emit vte (console_write (kmscon_symbol_t.raw 0xbf) vte.cattr)
  else if ctrl = 0x1b then vte
  else if ctrl = 0x1f then vte
  else if ctrl = 0x84 then emit vte (console_move_down 1 true)
  else if ctrl = 0x85 then emit vte console_newline
  else if ctrl = 0x88 then vte
  else if ctrl = 0x8d then emit vte (console_move_up 1 true)
  else if ctrl = 0x8e then vte
  else if ctrl = 0x8f then vte
  else if ctrl = 0x9a then vte
  else if ctrl = 0x9c then vte
  else vte

/-- Embedding of `do_clear`. -/
def do_clear (vte : kmscon_vte) : kmscon_vte :=
  { vte with csi_argc := 0, csi_argv := Mathlib.Vector.replicate CSI_ARG_MAX (-1) }

/-- Embedding of `do_collect` (its body is empty). -/
def do_collect (vte : kmscon_vte) (_data : Nat) : kmscon_vte :=
  vte

/-- Embedding of `do_param`.  `new * 10` is a product of `int`s; it is taken
only when `0 < new ≤ 0xffff`, so it is exact.  The sum with the `uint32_t`
`data` is unsigned and converted back to `int` by the assignment. -/
def do_param (vte : kmscon_vte) (data : Nat) : Option kmscon_vte :=
  if data = 0x3b then
    if vte.csi_argc < CSI_ARG_MAX then some { vte with csi_argc := vte.csi_argc + 1 }
    else some vte
  else if vte.csi_argc ≥ CSI_ARG_MAX then some vte
  else
    (csi_argv_read vte.csi_argv vte.csi_argc).bind fun cur =>
    if cur > 0xffff then some vte
    else if 0x30 ≤ data ∧ data ≤ 0x39 then
      (csi_argv_read vte.csi_argv vte.csi_argc).bind fun new =>
      let new1 : Int :=
        if new ≤ 0 then int_of_uint32 ((data - 0x30) % 4294967296)
        else int_of_uint32 ((uint32_of_int (new * 10) + data - 0x30) % 4294967296)
      (csi_argv_write vte.csi_argv vte.csi_argc new1).bind fun argv =>
      some { vte with csi_argv := argv }
    else some vte

/-- Embedding of `do_esc`. -/
def do_esc (vte : kmscon_vte) (data : Nat) : kmscon_vte :=
  if data = 0x44 then emit vte (console_move_down 1 true)
  else if data = 0x45 then emit vte console_newline
  else if data = 0x48 then vte
  else if data = 0x4d then emit vte (console_move_up 1 true)
  else if data = 0x4e then vte
  else if data = 0x4f then vte
  else if data = 0x5a then vte
  else if data = 0x5c then vte
  else vte

/-- One round of the SGR loop of `do_csi`: the `switch (vte->csi_argv[i])`. -/
def sgr_apply (a : font_char_attr) (arg : Int) : font_char_attr :=
  if arg = -1 then a
  else if arg = 0 then
    { a with fr := 255, fg := 255, fb := 255, br := 0, bg := 0, bb := 0,
             bold := false, underline := false, inverse := false }
  else if arg = 1 then { a with bold := true }
  else if arg = 4 then { a with underline := true }
  else if arg = 7 then { a with inverse := true }
  else if arg = 22 then { a with bold := false }
  else if arg = 24 then { a with underline := false }
  else if arg = 27 then { a with inverse := false }
  else if arg = 30 then { a with fr := 0, fg := 0, fb := 0 }
  else if arg = 31 then { a with fr := 205, fg := 0, fb := 0 }
  else if arg = 32 then { a with fr := 0, fg := 205, fb := 0 }
  else if arg = 33 then { a with fr := 205, fg := 205, fb := 0 }
  else if arg = 34 then { a with fr := 0, fg := 0, fb := 238 }
  else if arg = 35 then { a with fr := 205, fg := 0, fb := 205 }
  else if arg = 36 then { a with fr := 0, fg := 205, fb := 205 }
  else if arg = 37 then { a with fr := 255, fg := 255, fb := 255 }
  else a

/-- The `num` of the cursor moves of `do_csi`: `csi_argv[0]`, or 1 when that
is not positive. -/
def csi_num (vte : kmscon_vte) : Int :=
  if vte.csi_argv.get 0 ≤ 0 then 1 else vte.csi_argv.get 0

/-- Embedding of `do_csi`.  Every index it uses is a constant below
`CSI_ARG_MAX` (0, or the loop counter of the SGR loop). -/
def do_csi (vte0 : kmscon_vte) (data : Nat) : kmscon_vte :=
  let vte : kmscon_vte :=
    if vte0.csi_argc < CSI_ARG_MAX then { vte0 with csi_argc := vte0.csi_argc + 1 } else vte0
  if data = 0x41 then emit vte (console_move_up (csi_num vte) false)
  else if data = 0x42 then emit vte (console_move_down (csi_num vte) false)
  else if data = 0x43 then emit vte (console_move_right (csi_num vte))
  else if data = 0x44 then emit vte (console_move_left (csi_num vte))
  else if data = 0x4a then
    if vte.csi_argv.get 0 ≤ 0 then emit vte console_erase_cursor_to_screen
    else if vte.csi_argv.get 0 = 1 then emit vte console_erase_screen_to_cursor
    else if vte.csi_argv.get 0 = 2 then emit vte console_erase_screen
    else vte
  else if data = 0x4b then
    if vte.csi_argv.get 0 ≤ 0 then emit vte console_erase_cursor_to_end
    else if vte.csi_argv.get 0 = 1 then emit vte console_erase_home_to_cursor
    else if vte.csi_argv.get 0 = 2 then emit vte console_erase_current_line
    else vte
  else if data = 0x6d then
    { vte with cattr := vte.csi_argv.toList.foldl sgr_apply vte.cattr }
  else if data = 0x70 then vte
  else vte

/-- Embedding of `do_action`: perform parser action. -/
def do_action (vte : kmscon_vte) (data : Nat) (action : parser_action) : Option kmscon_vte :=
  match action with
  | ACTION_NONE => some vte
  | ACTION_IGNORE => some vte
  | ACTION_PRINT => some (emit vte (console_write (kmscon_symbol_t.make data) vte.cattr))
  | ACTION_EXECUTE => some (do_execute vte data)
  | ACTION_CLEAR => some (do_clear vte)
  | ACTION_COLLECT => some (do_collect vte data)
  | ACTION_PARAM => do_param vte data
  | ACTION_ESC_DISPATCH => some (do_esc vte data)
  | ACTION_CSI_DISPATCH => some (do_csi vte data)
  | ACTION_DCS_START => some vte
  | ACTION_DCS_COLLECT => some vte
  | ACTION_DCS_END => some vte
  | ACTION_OSC_START => some vte
  | ACTION_OSC_COLLECT => some vte
  | ACTION_OSC_END => some vte
  | ACTION_NUM => some vte

/-- The table `entry_action[]`; entries without an initializer are 0, that is
`ACTION_NONE`. -/
def entry_action : parser_state → parser_action
  | STATE_CSI_ENTRY => ACTION_CLEAR
  | STATE_DCS_ENTRY => ACTION_CLEAR
  | STATE_DCS_PASS => ACTION_DCS_START
  | STATE_ESC => ACTION_CLEAR
  | STATE_OSC_STRING => ACTION_OSC_START
  | STATE_NUM => ACTION_NONE
  | _ => ACTION_NONE

/-- The table `exit_action[]`. -/
def exit_action : parser_state → parser_action
  | STATE_DCS_PASS => ACTION_DCS_END
  | STATE_OSC_STRING => ACTION_OSC_END
  | STATE_NUM => ACTION_NONE
  | _ => ACTION_NONE

/-- Embedding of `do_trans`: perform state transition and dispatch related
actions. -/
def do_trans (vte : kmscon_vte) (data : Nat) (state : parser_state) (act : parser_action) :
    Option kmscon_vte :=
  if state ≠ STATE_NONE then
    (do_action vte data (exit_action vte.state)).bind fun v1 =>
    (do_action v1 data act).bind fun v2 =>
    (do_action v2 data (entry_action state)).bind fun v3 =>
    some { v3 with state := state }
  else
    do_action vte data act

/-! ## The escape sequence parser (`parse_data`) -/

/-- A `case lo ... hi:` label. -/
abbrev in_range (raw lo hi : Nat) : Prop := lo ≤ raw ∧ raw ≤ hi

/-- The labels `case 0x00 ... 0x17: case 0x19: case 0x1c ... 0x1f:` that open
every per-state switch. -/
abbrev c0_label (raw : Nat) : Prop := raw ≤ 0x17 ∨ raw = 0x19 ∨ in_range raw 0x1c 0x1f

/-- First switch of `parse_data`, "events that may occur in any state": the
arguments of the `do_trans` call taken, `none` when no label matches. -/
def anywhere_rule (raw : Nat) : Option (parser_state × parser_action) :=
  if raw = 0x18 ∨ raw = 0x1a ∨ in_range raw 0x80 0x8f ∨ in_range raw 0x91 0x97 ∨
      raw = 0x99 ∨ raw = 0x9a ∨ raw = 0x9c then some (STATE_GROUND, ACTION_EXECUTE)
  else if raw = 0x1b then some (STATE_ESC, ACTION_NONE)
  else if raw = 0x98 ∨ raw = 0x9e ∨ raw = 0x9f then some (STATE_ST_IGNORE, ACTION_NONE)
  else if raw = 0x90 then some (STATE_DCS_ENTRY, ACTION_NONE)
  else if raw = 0x9d then some (STATE_OSC_STRING, ACTION_NONE)
  else if raw = 0x9b then some (STATE_CSI_ENTRY, ACTION_NONE)
  else none

/-- Second switch of `parse_data`, "events that depend on the current state":
the arguments of the `do_trans` call taken in state `st`, `none` when the
switch over the state has no arm for `st`. -/
def state_rule (st : parser_state) (raw : Nat) : Option (parser_state × parser_action) :=
  match st with
  | STATE_GROUND =>
    if c0_label raw ∨ in_range raw 0x80 0x8f ∨ in_range raw 0x91 0x9a ∨ raw = 0x9c then
      some (STATE_NONE, ACTION_EXECUTE)
    else if in_range raw 0x20 0x7f then some (STATE_NONE, ACTION_PRINT)
    else some (STATE_NONE, ACTION_PRINT)
  | STATE_ESC =>
    if c0_label raw then some (STATE_NONE, ACTION_EXECUTE)
    else if raw = 0x7f then some (STATE_NONE, ACTION_IGNORE)
    else if in_range raw 0x20 0x2f then some (STATE_ESC_INT, ACTION_COLLECT)
    else if in_range raw 0x30 0x4f ∨ in_range raw 0x51 0x57 ∨ raw = 0x59 ∨ raw = 0x5a ∨
        raw = 0x5c ∨ in_range raw 0x60 0x7e then some (STATE_GROUND, ACTION_ESC_DISPATCH)
    else if raw = 0x5b then some (STATE_CSI_ENTRY, ACTION_NONE)
    else if raw = 0x5d then some (STATE_OSC_STRING, ACTION_NONE)
    else if raw = 0x50 then some (STATE_DCS_ENTRY, ACTION_NONE)
    else if raw = 0x58 ∨ raw = 0x5e ∨ raw = 0x5f then some (STATE_ST_IGNORE, ACTION_NONE)
    else some (STATE_ESC_INT, ACTION_COLLECT)
  | STATE_ESC_INT =>
    if c0_label raw then some (STATE_NONE, ACTION_EXECUTE)
    else if in_range raw 0x20 0x2f then some (STATE_NONE, ACTION_COLLECT)
    else if raw = 0x7f then some (STATE_NONE, ACTION_IGNORE)
    else if in_range raw 0x30 0x7e then some (STATE_GROUND, ACTION_ESC_DISPATCH)
    else some (STATE_NONE, ACTION_COLLECT)
  | STATE_CSI_ENTRY =>
    if c0_label raw then some (STATE_NONE, ACTION_EXECUTE)
    else if raw = 0x7f then some (STATE_NONE, ACTION_IGNORE)
    else if in_range raw 0x20 0x2f then some (STATE_CSI_INT, ACTION_COLLECT)
    else if raw = 0x3a then some (STATE_CSI_IGNORE, ACTION_NONE)
    else if in_range raw 0x30 0x39 ∨ raw = 0x3b then some (STATE_CSI_PARAM, ACTION_PARAM)
    else if in_range raw 0x3c 0x3f then some (STATE_CSI_PARAM, ACTION_COLLECT)
    else if in_range raw 0x40 0x7e then some (STATE_GROUND, ACTION_CSI_DISPATCH)
    else some (STATE_CSI_IGNORE, ACTION_NONE)
  | STATE_CSI_PARAM =>
    if c0_label raw then some (STATE_NONE, ACTION_EXECUTE)
    else if in_range raw 0x30 0x39 ∨ raw = 0x3b then some (STATE_NONE, ACTION_PARAM)
    else if raw = 0x7f then some (STATE_NONE, ACTION_IGNORE)
    else if raw = 0x3a ∨ in_range raw 0x3c 0x3f then some (STATE_CSI_IGNORE, ACTION_NONE)
    else if in_range raw 0x20 0x2f then some (STATE_CSI_INT, ACTION_COLLECT)
    else if in_range raw 0x40 0x7e then some (STATE_GROUND, ACTION_CSI_DISPATCH)
    else some (STATE_CSI_IGNORE, ACTION_NONE)
  | STATE_CSI_INT =>
    if c0_label raw then some (STATE_NONE, ACTION_EXECUTE)
    else if in_range raw 0x20 0x2f then some (STATE_NONE, ACTION_COLLECT)
    else if raw = 0x7f then some (STATE_NONE, ACTION_IGNORE)
    else if in_range raw 0x30 0x3f then some (STATE_CSI_IGNORE, ACTION_NONE)
    else if in_range raw 0x40 0x7e then some (STATE_GROUND, ACTION_CSI_DISPATCH)
    else some (STATE_CSI_IGNORE, ACTION_NONE)
  | STATE_CSI_IGNORE =>
    if c0_label raw then some (STATE_NONE, ACTION_EXECUTE)
    else if in_range raw 0x20 0x3f ∨ raw = 0x7f then some (STATE_NONE, ACTION_IGNORE)
    else if in_range raw 0x40 0x7e then some (STATE_GROUND, ACTION_NONE)
    else some (STATE_NONE, ACTION_IGNORE)
  | STATE_DCS_ENTRY =>
    if c0_label raw ∨ raw = 0x7f then some (STATE_NONE, ACTION_IGNORE)
    else if raw = 0x3a then some (STATE_DCS_IGNORE, ACTION_NONE)
    else if in_range raw 0x20 0x2f then some (STATE_DCS_INT, ACTION_COLLECT)
    else if in_range raw 0x30 0x39 ∨ raw = 0x3b then some (STATE_DCS_PARAM, ACTION_PARAM)
    else if in_range raw 0x3c 0x3f then some (STATE_DCS_PARAM, ACTION_COLLECT)
    else if in_range raw 0x40 0x7e then some (STATE_DCS_PASS, ACTION_NONE)
    else some (STATE_DCS_PASS, ACTION_NONE)
  | STATE_DCS_PARAM =>
    if c0_label raw ∨ raw = 0x7f then some (STATE_NONE, ACTION_IGNORE)
    else if in_range raw 0x30 0x39 ∨ raw = 0x3b then some (STATE_NONE, ACTION_PARAM)
    else if raw = 0x3a ∨ in_range raw 0x3c 0x3f then some (STATE_DCS_IGNORE, ACTION_NONE)
    else if in_range raw 0x20 0x2f then some (STATE_DCS_INT, ACTION_COLLECT)
    else if in_range raw 0x40 0x7e then some (STATE_DCS_PASS, ACTION_NONE)
    else some (STATE_DCS_PASS, ACTION_NONE)
  | STATE_DCS_INT =>
    if c0_label raw ∨ raw = 0x7f then some (STATE_NONE, ACTION_IGNORE)
    else if in_range raw 0x20 0x2f then some (STATE_NONE, ACTION_COLLECT)
    else if in_range raw 0x30 0x3f then some (STATE_DCS_IGNORE, ACTION_NONE)
    else if in_range raw 0x40 0x7e then some (STATE_DCS_PASS, ACTION_NONE)
    else some (STATE_DCS_PASS, ACTION_NONE)
  | STATE_DCS_PASS =>
    if c0_label raw ∨ in_range raw 0x20 0x7e then some (STATE_NONE, ACTION_DCS_COLLECT)
    else if raw = 0x7f then some (STATE_NONE, ACTION_IGNORE)
    else if raw = 0x9c then some (STATE_GROUND, ACTION_NONE)
    else some (STATE_NONE, ACTION_DCS_COLLECT)
  | STATE_DCS_IGNORE =>
    if c0_label raw ∨ in_range raw 0x20 0x7f then some (STATE_NONE, ACTION_IGNORE)
    else if raw = 0x9c then some (STATE_GROUND, ACTION_NONE)
    else some (STATE_NONE, ACTION_IGNORE)
  | STATE_OSC_STRING =>
    if c0_label raw then some (STATE_NONE, ACTION_IGNORE)
    else if in_range raw 0x20 0x7f then some (STATE_NONE, ACTION_OSC_COLLECT)
    else if raw = 0x9c then some (STATE_GROUND, ACTION_NONE)
    else some (STATE_NONE, ACTION_OSC_COLLECT)
  | STATE_ST_IGNORE =>
    if c0_label raw ∨ in_range raw 0x20 0x7f then some (STATE_NONE, ACTION_IGNORE)
    else if raw = 0x9c then some (STATE_GROUND, ACTION_NONE)
    else some (STATE_NONE, ACTION_IGNORE)
  | STATE_NONE => none
  | STATE_NUM => none

/-- Embedding of `parse_data`: the first switch is tried, then the switch over
the current state; each arm is one `do_trans` call followed by `return`.  When
neither switch has an arm the function only logs and the terminal is
unchanged. -/
def parse_data (vte : kmscon_vte) (raw : Nat) : Option kmscon_vte :=
  match anywhere_rule raw with
  | some (state, act) => do_trans vte raw state act
  | none =>
    match state_rule vte.state raw with
    | some (state, act) => do_trans vte raw state act
    | none => some vte

/-- Feeding code points to `parse_data` one after the other. -/
def parse_all : kmscon_vte → List Nat → Option kmscon_vte
  | vte, [] => some vte
  | vte, raw :: rest => (parse_data vte raw).bind fun v => parse_all v rest

/-- Embedding of `kmscon_vte_input`: each `char` of `u8` is fed to the decoder,
and the decoder's code point goes to `parse_data` whenever the decoder returns
ACCEPT or REJECT. -/
def kmscon_vte_input : kmscon_vte → List Int → Option kmscon_vte
  | vte, [] => some vte
  | vte, c :: rest =>
    let mach := tsm_utf8_mach_feed vte.mach c
    if mach.state = TSM_UTF8_ACCEPT ∨ mach.state = TSM_UTF8_REJECT then
      (parse_data { vte with mach := mach } (tsm_utf8_mach_get mach)).bind fun v =>
        kmscon_vte_input v rest
    else
      kmscon_vte_input { vte with mach := mach } rest

/-- The code points `kmscon_vte_input` hands to `parse_data` while it reads
`u8` with a decoder that starts as `mach`, in order. -/
def vte_input_ucs4 : tsm_utf8_mach → List Int → List Nat
  | _, [] => []
  | mach, c :: rest =>
    let mach1 := tsm_utf8_mach_feed mach c
    if mach1.state = TSM_UTF8_ACCEPT ∨ mach1.state = TSM_UTF8_REJECT then
      tsm_utf8_mach_get mach1 :: vte_input_ucs4 mach1 rest
    else
      vte_input_ucs4 mach1 rest

/-! ## Auxiliary definitions used in the statements -/

/-- The digit step of PARAM on a slot value: a slot that is unset or zero is
seeded with the digit, another one is multiplied by ten first. -/
def param_digit (cur : Int) (data : Nat) : Int :=
  if cur ≤ 0 then (data : Int) - 48 else cur * 10 + ((data : Int) - 48)

/-- The code points of the first arm of the first switch of `parse_data`. -/
abbrev anywhere_execute (raw : Nat) : Prop :=
  raw = 0x18 ∨ raw = 0x1a ∨ in_range raw 0x80 0x8f ∨ in_range raw 0x91 0x97 ∨
    raw = 0x99 ∨ raw = 0x9a ∨ raw = 0x9c

/-- The 14 states of the parser, that is `enum parser_state` without the
placeholder `STATE_NONE` and the counter `STATE_NUM`. -/
def parser_states : List parser_state :=
  [STATE_GROUND, STATE_ESC, STATE_ESC_INT, STATE_CSI_ENTRY, STATE_CSI_PARAM, STATE_CSI_INT,
   STATE_CSI_IGNORE, STATE_DCS_ENTRY, STATE_DCS_PARAM, STATE_DCS_INT, STATE_DCS_PASS,
   STATE_DCS_IGNORE, STATE_OSC_STRING, STATE_ST_IGNORE]

/-- Every slot of the parameter vector lies between `lo` and `hi`. -/
def argv_within (lo hi : Int) (vte : kmscon_vte) : Prop :=
  ∀ i : Fin CSI_ARG_MAX, lo ≤ vte.csi_argv.get i ∧ vte.csi_argv.get i ≤ hi

/-- The terminal `w` differs from `v` in its trace at most. -/
def same_but_trace (v w : kmscon_vte) : Prop :=
  w.mach = v.mach ∧ w.state = v.state ∧ w.csi_argc = v.csi_argc ∧ w.csi_argv = v.csi_argv ∧
    w.cattr = v.cattr ∧ w.flags = v.flags

/-- The terminal `w` differs from `v` in its attributes and trace at most. -/
def same_but_cattr_trace (v w : kmscon_vte) : Prop :=
  w.mach = v.mach ∧ w.state = v.state ∧ w.csi_argc = v.csi_argc ∧ w.csi_argv = v.csi_argv ∧
    w.flags = v.flags

/-- The decoder is at the start of a sequence. -/
def at_sequence_start (s : tsm_utf8_mach_state) : Prop :=
  s = TSM_UTF8_START ∨ s = TSM_UTF8_ACCEPT ∨ s = TSM_UTF8_REJECT

/-- The `uint32_t` the decoder works on when it is fed byte `b` through its
`char` parameter. -/
def fed_uint32 (char_signed : Bool) (b : Nat) : Nat :=
  uint32_of_int (char_of_byte char_signed b)

/-- The standard UTF-8 encoding of a code point up to 0x10FFFF (RFC 3629):
one byte below 0x80, two below 0x800, three below 0x10000, four otherwise. -/
def utf8_encode (cp : Nat) : List Nat :=
  if cp < 0x80 then [cp]
  else if cp < 0x800 then [0xC0 + cp / 64, 0x80 + cp % 64]
  else if cp < 0x10000 then [0xE0 + cp / 4096, 0x80 + cp / 64 % 64, 0x80 + cp % 64]
  else [0xF0 + cp / 262144, 0x80 + cp / 4096 % 64, 0x80 + cp / 64 % 64, 0x80 + cp % 64]

/-- Unicode scalar values: 0..0x10FFFF without the surrogates 0xD800..0xDFFF. -/
def is_unicode_scalar (cp : Nat) : Prop :=
  cp ≤ 0x10FFFF ∧ ¬ (0xD800 ≤ cp ∧ cp ≤ 0xDFFF)

instance (cp : Nat) : Decidable (is_unicode_scalar cp) := by
  unfold is_unicode_scalar
  infer_instance

/-- A continuation byte, 10xxxxxx. -/
abbrev is_cont_byte (b : Nat) : Prop := 0x80 ≤ b ∧ b ≤ 0xBF

/-- Payload of a 2-, 3- or 4-byte sequence made of a correct lead byte
(110xxxxx, 1110xxxx, 11110xxx) and continuation bytes: the value its payload
bits spell.  `none` for every other list of bytes. -/
def utf8_payload : List Nat → Option Nat
  | [l, c1] =>
    if 0xC0 ≤ l ∧ l ≤ 0xDF ∧ is_cont_byte c1 then
      some ((l - 0xC0) * 64 + (c1 - 0x80))
    else none
  | [l, c1, c2] =>
    if 0xE0 ≤ l ∧ l ≤ 0xEF ∧ is_cont_byte c1 ∧ is_cont_byte c2 then
      some ((l - 0xE0) * 4096 + (c1 - 0x80) * 64 + (c2 - 0x80))
    else none
  | [l, c1, c2, c3] =>
    if 0xF0 ≤ l ∧ l ≤ 0xF7 ∧ is_cont_byte c1 ∧ is_cont_byte c2 ∧ is_cont_byte c3 then
      some ((l - 0xF0) * 262144 + (c1 - 0x80) * 4096 + (c2 - 0x80) * 64 + (c3 - 0x80))
    else none
  | _ => none

/-- An overlong encoding: a sequence with a correct lead byte and continuation
bytes whose payload would fit a shorter encoding. -/
def is_overlong (bs : List Nat) : Prop :=
  ∃ v, utf8_payload bs = some v ∧
    ((bs.length = 2 ∧ v < 0x80) ∨ (bs.length = 3 ∧ v < 0x800) ∨
      (bs.length = 4 ∧ v < 0x10000))

/-- The terminal with its decoder replaced. -/
def set_mach (m : tsm_utf8_mach) (vte : kmscon_vte) : kmscon_vte :=
  { vte with mach := m }

/-- Well-formed UTF-8 (RFC 3629, Unicode table 3-7), read byte by byte:
`need` continuation bytes are still due, the next of them within `lo..hi`. -/
def utf8_valid_from : Nat → Nat → Nat → List Nat → Bool
  | need, _, _, [] => need == 0
  | 0, _, _, b :: rest =>
    if b < 0x80 then utf8_valid_from 0 0x80 0xBF rest
    else if 0xC2 ≤ b ∧ b ≤ 0xDF then utf8_valid_from 1 0x80 0xBF rest
    else if b = 0xE0 then utf8_valid_from 2 0xA0 0xBF rest
    else if (0xE1 ≤ b ∧ b ≤ 0xEC) ∨ b = 0xEE ∨ b = 0xEF then utf8_valid_from 2 0x80 0xBF rest
    else if b = 0xED then utf8_valid_from 2 0x80 0x9F rest
    else if b = 0xF0 then utf8_valid_from 3 0x90 0xBF rest
    else if 0xF1 ≤ b ∧ b ≤ 0xF3 then utf8_valid_from 3 0x80 0xBF rest
    else if b = 0xF4 then utf8_valid_from 3 0x80 0x8F rest
    else false
  | need + 1, lo, hi, b :: rest =>
    if lo ≤ b ∧ b ≤ hi then utf8_valid_from need 0x80 0xBF rest else false

/-- A byte sequence is valid UTF-8. -/
def utf8_valid (bs : List Nat) : Bool :=
  utf8_valid_from 0 0x80 0xBF bs

instance (s : tsm_utf8_mach_state) : Decidable (at_sequence_start s) := by
  unfold at_sequence_start
  infer_instance

/-- A code point PARAM is run on in CSI_ENTRY and CSI_PARAM: a digit or ';'. -/
abbrev is_param_char (raw : Nat) : Prop := in_range raw 0x30 0x39 ∨ raw = 0x3b

/-- The terminal with its parser state replaced. -/
def set_state (st : parser_state) (vte : kmscon_vte) : kmscon_vte :=
  { vte with state := st }

/-- The value a list of decimal digits (code points '0'..'9') spells. -/
def decimal_value (p : List Nat) : Nat :=
  p.foldl (fun acc d => acc * 10 + (d - 0x30)) 0

/-- The value of a CSI parameter given by its digits: −1 when it is empty. -/
def csi_param_value (p : List Nat) : Int :=
  if p = [] then -1 else (decimal_value p : Int)

/-- The parameters are as CLEAR leaves them: count 0 and every slot −1. -/
def params_cleared (vte : kmscon_vte) : Prop :=
  vte.csi_argc = 0 ∧ ∀ i : Fin CSI_ARG_MAX, vte.csi_argv.get i = -1

/-- The states whose entry action is CLEAR. -/
abbrev clear_on_entry (st : parser_state) : Prop :=
  st = STATE_ESC ∨ st = STATE_CSI_ENTRY ∨ st = STATE_DCS_ENTRY

/-- The terminal after the first statement of `do_csi`: the count advanced by
one, saturating at `CSI_ARG_MAX`. -/
def csi_bump (vte : kmscon_vte) : kmscon_vte :=
  if vte.csi_argc < CSI_ARG_MAX then { vte with csi_argc := vte.csi_argc + 1 } else vte

/-- The code points of a CSI sequence: ESC [, the parameters (each a list of
digits) joined with ';', and the final byte. -/
def csi_sequence (ps : List (List Nat)) (final : Nat) : List Nat :=
  0x1b :: 0x5b :: (List.intercalate [0x3b] ps ++ [final])

/-- Well-formed parameters of a CSI sequence: at most 16, each a possibly empty
list of decimal digits of value at most 65535. -/
def csi_params_ok (ps : List (List Nat)) : Prop :=
  ps.length ≤ 16 ∧ ∀ p ∈ ps, (∀ d ∈ p, 0x30 ≤ d ∧ d ≤ 0x39) ∧ decimal_value p ≤ 65535

instance (ps : List (List Nat)) : Decidable (csi_params_ok ps) := by
  unfold csi_params_ok
  infer_instance

/-- The first parameter of a CSI sequence as dispatch reads it: −1 when there
is none or when it is empty. -/
def csi_first_param (ps : List (List Nat)) : Int :=
  (ps.map csi_param_value).headD (-1)

/-- The foreground triple SGR 30..37 selects (the fixed ANSI table). -/
def ansi_foreground (n : Nat) : Nat × Nat × Nat :=
  if n = 30 then (0, 0, 0)
  else if n = 31 then (205, 0, 0)
  else if n = 32 then (0, 205, 0)
  else if n = 33 then (205, 205, 0)
  else if n = 34 then (0, 0, 238)
  else if n = 35 then (205, 0, 205)
  else if n = 36 then (0, 205, 205)
  else (255, 255, 255)

/-- The screen operations ED (CSI J) issues for a first parameter `a0`. -/
def ed_operations (a0 : Int) : List vte_event :=
  if a0 ≤ 0 then [console_erase_cursor_to_screen]
  else if a0 = 1 then [console_erase_screen_to_cursor]
  else if a0 = 2 then [console_erase_screen]
  else []

/-- The screen operations EL (CSI K) issues for a first parameter `a0`. -/
def el_operations (a0 : Int) : List vte_event :=
  if a0 ≤ 0 then [console_erase_cursor_to_end]
  else if a0 = 1 then [console_erase_home_to_cursor]
  else if a0 = 2 then [console_erase_current_line]
  else []

/-- The distance of a cursor move for a first parameter `a0`: `a0` when it is
at least 1, and 1 otherwise. -/
def move_distance (a0 : Int) : Int :=
  if a0 ≥ 1 then a0 else 1

/-- The final bytes ESC dispatches in state ESC: 0x30..0x7E without the six
introducers 0x50, 0x58, 0x5B, 0x5D, 0x5E, 0x5F. -/
abbrev esc_final (raw : Nat) : Prop :=
  in_range raw 0x30 0x4f ∨ in_range raw 0x51 0x57 ∨ raw = 0x59 ∨ raw = 0x5a ∨
    raw = 0x5c ∨ in_range raw 0x60 0x7e

/-! ## Keyboard translator (`kmscon_vte_handle_keyboard` of `vte.c`) -/

/-- The keysyms `kmscon_vte_handle_keyboard` names in a `case` label, with the
names of `X11/keysym.h`; `XK_other` stands for every keysym without a label. -/
inductive KeySym where
  | XK_2 | XK_space
  | XK_a | XK_A | XK_b | XK_B | XK_c | XK_C | XK_d | XK_D | XK_e | XK_E | XK_f | XK_F
  | XK_g | XK_G | XK_h | XK_H | XK_i | XK_I | XK_j | XK_J | XK_k | XK_K | XK_l | XK_L
  | XK_m | XK_M | XK_n | XK_N | XK_o | XK_O | XK_p | XK_P | XK_q | XK_Q | XK_r | XK_R
  | XK_s | XK_S | XK_t | XK_T | XK_u | XK_U | XK_v | XK_V | XK_w | XK_W | XK_x | XK_X
  | XK_y | XK_Y | XK_z | XK_Z
  | XK_3 | XK_bracketleft | XK_braceleft
  | XK_4 | XK_backslash | XK_bar
  | XK_5 | XK_bracketright | XK_braceright
  | XK_6 | XK_grave | XK_asciitilde
  | XK_7 | XK_slash | XK_question
  | XK_8
  | XK_BackSpace | XK_Tab | XK_KP_Tab | XK_Linefeed | XK_Clear | XK_Pause
  | XK_Scroll_Lock | XK_Sys_Req | XK_Escape
  | XK_KP_Enter | XK_Return
  | XK_Insert | XK_Delete | XK_Page_Up | XK_Page_Down
  | XK_Up | XK_Down | XK_Right | XK_Left
  | XK_KP_Insert | XK_KP_0 | XK_KP_End | XK_KP_1 | XK_KP_Down | XK_KP_2
  | XK_KP_Page_Down | XK_KP_3 | XK_KP_Left | XK_KP_4 | XK_KP_Begin | XK_KP_5
  | XK_KP_Right | XK_KP_6 | XK_KP_Home | XK_KP_7 | XK_KP_Up | XK_KP_8
  | XK_KP_Page_Up | XK_KP_9
  | XK_KP_Subtract | XK_KP_Separator | XK_KP_Delete | XK_KP_Decimal
  | XK_KP_Equal | XK_KP_Divide | XK_KP_Multiply | XK_KP_Add
  | XK_F1 | XK_KP_F1 | XK_F2 | XK_KP_F2 | XK_F3 | XK_KP_F3 | XK_F4 | XK_KP_F4
  | XK_KP_Space | XK_Home | XK_End
  | XK_F5 | XK_F6 | XK_F7 | XK_F8 | XK_F9 | XK_F10 | XK_F11 | XK_F12
  | XK_F13 | XK_F14 | XK_F15 | XK_F16 | XK_F17 | XK_F18 | XK_F19 | XK_F20
  | XK_other
  deriving DecidableEq, Repr

open KeySym

/-- Modelled from the spec: `struct uterm_input_event` of `uterm.h`, a header
that is not among the sources; the fields `kmscon_vte_handle_keyboard` reads
are the keysym, the modifier mask and the Unicode code point (a `uint32_t`). -/
structure uterm_input_event where
  keysym : KeySym
  mods : Nat
  unicode : Nat
  deriving DecidableEq, Repr

/-- Modelled from the spec: the modifier bit `UTERM_CONTROL_MASK` of `uterm.h`,
`1 << 2`. -/
def UTERM_CONTROL_MASK : Nat := 4

/-- Modelled from the spec: the value `UTERM_INPUT_INVALID` of `uterm.h` that
marks an event without a code point. -/
def UTERM_INPUT_INVALID : Nat := 0xffffffff

/-- Modelled from the spec: the macro `UTERM_INPUT_HAS_MODS` of `uterm.h`,
`((ev->mods & mods) == mods)`. -/
def UTERM_INPUT_HAS_MODS (ev : uterm_input_event) (mods : Nat) : Bool :=
  ev.mods &&& mods = mods

/-- The first switch of `kmscon_vte_handle_keyboard`, entered when Control is
held: the bytes of the `vte_write` call of the arm taken (every arm returns),
`none` when no label matches. -/
def control_key : KeySym → Option (List Nat)
  | XK_2 | XK_space => some [0x00]
  | XK_a | XK_A => some [0x01]
  | XK_b | XK_B => some [0x02]
  | XK_c | XK_C => some [0x03]
  | XK_d | XK_D => some [0x04]
  | XK_e | XK_E => some [0x05]
  | XK_f | XK_F => some [0x06]
  | XK_g | XK_G => some [0x07]
  | XK_h | XK_H => some [0x08]
  | XK_i | XK_I => some [0x09]
  | XK_j | XK_J => some [0x0a]
  | XK_k | XK_K => some [0x0b]
  | XK_l | XK_L => some [0x0c]
  | XK_m | XK_M => some [0x0d]
  | XK_n | XK_N => some [0x0e]
  | XK_o | XK_O => some [0x0f]
  | XK_p | XK_P => some [0x10]
  | XK_q | XK_Q => some [0x11]
  | XK_r | XK_R => some [0x12]
  | XK_s | XK_S => some [0x13]
  | XK_t | XK_T => some [0x14]
  | XK_u | XK_U => some [0x15]
  | XK_v | XK_V => some [0x16]
  | XK_w | XK_W => some [0x17]
  | XK_x | XK_X => some [0x18]
  | XK_y | XK_Y => some [0x19]
  | XK_z | XK_Z => some [0x1a]
  | XK_3 | XK_bracketleft | XK_braceleft => some [0x1b]
  | XK_4 | XK_backslash | XK_bar => some [0x1c]
  | XK_5 | XK_bracketright | XK_braceright => some [0x1d]
  | XK_6 | XK_grave | XK_asciitilde => some [0x1e]
  | XK_7 | XK_slash | XK_question => some [0x1f]
  | XK_8 => some [0x7f]
  | _ => none

/-- The second switch of `kmscon_vte_handle_keyboard`: the bytes of the
`vte_write` call of the arm taken (every arm returns after one write; the arm
of `XK_KP_Enter` falls through to `XK_Return` outside keypad application mode),
`none` when no label matches.  ESC is 0x1b. -/
def named_key (flags : Nat) : KeySym → Option (List Nat)
  | XK_BackSpace => some [0x08]
  | XK_Tab | XK_KP_Tab => some [0x09]
  | XK_Linefeed => some [0x0a]
  | XK_Clear => some [0x0b]
  | XK_Pause => some [0x13]
  | XK_Scroll_Lock => some [0x14]
  | XK_Sys_Req => some [0x15]
  | XK_Escape => some [0x1b]
  | XK_KP_Enter =>
    if flags &&& FLAG_KEYPAD_APPLICATION_MODE ≠ 0 then some [0x1b, 0x4f, 0x4d]
    else if flags &&& FLAG_LINE_FEED_NEW_LINE_MODE ≠ 0 then some [0x0d, 0x0a]
    else some [0x0d]
  | XK_Return =>
    if flags &&& FLAG_LINE_FEED_NEW_LINE_MODE ≠ 0 then some [0x0d, 0x0a]
    else some [0x0d]
  | XK_Insert => some [0x1b, 0x5b, 0x32, 0x7e]
  | XK_Delete => some [0x1b, 0x5b, 0x33, 0x7e]
  | XK_Page_Up => some [0x1b, 0x5b, 0x35, 0x7e]
  | XK_Page_Down => some [0x1b, 0x5b, 0x36, 0x7e]
  | XK_Up =>
    if flags &&& FLAG_CURSOR_KEY_MODE ≠ 0 then some [0x1b, 0x5b, 0x41]
    else some [0x1b, 0x5b, 0x41]
  | XK_Down =>
    if flags &&& FLAG_CURSOR_KEY_MODE ≠ 0 then some [0x1b, 0x5b, 0x42]
    else some [0x1b, 0x5b, 0x42]
  | XK_Right =>
    if flags &&& FLAG_CURSOR_KEY_MODE ≠ 0 then some [0x1b, 0x5b, 0x43]
    else some [0x1b, 0x5b, 0x43]
  | XK_Left =>
    if flags &&& FLAG_CURSOR_KEY_MODE ≠ 0 then some [0x1b, 0x4f, 0x44]
    else some [0x1b, 0x5b, 0x44]
  | XK_KP_Insert | XK_KP_0 =>
    if flags &&& FLAG_KEYPAD_APPLICATION_MODE ≠ 0 then some [0x1b, 0x4f, 0x70]
    else some [0x30]
  | XK_KP_End | XK_KP_1 =>
    if flags &&& FLAG_KEYPAD_APPLICATION_MODE ≠ 0 then some [0x1b, 0x4f, 0x71]
    else some [0x31]
  | XK_KP_Down | XK_KP_2 =>
    if flags &&& FLAG_KEYPAD_APPLICATION_MODE ≠ 0 then some [0x1b, 0x4f, 0x72]
    else some [0x32]
  | XK_KP_Page_Down | XK_KP_3 =>
    if flags &&& FLAG_KEYPAD_APPLICATION_MODE ≠ 0 then some [0x1b, 0x4f, 0x73]
    else some [0x33]
  | XK_KP_Left | XK_KP_4 =>
    if flags &&& FLAG_KEYPAD_APPLICATION_MODE ≠ 0 then some [0x1b, 0x4f, 0x74]
    else some [0x34]
  | XK_KP_Begin | XK_KP_5 =>
    if flags &&& FLAG_KEYPAD_APPLICATION_MODE ≠ 0 then some [0x1b, 0x4f, 0x75]
    else some [0x35]
  | XK_KP_Right | XK_KP_6 =>
    if flags &&& FLAG_KEYPAD_APPLICATION_MODE ≠ 0 then some [0x1b, 0x4f, 0x76]
    else some [0x36]
  | XK_KP_Home | XK_KP_7 =>
    if flags &&& FLAG_KEYPAD_APPLICATION_MODE ≠ 0 then some [0x1b, 0x4f, 0x77]
    else some [0x37]
  | XK_KP_Up | XK_KP_8 =>
    if flags &&& FLAG_KEYPAD_APPLICATION_MODE ≠ 0 then some [0x1b, 0x4f, 0x78]
    else some [0x38]
  | XK_KP_Page_Up | XK_KP_9 =>
    if flags &&& FLAG_KEYPAD_APPLICATION_MODE ≠ 0 then some [0x1b, 0x4f, 0x79]
    else some [0x39]
  | XK_KP_Subtract =>
    if flags &&& FLAG_KEYPAD_APPLICATION_MODE ≠ 0 then some [0x1b, 0x4f, 0x6d]
    else some [0x2d]
  | XK_KP_Separator =>
    if flags &&& FLAG_KEYPAD_APPLICATION_MODE ≠ 0 then some [0x1b, 0x4f, 0x6c]
    else some [0x2c]
  | XK_KP_Delete | XK_KP_Decimal =>
    if flags &&& FLAG_KEYPAD_APPLICATION_MODE ≠ 0 then some [0x1b, 0x4f, 0x6e]
    else some [0x2e]
  | XK_KP_Equal | XK_KP_Divide =>
    if flags &&& FLAG_KEYPAD_APPLICATION_MODE ≠ 0 then some [0x1b, 0x4f, 0x6a]
    else some [0x2f]
  | XK_KP_Multiply =>
    if flags &&& FLAG_KEYPAD_APPLICATION_MODE ≠ 0 then some [0x1b, 0x4f, 0x6f]
    else some [0x2a]
  | XK_KP_Add =>
    if flags &&& FLAG_KEYPAD_APPLICATION_MODE ≠ 0 then some [0x1b, 0x4f, 0x6b]
    else some [0x2b]
  | XK_F1 | XK_KP_F1 => some [0x1b, 0x4f, 0x50]
  | XK_F2 | XK_KP_F2 => some [0x1b, 0x4f, 0x51]
  | XK_F3 | XK_KP_F3 => some [0x1b, 0x4f, 0x52]
  | XK_F4 | XK_KP_F4 => some [0x1b, 0x4f, 0x53]
  | XK_KP_Space => some [0x20]
  | XK_Home =>
    if flags &&& FLAG_CURSOR_KEY_MODE ≠ 0 then some [0x1b, 0x4f, 0x48]
    else some [0x1b, 0x5b, 0x48]
  | XK_End =>
    if flags &&& FLAG_CURSOR_KEY_MODE ≠ 0 then some [0x1b, 0x4f, 0x46]
    else some [0x1b, 0x5b, 0x46]
  | XK_F5 => some [0x1b, 0x5b, 0x31, 0x35, 0x7e]
  | XK_F6 => some [0x1b, 0x5b, 0x31, 0x37, 0x7e]
  | XK_F7 => some [0x1b, 0x5b, 0x31, 0x38, 0x7e]
  | XK_F8 => some [0x1b, 0x5b, 0x31, 0x39, 0x7e]
  | XK_F9 => some [0x1b, 0x5b, 0x32, 0x30, 0x7e]
  | XK_F10 => some [0x1b, 0x5b, 0x32, 0x31, 0x7e]
  | XK_F11 => some [0x1b, 0x5b, 0x32, 0x33, 0x7e]
  | XK_F12 => some [0x1b, 0x5b, 0x32, 0x34, 0x7e]
  | XK_F13 => some [0x1b, 0x5b, 0x32, 0x35, 0x7e]
  | XK_F14 => some [0x1b, 0x5b, 0x32, 0x36, 0x7e]
  | XK_F15 => some [0x1b, 0x5b, 0x32, 0x38, 0x7e]
  | XK_F16 => some [0x1b, 0x5b, 0x32, 0x39, 0x7e]
  | XK_F17 => some [0x1b, 0x5b, 0x33, 0x31, 0x7e]
  | XK_F18 => some [0x1b, 0x5b, 0x33, 0x32, 0x7e]
  | XK_F19 => some [0x1b, 0x5b, 0x33, 0x33, 0x7e]
  | XK_F20 => some [0x1b, 0x5b, 0x33, 0x34, 0x7e]
  | _ => none

/-- Embedding of `kmscon_vte_handle_keyboard`.  The function
`kmscon_symbol_get_u8`, which gives the UTF-8 bytes of a symbol and is not among
the sources, is the parameter `get_u8`. -/
def kmscon_vte_handle_keyboard (get_u8 : kmscon_symbol_t → List Nat) (vte : kmscon_vte)
    (ev : uterm_input_event) : kmscon_vte :=
  match (if UTERM_INPUT_HAS_MODS ev UTERM_CONTROL_MASK then control_key ev.keysym
      else none) with
  | some u8 => emit vte (vte_write u8)
  | none =>
    match named_key vte.flags ev.keysym with
    | some u8 => emit vte (vte_write u8)
    | none =>
      if ev.unicode ≠ UTERM_INPUT_INVALID then
        emit vte (vte_write (get_u8 (kmscon_symbol_t.make ev.unicode)))
      else vte

/-! ## Input method (`kmscon_im.h`, `kmscon_im.c`) -/

/-- One dictionary entry, `struct im_ime`: `pre` is the key, a NUL-terminated
string given by its bytes before the NUL, and `cand` the array of UCS-4
symbols. -/
structure im_ime where
  pre : List Nat
  cand : List Nat
  deriving DecidableEq, Repr

/-- The input method, `struct im`: each `shl_array` is the list of its
`length` elements. -/
structure im where
  preedit : List Nat
  candidates : List Nat
  pinyin : List im_ime
  selected : Int
  actived : Int
  deriving DecidableEq, Repr

/-- Embedding of `im_new`. -/
def im_new : im :=
  { preedit := [], candidates := [], pinyin := [], selected := -1, actived := 0 }

/-- Embedding of `im_reset`. -/
def im_reset (_im : im) : im :=
  { _im with preedit := [], candidates := [], selected := -1 }

/-- The sign of the C library's `strcmp` on two NUL-terminated strings, each
given by its bytes before the NUL: the bytes are compared as `unsigned char`
from the left, and a string that ends first is the smaller one.  (The C
standard fixes only the sign of the result, and the callers test only the
sign.) -/
def strcmp : List Nat → List Nat → Int
  | [], [] => 0
  | [], _ :: _ => -1
  | _ :: _, [] => 1
  | a :: s, b :: t => if a < b then -1 else if b < a then 1 else strcmp s t

/-- Body of the inner loop of `im_ime_load` at index `j`: the entries at `j`
and `j + 1` change places when `strcmp (e1->pre, e2->pre) > 0`; `none` when
`j + 1` is outside the array. -/
def ime_sort_step (pinyin : List im_ime) (j : Nat) : Option (List im_ime) :=
  match pinyin[j]?, pinyin[j + 1]? with
  | some e1, some e2 =>
    if strcmp e1.pre e2.pre > 0 then some ((pinyin.set j e2).set (j + 1) e1)
    else some pinyin
  | _, _ => none

/-- The loops `for (i = 0; i < len - 1; i++) for (j = 0; j < len - i - 1; j++)`
of `im_ime_load`. -/
def ime_sort (pinyin : List im_ime) (len : Nat) : Option (List im_ime) :=
  (List.range (len - 1)).foldlM
    (fun p i => (List.range (len - i - 1)).foldlM ime_sort_step p) pinyin

/-- Embedding of `im_ime_load`: the loader callback `cb` fills the dictionary,
which is then sorted.  `none`: an access outside the dictionary. -/
def im_ime_load (_im : im) (cb : List im_ime → List im_ime) : Option im :=
  let pinyin := cb _im.pinyin
  let len := pinyin.length
  if len = 0 then some { _im with pinyin := pinyin }
  else (ime_sort pinyin len).map fun p => { _im with pinyin := p }

/-- The key codes `im_keyboard` names in a `case` label, with the names of
`linux/input.h`; `KEY_other` stands for every key code without a label. -/
inductive im_keycode where
  | KEY_A | KEY_B | KEY_C | KEY_D | KEY_E | KEY_F | KEY_G | KEY_H | KEY_I
  | KEY_J | KEY_K | KEY_L | KEY_M | KEY_N | KEY_O | KEY_P | KEY_Q | KEY_R
  | KEY_S | KEY_T | KEY_U | KEY_V | KEY_W | KEY_X | KEY_Y | KEY_Z
  | KEY_SPACE | KEY_RIGHT | KEY_LEFT | KEY_HOME | KEY_END | KEY_ENTER
  | KEY_ESC | KEY_BACKSPACE | KEY_other
  deriving DecidableEq, Repr

open im_keycode

/-- Conversion of an `int` to `size_t` (64 bits). -/
def size_t_of_int (x : Int) : Nat := (x % 2 ^ 64).toNat

/-- The value `shl_array_get_length (_im->candidates) - 1`, computed in
`size_t`: `shl_array_get_length` (of `shl_array.h`, not among the sources)
returns a `size_t`. -/
def candidates_last (_im : im) : Nat :=
  size_t_of_int ((_im.candidates.length : Int) - 1)

/-- The test `_im->selected < shl_array_get_length (_im->candidates) - 1`: the
`int` on the left is converted to `size_t` and the comparison is unsigned. -/
def selected_before_last (_im : im) : Prop :=
  size_t_of_int _im.selected < candidates_last _im

instance (_im : im) : Decidable (selected_before_last _im) := by
  unfold selected_before_last
  infer_instance

/-- What a call of `im_keyboard` leaves: the input method, the flag
`*handled`, and the calls of the output callback in order (each the bytes it
was given). -/
structure im_keyboard_result where
  state : im
  handled : Bool
  output : List (List Nat)
  deriving DecidableEq, Repr

/-- The arm `shl_array_push (_im->preedit, &"a"); changed = true;` of a letter
key, for the letter `c`: the state after the switch with `changed`. -/
def push_letter (_im : im) (handled : Bool) (c : Nat) : im_keyboard_result × Bool :=
  ({ state := { _im with preedit := _im.preedit ++ [c] }, handled := handled, output := [] },
    true)

/-- The `switch (keycode)` of `im_keyboard`: the state after it, together with
the local `changed`.  The parameter `to_utf8` is `tsm_ucs4_to_utf8_alloc` of
libtsm applied to one symbol.  `none`: the read of `candidates[selected]` is
outside the array.  In the arm of `KEY_END` the `size_t` value
`shl_array_get_length (_im->candidates) - 1` is stored in an `int`, −1 for an
empty array. -/
def im_keyboard_switch (to_utf8 : Nat → List Nat) (_im : im) (keycode : im_keycode)
    (handled : Bool) : Option (im_keyboard_result × Bool) :=
  match keycode with
  | KEY_A => some (push_letter _im handled 0x61)
  | KEY_B => some (push_letter _im handled 0x62)
  | KEY_C => some (push_letter _im handled 0x63)
  | KEY_D => some (push_letter _im handled 0x64)
  | KEY_E => some (push_letter _im handled 0x65)
  | KEY_F => some (push_letter _im handled 0x66)
  | KEY_G => some (push_letter _im handled 0x67)
  | KEY_H => some (push_letter _im handled 0x68)
  | KEY_I => some (push_letter _im handled 0x69)
  | KEY_J => some (push_letter _im handled 0x6a)
  | KEY_K => some (push_letter _im handled 0x6b)
  | KEY_L => some (push_letter _im handled 0x6c)
  | KEY_M => some (push_letter _im handled 0x6d)
  | KEY_N => some (push_letter _im handled 0x6e)
  | KEY_O => some (push_letter _im handled 0x6f)
  | KEY_P => some (push_letter _im handled 0x70)
  | KEY_Q => some (push_letter _im handled 0x71)
  | KEY_R => some (push_letter _im handled 0x72)
  | KEY_S => some (push_letter _im handled 0x73)
  | KEY_T => some (push_letter _im handled 0x74)
  | KEY_U => some (push_letter _im handled 0x75)
  | KEY_V => some (push_letter _im handled 0x76)
  | KEY_W => some (push_letter _im handled 0x77)
  | KEY_X => some (push_letter _im handled 0x78)
  | KEY_Y => some (push_letter _im handled 0x79)
  | KEY_Z => some (push_letter _im handled 0x7a)
  | KEY_SPACE =>
    if _im.selected ≥ 0 then
      match _im.candidates[_im.selected.toNat]? with
      | some c =>
        some ({ state := { _im with preedit := [] }, handled := handled,
                output := [to_utf8 c] }, true)
      | none => none
    else some ({ state := _im, handled := handled, output := [] }, false)
  | KEY_RIGHT =>
    if selected_before_last _im then
      some ({ state := { _im with selected := _im.selected + 1 }, handled := true,
              output := [] }, false)
    else some ({ state := _im, handled := handled, output := [] }, false)
  | KEY_LEFT =>
    if _im.selected > 0 then
      some ({ state := { _im with selected := _im.selected - 1 }, handled := true,
              output := [] }, false)
    else some ({ state := _im, handled := handled, output := [] }, false)
  | KEY_HOME =>
    if _im.selected > 0 then
      some ({ state := { _im with selected := 0 }, handled := true, output := [] }, false)
    else some ({ state := _im, handled := handled, output := [] }, false)
  | KEY_END =>
    if selected_before_last _im then
      some ({ state := { _im with selected := (_im.candidates.length : Int) - 1 },
              handled := true, output := [] }, false)
    else some ({ state := _im, handled := handled, output := [] }, false)
  | KEY_ENTER =>
    if _im.preedit.length ≠ 0 then
      some ({ state := { _im with preedit := [] }, handled := true,
              output := [_im.preedit] }, true)
    else some ({ state := _im, handled := handled, output := [] }, false)
  | KEY_ESC => some ({ state := im_reset _im, handled := true, output := [] }, false)
  | KEY_BACKSPACE =>
    if _im.preedit.length ≠ 0 then
      some ({ state := { _im with preedit := _im.preedit.dropLast }, handled := true,
              output := [] }, true)
    else some ({ state := _im, handled := handled, output := [] }, false)
  | KEY_other => some ({ state := _im, handled := handled, output := [] }, false)

/-- The loop `while (min <= max)` of `im_keyboard`, the dictionary search, with
one unit of fuel for each round.  Result `some none`: the loop ended with
`min > max`; `some (some e)`: the round that met the entry `e` with
`strcmp (s, e->pre) == 0` left the loop by `break`; `none`: the fuel ran out, or
`pinyin[mid]` is outside the dictionary.  The quotient `(max - min) / 2` has a
numerator that is not negative. -/
def im_lookup (pinyin : List im_ime) (preedit : List Nat) :
    Nat → Int → Int → Option (Option im_ime)
  | 0, _, _ => none
  | fuel + 1, min, max =>
    if min ≤ max then
      let mid := min + (max - min) / 2
      match (if 0 ≤ mid then pinyin[mid.toNat]? else none) with
      | none => none
      | some e =>
        let ret := strcmp preedit e.pre
        if ret > 0 then im_lookup pinyin preedit fuel (mid + 1) max
        else if ret < 0 then im_lookup pinyin preedit fuel min (mid - 1)
        else some (some e)
    else some none

/-- Embedding of `im_keyboard`; `handled` is the value of `*handled` at the
call, and `fuel` bounds the rounds of the dictionary search.  `none`: an
access outside an array, or the fuel ran out.  The `int max` starts as
`_im->pinyin->length - 1`, −1 for an empty dictionary. -/
def im_keyboard (to_utf8 : Nat → List Nat) (fuel : Nat) (_im : im) (keycode : im_keycode)
    (handled : Bool) : Option im_keyboard_result :=
  match im_keyboard_switch to_utf8 _im keycode handled with
  | none => none
  | some (r, changed) =>
    if ¬ changed then some r
    else
      let cleared : im := { r.state with candidates := [], selected := -1 }
      if cleared.preedit.length = 0 then
        some { state := cleared, handled := true, output := r.output }
      else
        match im_lookup cleared.pinyin cleared.preedit fuel 0
            ((cleared.pinyin.length : Int) - 1) with
        | none => none
        | some none => some { state := cleared, handled := true, output := r.output }
        | some (some e) =>
          some { state := { cleared with candidates := cleared.candidates ++ e.cand,
                                         selected := 0 },
                 handled := true, output := r.output }

/-- One call on the input method: `im_keyboard` with a key code, or
`im_reset`. -/
inductive im_call where
  | keyboard (keycode : im_keycode)
  | reset
  deriving DecidableEq, Repr

/-- A sequence of calls, each `im_keyboard` call with `*handled` false at the
call. -/
def im_run (to_utf8 : Nat → List Nat) (fuel : Nat) : im → List im_call → Option im
  | _im, [] => some _im
  | _im, im_call.keyboard k :: rest =>
    (im_keyboard to_utf8 fuel _im k false).bind fun r => im_run to_utf8 fuel r.state rest
  | _im, im_call.reset :: rest => im_run to_utf8 fuel (im_reset _im) rest

/-- The letter a letter key appends to the preedit. -/
def key_letter : im_keycode → Option Nat
  | KEY_A => some 0x61 | KEY_B => some 0x62 | KEY_C => some 0x63 | KEY_D => some 0x64
  | KEY_E => some 0x65 | KEY_F => some 0x66 | KEY_G => some 0x67 | KEY_H => some 0x68
  | KEY_I => some 0x69 | KEY_J => some 0x6a | KEY_K => some 0x6b | KEY_L => some 0x6c
  | KEY_M => some 0x6d | KEY_N => some 0x6e | KEY_O => some 0x6f | KEY_P => some 0x70
  | KEY_Q => some 0x71 | KEY_R => some 0x72 | KEY_S => some 0x73 | KEY_T => some 0x74
  | KEY_U => some 0x75 | KEY_V => some 0x76 | KEY_W => some 0x77 | KEY_X => some 0x78
  | KEY_Y => some 0x79 | KEY_Z => some 0x7a
  | _ => none

/-- Up to `n` comparisons of neighbours from the head of the list, the larger
entry moving on: what the inner loop of `im_ime_load` does to the entries it
visits. -/
def bubble : Nat → List im_ime → List im_ime
  | 0, l => l
  | _ + 1, [] => []
  | _ + 1, [x] => [x]
  | n + 1, x :: y :: r =>
    if strcmp x.pre y.pre > 0 then y :: bubble n (x :: r) else x :: bubble n (y :: r)

/-- Ascending order of the keys under `strcmp`. -/
def sorted_by_key (pinyin : List im_ime) : Prop :=
  pinyin.Pairwise fun e1 e2 => strcmp e1.pre e2.pre ≤ 0

/-- A letter key or BACKSPACE on a preedit that is not empty: the preedit after
the call. -/
def edited_preedit (_im : im) (k : im_keycode) : List Nat :=
  match key_letter k with
  | some c => _im.preedit ++ [c]
  | none => _im.preedit.dropLast

/-- The invariant of the input method: `selected` is −1 or an index into the
candidates, and it is −1 exactly when there are no candidates; the candidates
are fewer than `2 ^ 31`. -/
def im_inv (_im : im) : Prop :=
  -1 ≤ _im.selected ∧ _im.selected < _im.candidates.length ∧
    (_im.selected = -1 ↔ _im.candidates = []) ∧ _im.candidates.length < 2 ^ 31

/-! ## Rings (`misc.c`) -/

/-- The number of bytes one entry of a ring can hold. -/
abbrev RING_SIZE : Nat := 512

/-- The error code `EINVAL` of `errno.h`. -/
def EINVAL : Int := 22

/-- One entry of a ring, `struct ring_entry`: `buf` is the list of the `len`
bytes stored in the entry (the array has room for `RING_SIZE`); the link `next`
is the order of the entries in the ring. -/
structure ring_entry where
  buf : List Int
  deriving DecidableEq, Repr

/-- The field `len` of an entry. -/
def ring_entry.len (ent : ring_entry) : Nat := ent.buf.length

/-- The ring, `struct kmscon_ring`: the chain of entries from `first` along
`next`; `last` is the last entry of the chain (the code keeps `last` NULL
exactly when `first` is). -/
structure kmscon_ring where
  entries : List ring_entry
  deriving DecidableEq, Repr

/-- Embedding of `kmscon_ring_new`. -/
def kmscon_ring_new : kmscon_ring := { entries := [] }

/-- Embedding of `kmscon_ring_is_empty`: `ring->first == NULL`. -/
def kmscon_ring_is_empty (ring : kmscon_ring) : Bool :=
  ring.entries.isEmpty

/-- The first statements after the label `next` of `kmscon_ring_write`: the
entry that takes the next bytes is `ring->last`, or, when there is none or it
is full, a new empty entry linked after it.  The result is the chain before
that entry, and the entry. -/
def ring_write_entry (entries : List ring_entry) : List ring_entry × ring_entry :=
  match entries.getLast? with
  | none => (entries, { buf := [] })
  | some ent =>
    if ent.len ≥ RING_SIZE then (entries, { buf := [] }) else (entries.dropLast, ent)

/-- The loop of `kmscon_ring_write` (label `next`), one unit of fuel for each
round: `cp` bytes of `val` go to the entry, and the loop goes on while bytes
are left.  `none`: the fuel ran out. -/
def ring_write_loop : Nat → List ring_entry → List Int → Option (List ring_entry)
  | 0, _, _ => none
  | fuel + 1, entries, val =>
    let (before, ent) := ring_write_entry entries
    let space := RING_SIZE - ent.len
    let cp := if val.length ≥ space then space else val.length
    let entries1 := before ++ [{ buf := ent.buf ++ val.take cp }]
    if (val.drop cp).length > 0 then ring_write_loop fuel entries1 (val.drop cp)
    else some entries1

/-- Embedding of `kmscon_ring_write`, with `val` the list of the `len` bytes to
write; `malloc` is taken to succeed.  The result is the return value and the
ring. -/
def kmscon_ring_write (fuel : Nat) (ring : kmscon_ring) (val : List Int) :
    Option (Int × kmscon_ring) :=
  if val.length = 0 then some (-EINVAL, ring)
  else (ring_write_loop fuel ring.entries val).map fun entries => (0, { entries := entries })

/-- Embedding of `kmscon_ring_peek`: the `len` bytes of the first entry, `none`
for the NULL pointer. -/
def kmscon_ring_peek (ring : kmscon_ring) : Option (List Int) :=
  match ring.entries with
  | [] => none
  | ent :: _ => some ent.buf

/-- The loop of `kmscon_ring_drop` (label `next`); each round that goes on has
unlinked the first entry. -/
def ring_drop_loop : List ring_entry → Nat → List ring_entry
  | [], _ => []
  | ent :: rest, len =>
    if len ≥ ent.len then
      if len - ent.len ≠ 0 then ring_drop_loop rest (len - ent.len) else rest
    else { buf := ent.buf.drop len } :: rest

/-- Embedding of `kmscon_ring_drop`. -/
def kmscon_ring_drop (ring : kmscon_ring) (len : Nat) : kmscon_ring :=
  if len = 0 then ring else { entries := ring_drop_loop ring.entries len }

/-! ## Hooks (`misc.c`) -/

/-- One entry of a hook, `struct hook_entry`: `addr` is the address of the
entry, `cb` the function pointer (0 is NULL); the link `next` is the order of
the entries in the hook. -/
structure hook_entry where
  addr : Nat
  cb : Nat
  data : Nat
  deriving DecidableEq, Repr

/-- The hook, `struct kmscon_hook`: the chain `entries`, and the pointer
`cur_entry` as the address it holds, `none` for NULL. -/
structure kmscon_hook where
  entries : List hook_entry
  cur_entry : Option Nat
  deriving DecidableEq, Repr

/-- Embedding of `kmscon_hook_new`. -/
def kmscon_hook_new : kmscon_hook := { entries := [], cur_entry := none }

/-- Embedding of `kmscon_hook_add`; `addr` is the address `malloc` returns for
the new entry.  The result is the return value and the hook. -/
def kmscon_hook_add (hook : kmscon_hook) (addr cb data : Nat) : Int × kmscon_hook :=
  if cb = 0 then (-EINVAL, hook)
  else (0, { hook with entries := { addr := addr, cb := cb, data := data } :: hook.entries })

/-- The search of `kmscon_hook_rm`: the first entry of the chain whose callback
is `cb` is unlinked.  The result is that entry `tmp`, the pointer `tmp->next`,
and the chain without `tmp`; `none` when no entry has the callback. -/
def hook_unlink (cb : Nat) : List hook_entry → Option (hook_entry × Option Nat × List hook_entry)
  | [] => none
  | entry :: rest =>
    if entry.cb = cb then some (entry, rest.head?.map (fun e => e.addr), rest)
    else (hook_unlink cb rest).map fun r => (r.1, r.2.1, entry :: r.2.2)

/-- Embedding of `kmscon_hook_rm`. -/
def kmscon_hook_rm (hook : kmscon_hook) (cb : Nat) : kmscon_hook :=
  if cb = 0 ∨ hook.entries.isEmpty then hook
  else
    match hook_unlink cb hook.entries with
    | none => hook
    | some (tmp, next, entries) =>
      { entries := entries,
        cur_entry := if hook.cur_entry = some tmp.addr then next else hook.cur_entry }

/-- The entry of the chain at address `a`, `none` when the address belongs to
no entry of the chain (the pointer dangles). -/
def hook_at (entries : List hook_entry) (a : Nat) : Option hook_entry :=
  entries.find? fun e => e.addr = a

/-- The pointer `next` of the entry at address `a`, `none` when the address
belongs to no entry of the chain. -/
def hook_next : List hook_entry → Nat → Option (Option Nat)
  | [], _ => none
  | e :: rest, a =>
    if e.addr = a then some (rest.head?.map fun e1 => e1.addr) else hook_next rest a

/-- The loop of `kmscon_hook_call`, one unit of fuel for each round.  The
callback of an entry may change the hook: `invoke e hook` is the hook the call
`cur_entry->cb (parent, arg, cur_entry->data)` leaves.  The entries whose
callback was called are collected in order.  `none`: the fuel ran out, or
`cur_entry` is read while it dangles. -/
def hook_call_loop (invoke : hook_entry → kmscon_hook → kmscon_hook) :
    Nat → kmscon_hook → List hook_entry → Option (kmscon_hook × List hook_entry)
  | 0, _, _ => none
  | fuel + 1, hook, called =>
    match hook.cur_entry with
    | none => some (hook, called)
    | some a =>
      match hook_at hook.entries a with
      | none => none
      | some e =>
        let hook1 := invoke e hook
        match hook1.cur_entry with
        | none => hook_call_loop invoke fuel hook1 (called ++ [e])
        | some a1 =>
          match hook_next hook1.entries a1 with
          | none => none
          | some next =>
            hook_call_loop invoke fuel { hook1 with cur_entry := next } (called ++ [e])

/-- Embedding of `kmscon_hook_call`: the hook it leaves and the entries whose
callback it called, in order. -/
def kmscon_hook_call (invoke : hook_entry → kmscon_hook → kmscon_hook) (fuel : Nat)
    (hook : kmscon_hook) : Option (kmscon_hook × List hook_entry) :=
  hook_call_loop invoke fuel
    { hook with cur_entry := hook.entries.head?.map fun e => e.addr } []

/-- The content of a chain of entries: their bytes from first to last. -/
def ring_entries_content : List ring_entry → List Int
  | [] => []
  | ent :: rest => ent.buf ++ ring_entries_content rest

/-- The content of a ring. -/
def ring_content (ring : kmscon_ring) : List Int :=
  ring_entries_content ring.entries

/-- Every entry of the chain holds at least one byte and at most `RING_SIZE`. -/
def ring_entries_wf (entries : List ring_entry) : Prop :=
  ∀ ent ∈ entries, 0 < ent.len ∧ ent.len ≤ RING_SIZE

/-- The invariant of a ring: no entry is empty and none is over-full. -/
def ring_wf (ring : kmscon_ring) : Prop :=
  ring_entries_wf ring.entries

/-- A callback that removes itself from the hook when its function pointer is
`self`, and does nothing otherwise. -/
def remove_self (self : Nat) (e : hook_entry) (hook : kmscon_hook) : kmscon_hook :=
  if e.cb = self then kmscon_hook_rm hook self else hook

/-- The digit a keypad key writes outside keypad application mode: the labels
`XK_KP_Insert`/`XK_KP_0` ... `XK_KP_Page_Up`/`XK_KP_9`. -/
def keypad_digit : KeySym → Option Nat
  | XK_KP_Insert | XK_KP_0 => some 0
  | XK_KP_End | XK_KP_1 => some 1
  | XK_KP_Down | XK_KP_2 => some 2
  | XK_KP_Page_Down | XK_KP_3 => some 3
  | XK_KP_Left | XK_KP_4 => some 4
  | XK_KP_Begin | XK_KP_5 => some 5
  | XK_KP_Right | XK_KP_6 => some 6
  | XK_KP_Home | XK_KP_7 => some 7
  | XK_KP_Up | XK_KP_8 => some 8
  | XK_KP_Page_Up | XK_KP_9 => some 9
  | _ => none

/-- The actions that issue no console operation and no reply. -/
abbrev quiet_action (act : parser_action) : Prop :=
  act = ACTION_NONE ∨ act = ACTION_IGNORE ∨ act = ACTION_CLEAR ∨ act = ACTION_COLLECT ∨
    act = ACTION_PARAM ∨ act = ACTION_DCS_START ∨ act = ACTION_DCS_COLLECT ∨
    act = ACTION_DCS_END ∨ act = ACTION_OSC_START ∨ act = ACTION_OSC_COLLECT ∨
    act = ACTION_OSC_END

/-- The states inside a control string: DCS, OSC and SOS/PM/APC. -/
def string_states : List parser_state :=
  [STATE_DCS_ENTRY, STATE_DCS_PARAM, STATE_DCS_INT, STATE_DCS_PASS, STATE_DCS_IGNORE,
   STATE_OSC_STRING, STATE_ST_IGNORE]

/-- The code points that open a control string: ESC ], ESC P, ESC X, ESC ^,
ESC _ and their 8-bit forms. -/
def string_introducers : List (List Nat) :=
  [[0x1b, 0x5d], [0x9d], [0x1b, 0x50], [0x90], [0x1b, 0x58], [0x98], [0x1b, 0x5e], [0x9e],
   [0x1b, 0x5f], [0x9f]]

/-- The string terminator: 0x9C or ESC backslash. -/
def string_terminators : List (List Nat) :=
  [[0x9c], [0x1b, 0x5c]]

/-! ## Basic facts about actions and transitions -/

/-- Exit actions are hooks without effect, whatever the state left. -/
theorem do_action_exit_action (vte : kmscon_vte) (data : Nat) (st : parser_state) :
    do_action vte data (exit_action st) = some vte := by
  cases st <;> rfl

/-- A real transition (target other than STATE_NONE) runs the transition
action, then the entry action of the target, then installs the target. -/
theorem do_trans_of_ne_none (vte : kmscon_vte) (data : Nat) (st : parser_state)
    (act : parser_action) (hst : st ≠ STATE_NONE) :
    do_trans vte data st act =
      (do_action vte data act).bind fun v2 =>
      (do_action v2 data (entry_action st)).bind fun v3 =>
      some { v3 with state := st } := by
  unfold do_trans
  rw [if_pos hst, do_action_exit_action]
  rfl

/-- A transition to STATE_NONE runs the transition action only. -/
theorem do_trans_none (vte : kmscon_vte) (data : Nat) (act : parser_action) :
    do_trans vte data STATE_NONE act = do_action vte data act := by
  simp [do_trans]

/-- A transition without transition action to a state whose entry action is
CLEAR clears the parameters and installs the state. -/
theorem do_trans_none_clear (vte : kmscon_vte) (data : Nat) (st : parser_state)
    (hst : st ≠ STATE_NONE) (hen : entry_action st = ACTION_CLEAR) :
    do_trans vte data st ACTION_NONE = some { do_clear vte with state := st } := by
  rw [do_trans_of_ne_none vte data st ACTION_NONE hst, hen]
  rfl

/-- A transition with transition action EXECUTE to GROUND. -/
theorem do_trans_ground_execute (vte : kmscon_vte) (data : Nat) :
    do_trans vte data STATE_GROUND ACTION_EXECUTE
      = some { do_execute vte data with state := STATE_GROUND } := by
  rw [do_trans_of_ne_none vte data STATE_GROUND ACTION_EXECUTE (by decide)]
  rfl

/-! ## C1: the anywhere rules -/

/-- C1: in every parser state, `parse_data` decides the anywhere code points
before it looks at the state.  Each of 0x18, 0x1A, 0x80..0x8F, 0x91..0x97,
0x99, 0x9A, 0x9C runs EXECUTE on that code point and ends in GROUND; 0x1B ends
in ESC, 0x9B in CSI_ENTRY, 0x90 in DCS_ENTRY (these three run only the entry
action CLEAR), 0x9D ends in OSC_STRING and 0x98, 0x9E, 0x9F in ST_IGNORE with
the terminal otherwise unchanged: no transition action runs in the last five
groups. -/
theorem parse_data_anywhere (vte : kmscon_vte) (raw : Nat) :
    (anywhere_execute raw →
      parse_data vte raw = some { do_execute vte raw with state := STATE_GROUND }) ∧
    (raw = 0x1b → parse_data vte raw = some { do_clear vte with state := STATE_ESC }) ∧
    (raw = 0x9b → parse_data vte raw = some { do_clear vte with state := STATE_CSI_ENTRY }) ∧
    (raw = 0x90 → parse_data vte raw = some { do_clear vte with state := STATE_DCS_ENTRY }) ∧
    (raw = 0x9d → parse_data vte raw = some { vte with state := STATE_OSC_STRING }) ∧
    (raw = 0x98 ∨ raw = 0x9e ∨ raw = 0x9f →
      parse_data vte raw = some { vte with state := STATE_ST_IGNORE }) := by
  refine ⟨?_, ?_, ?_, ?_, ?_, ?_⟩
  · intro h
    have hr : anywhere_rule raw = some (STATE_GROUND, ACTION_EXECUTE) := by
      unfold anywhere_rule
      rw [if_pos h]
    simp only [parse_data, hr]
    exact do_trans_ground_execute vte raw
  · intro h
    subst h
    have hr : anywhere_rule 0x1b = some (STATE_ESC, ACTION_NONE) := by decide
    simp only [parse_data, hr]
    exact do_trans_none_clear vte _ STATE_ESC (by decide) rfl
  · intro h
    subst h
    have hr : anywhere_rule 0x9b = some (STATE_CSI_ENTRY, ACTION_NONE) := by decide
    simp only [parse_data, hr]
    exact do_trans_none_clear vte _ STATE_CSI_ENTRY (by decide) rfl
  · intro h
    subst h
    have hr : anywhere_rule 0x90 = some (STATE_DCS_ENTRY, ACTION_NONE) := by decide
    simp only [parse_data, hr]
    exact do_trans_none_clear vte _ STATE_DCS_ENTRY (by decide) rfl
  · intro h
    subst h
    have hr : anywhere_rule 0x9d = some (STATE_OSC_STRING, ACTION_NONE) := by decide
    simp only [parse_data, hr]
    rw [do_trans_of_ne_none vte _ _ _ (by decide)]
    rfl
  · intro h
    have hr : anywhere_rule raw = some (STATE_ST_IGNORE, ACTION_NONE) := by
      rcases h with h | h | h <;> subst h <;> decide
    simp only [parse_data, hr]
    rw [do_trans_of_ne_none vte _ _ _ (by decide)]
    rfl

/-- C1 at concrete inputs: 0x85 (NEL) fed in the middle of an OSC string and
0x1B fed in CSI_PARAM. -/
theorem parse_data_anywhere_witness :
    anywhere_execute 0x85 ∧
    parse_data { kmscon_vte_new with state := STATE_OSC_STRING } 0x85
      = some { kmscon_vte_new with state := STATE_GROUND, trace := [console_newline] } ∧
    parse_data { kmscon_vte_new with state := STATE_CSI_PARAM } 0x1b
      = some { do_clear kmscon_vte_new with state := STATE_ESC } :=
  ⟨by decide,
   ((parse_data_anywhere { kmscon_vte_new with state := STATE_OSC_STRING } 0x85).1
      (by decide)).trans (by decide),
   ((parse_data_anywhere { kmscon_vte_new with state := STATE_CSI_PARAM } 0x1b).2.1
      rfl).trans (by decide)⟩

/-! ## The PARAM action -/


theorem uint32_of_int_small (i : Int) (h0 : 0 ≤ i) (h1 : i < 4294967296) :
    uint32_of_int i = i.toNat := by
  unfold uint32_of_int
  rw [Int.emod_eq_of_lt h0 h1]

theorem int_of_uint32_small (n : Nat) (h : n < 2147483648) : int_of_uint32 n = n := by
  unfold int_of_uint32
  rw [if_pos h]

/-- The machine arithmetic of `do_param` is exact on the values it meets. -/
theorem do_param_arith (cur : Int) (data : Nat) (hd : 0x30 ≤ data ∧ data ≤ 0x39)
    (hc : ¬ cur > 0xffff) :
    (if cur ≤ 0 then int_of_uint32 ((data - 0x30) % 4294967296)
        else int_of_uint32 ((uint32_of_int (cur * 10) + data - 0x30) % 4294967296))
      = param_digit cur data := by
  unfold param_digit
  obtain ⟨h1, h2⟩ := hd
  split_ifs with a
  · rw [int_of_uint32_small _ (by omega)]
    omega
  · rw [uint32_of_int_small _ (by omega) (by omega), int_of_uint32_small _ (by omega)]
    omega

/-- PARAM on ';': the count advances, saturating at `CSI_ARG_MAX`. -/
theorem do_param_semicolon (vte : kmscon_vte) :
    do_param vte 0x3b =
      some (if vte.csi_argc < CSI_ARG_MAX then { vte with csi_argc := vte.csi_argc + 1 }
        else vte) := by
  unfold do_param
  split_ifs <;> simp_all

/-- PARAM on anything but ';' when the count has reached `CSI_ARG_MAX`:
nothing changes and the array is not touched. -/
theorem do_param_full (vte : kmscon_vte) (data : Nat) (hd : data ≠ 0x3b)
    (h : CSI_ARG_MAX ≤ vte.csi_argc) : do_param vte data = some vte := by
  unfold do_param
  rw [if_neg hd, if_pos h]

/-- PARAM on anything but ';' when the count is below `CSI_ARG_MAX`: only
the slot `csi_argv[csi_argc]` can change, and only by a digit step. -/
theorem do_param_slot (vte : kmscon_vte) (data : Nat) (hd : data ≠ 0x3b)
    (h : vte.csi_argc < CSI_ARG_MAX) :
    do_param vte data =
      some (if vte.csi_argv.get ⟨vte.csi_argc, h⟩ > 0xffff then vte
        else if 0x30 ≤ data ∧ data ≤ 0x39 then
          { vte with csi_argv := (vte.csi_argv.set ⟨vte.csi_argc, h⟩
              (param_digit (vte.csi_argv.get ⟨vte.csi_argc, h⟩) data)) }
        else vte) := by
  unfold do_param
  rw [if_neg hd, if_neg (by omega)]
  simp only [csi_argv_read, csi_argv_write, dif_pos h, Option.some_bind]
  by_cases h1 : vte.csi_argv.get ⟨vte.csi_argc, h⟩ > 0xffff
  · simp only [if_pos h1]
  · by_cases h2 : 0x30 ≤ data ∧ data ≤ 0x39
    · simp only [if_neg h1, if_pos h2, do_param_arith _ _ h2 h1]
    · simp only [if_neg h1, if_neg h2]

/-- The function `do_param` never touches a slot outside the array: it always returns. -/
theorem do_param_some (vte : kmscon_vte) (data : Nat) :
    ∃ v, do_param vte data = some v := by
  by_cases hd : data = 0x3b
  · subst hd
    exact ⟨_, do_param_semicolon vte⟩
  · by_cases h : vte.csi_argc < CSI_ARG_MAX
    · exact ⟨_, do_param_slot vte data hd h⟩
    · exact ⟨_, do_param_full vte data hd (by omega)⟩

/-! ## What the actions leave alone -/

theorem same_but_trace_refl (v : kmscon_vte) : same_but_trace v v :=
  ⟨rfl, rfl, rfl, rfl, rfl, rfl⟩

theorem same_but_trace_emit (v : kmscon_vte) (e : vte_event) : same_but_trace v (emit v e) :=
  ⟨rfl, rfl, rfl, rfl, rfl, rfl⟩

theorem same_but_trace_ite (v a b : kmscon_vte) (c : Prop) [Decidable c]
    (ha : same_but_trace v a) (hb : same_but_trace v b) :
    same_but_trace v (if c then a else b) := by
  split_ifs
  · exact ha
  · exact hb

/-- The function `do_execute` changes nothing but the trace. -/
theorem do_execute_frame (vte : kmscon_vte) (ctrl : Nat) :
    same_but_trace vte (do_execute vte ctrl) := by
  unfold do_execute
  repeat first
    | exact same_but_trace_refl _
    | exact same_but_trace_emit _ _
    | apply same_but_trace_ite

/-- The function `do_esc` changes nothing but the trace. -/
theorem do_esc_frame (vte : kmscon_vte) (data : Nat) :
    same_but_trace vte (do_esc vte data) := by
  unfold do_esc
  repeat first
    | exact same_but_trace_refl _
    | exact same_but_trace_emit _ _
    | apply same_but_trace_ite

theorem same_but_cattr_trace_refl (v : kmscon_vte) : same_but_cattr_trace v v :=
  ⟨rfl, rfl, rfl, rfl, rfl⟩

theorem same_but_cattr_trace_emit (v : kmscon_vte) (e : vte_event) :
    same_but_cattr_trace v (emit v e) :=
  ⟨rfl, rfl, rfl, rfl, rfl⟩

theorem same_but_cattr_trace_cattr (v : kmscon_vte) (a : font_char_attr) :
    same_but_cattr_trace v { v with cattr := a } :=
  ⟨rfl, rfl, rfl, rfl, rfl⟩

theorem same_but_cattr_trace_ite (v a b : kmscon_vte) (c : Prop) [Decidable c]
    (ha : same_but_cattr_trace v a) (hb : same_but_cattr_trace v b) :
    same_but_cattr_trace v (if c then a else b) := by
  split_ifs
  · exact ha
  · exact hb

/-- The function `do_csi` leaves decoder, state, parameter slots and flags alone, and
advances the count by one, saturating at `CSI_ARG_MAX`. -/
theorem do_csi_frame (vte : kmscon_vte) (data : Nat) :
    (do_csi vte data).mach = vte.mach ∧ (do_csi vte data).state = vte.state ∧
    (do_csi vte data).csi_argc
      = (if vte.csi_argc < CSI_ARG_MAX then vte.csi_argc + 1 else vte.csi_argc) ∧
    (do_csi vte data).csi_argv = vte.csi_argv ∧
    (do_csi vte data).flags = vte.flags := by
  have h1 : same_but_cattr_trace
      (if vte.csi_argc < CSI_ARG_MAX then { vte with csi_argc := vte.csi_argc + 1 } else vte)
      (do_csi vte data) := by
    unfold do_csi
    dsimp only
    repeat first
      | exact same_but_cattr_trace_refl _
      | exact same_but_cattr_trace_emit _ _
      | exact same_but_cattr_trace_cattr _ _
      | apply same_but_cattr_trace_ite
  obtain ⟨m, s, c, a, f⟩ := h1
  rw [m, s, c, a, f]
  split_ifs <;> exact ⟨rfl, rfl, rfl, rfl, rfl⟩

/-- The function `do_param` leaves decoder, state, attributes, flags and trace alone;
the count stays within `CSI_ARG_MAX` and slots stay within any bounds that
contain the digits and are closed under the digit step. -/
theorem do_param_frame (vte : kmscon_vte) (data : Nat) :
    ∃ v, do_param vte data = some v ∧ v.mach = vte.mach ∧ v.state = vte.state ∧
      v.cattr = vte.cattr ∧ v.flags = vte.flags ∧ v.trace = vte.trace ∧
      (vte.csi_argc ≤ CSI_ARG_MAX → v.csi_argc ≤ CSI_ARG_MAX) ∧
      (argv_within (-1) 655359 vte → argv_within (-1) 655359 v) := by
  by_cases hd : data = 0x3b
  · subst hd
    refine ⟨_, do_param_semicolon vte, ?_⟩
    split_ifs with h
    · exact ⟨rfl, rfl, rfl, rfl, rfl, fun _ => h, fun hb => hb⟩
    · exact ⟨rfl, rfl, rfl, rfl, rfl, fun hb => hb, fun hb => hb⟩
  · by_cases h : vte.csi_argc < CSI_ARG_MAX
    · refine ⟨_, do_param_slot vte data hd h, ?_⟩
      split_ifs with h1 h2
      · exact ⟨rfl, rfl, rfl, rfl, rfl, fun hb => hb, fun hb => hb⟩
      · refine ⟨rfl, rfl, rfl, rfl, rfl, fun hb => hb, fun hb i => ?_⟩
        show _ ≤ (vte.csi_argv.set _ _).get i ∧ (vte.csi_argv.set _ _).get i ≤ _
        rw [Mathlib.Vector.get_set_eq_if]
        split_ifs with hi
        · have hb0 := hb ⟨vte.csi_argc, h⟩
          unfold param_digit
          split_ifs <;> omega
        · exact hb i
      · exact ⟨rfl, rfl, rfl, rfl, rfl, fun hb => hb, fun hb => hb⟩
    · exact ⟨_, do_param_full vte data hd (by omega), rfl, rfl, rfl, rfl, rfl,
        fun hb => hb, fun hb => hb⟩

/-- Every action returns, and leaves decoder, state and flags alone; the count
stays within `CSI_ARG_MAX` and the slots within −1..655359. -/
theorem do_action_frame (vte : kmscon_vte) (data : Nat) (act : parser_action) :
    ∃ v, do_action vte data act = some v ∧ v.mach = vte.mach ∧ v.state = vte.state ∧
      v.flags = vte.flags ∧
      (vte.csi_argc ≤ CSI_ARG_MAX → v.csi_argc ≤ CSI_ARG_MAX) ∧
      (argv_within (-1) 655359 vte → argv_within (-1) 655359 v) := by
  cases act
  case ACTION_PARAM =>
    obtain ⟨v, h, h1, h2, -, h4, -, h6, h7⟩ := do_param_frame vte data
    exact ⟨v, h, h1, h2, h4, h6, h7⟩
  case ACTION_EXECUTE =>
    obtain ⟨h1, h2, h3, h4, -, h6⟩ := do_execute_frame vte data
    show ∃ v, some (do_execute vte data) = some v ∧ _
    refine ⟨_, rfl, h1, h2, h6, fun h => by rw [h3]; exact h, fun h i => ?_⟩
    rw [h4]
    exact h i
  case ACTION_ESC_DISPATCH =>
    obtain ⟨h1, h2, h3, h4, -, h6⟩ := do_esc_frame vte data
    show ∃ v, some (do_esc vte data) = some v ∧ _
    refine ⟨_, rfl, h1, h2, h6, fun h => by rw [h3]; exact h, fun h i => ?_⟩
    rw [h4]
    exact h i
  case ACTION_CSI_DISPATCH =>
    obtain ⟨h1, h2, h3, h4, h6⟩ := do_csi_frame vte data
    refine ⟨_, rfl, h1, h2, h6, fun h => ?_, fun h i => ?_⟩
    · rw [h3]
      split_ifs <;> omega
    · rw [h4]
      exact h i
  case ACTION_CLEAR =>
    refine ⟨_, rfl, rfl, rfl, rfl, fun _ => Nat.zero_le _, fun _ i => ?_⟩
    show _ ≤ (Mathlib.Vector.replicate CSI_ARG_MAX (-1 : Int)).get i ∧
      (Mathlib.Vector.replicate CSI_ARG_MAX (-1 : Int)).get i ≤ _
    rw [Mathlib.Vector.get_replicate]
    omega
  all_goals exact ⟨_, rfl, rfl, rfl, rfl, fun h => h, fun h => h⟩

/-- The targets the two switches of `parse_data` name are never `STATE_NUM`. -/
theorem anywhere_rule_target (raw : Nat) (st : parser_state) (act : parser_action)
    (h : anywhere_rule raw = some (st, act)) : st ∈ parser_states := by
  unfold anywhere_rule at h
  split_ifs at h <;> cases h <;> decide

theorem state_rule_target (st0 : parser_state) (raw : Nat) (st : parser_state)
    (act : parser_action) (h : state_rule st0 raw = some (st, act)) :
    st = STATE_NONE ∨ st ∈ parser_states := by
  cases st0 <;> simp only [state_rule] at h <;>
    first
      | cases h
      | (split_ifs at h <;> cases h <;> decide)

/-- Every transition returns; it leaves decoder and flags alone, installs the
target state unless that is `STATE_NONE`, and keeps the count within
`CSI_ARG_MAX` and the slots within −1..655359. -/
theorem do_trans_frame (vte : kmscon_vte) (data : Nat) (st : parser_state)
    (act : parser_action) :
    ∃ v, do_trans vte data st act = some v ∧ v.mach = vte.mach ∧ v.flags = vte.flags ∧
      v.state = (if st ≠ STATE_NONE then st else vte.state) ∧
      (vte.csi_argc ≤ CSI_ARG_MAX → v.csi_argc ≤ CSI_ARG_MAX) ∧
      (argv_within (-1) 655359 vte → argv_within (-1) 655359 v) := by
  by_cases hst : st ≠ STATE_NONE
  · rw [do_trans_of_ne_none vte data st act hst, if_pos hst]
    obtain ⟨v2, e2, m2, -, f2, c2, b2⟩ := do_action_frame vte data act
    obtain ⟨v3, e3, m3, -, f3, c3, b3⟩ := do_action_frame v2 data (entry_action st)
    refine ⟨{ v3 with state := st }, ?_, m3.trans m2, f3.trans f2, rfl,
      fun h => c3 (c2 h), fun h => b3 (b2 h)⟩
    rw [e2, Option.some_bind, e3, Option.some_bind]
  · have hs : st = STATE_NONE := not_not.mp hst
    subst hs
    rw [do_trans_none, if_neg hst]
    obtain ⟨v2, e2, m2, s2, f2, c2, b2⟩ := do_action_frame vte data act
    exact ⟨v2, e2, m2, f2, s2, c2, b2⟩

/-- The function `parse_data` returns for every terminal and every code point; it leaves
decoder and flags alone, keeps the state among the 14 parser states, the
count within `CSI_ARG_MAX` and the slots within −1..655359. -/
theorem parse_data_frame (vte : kmscon_vte) (raw : Nat) :
    ∃ v, parse_data vte raw = some v ∧ v.mach = vte.mach ∧ v.flags = vte.flags ∧
      (vte.state ∈ parser_states → v.state ∈ parser_states) ∧
      (vte.csi_argc ≤ CSI_ARG_MAX → v.csi_argc ≤ CSI_ARG_MAX) ∧
      (argv_within (-1) 655359 vte → argv_within (-1) 655359 v) := by
  unfold parse_data
  cases ha : anywhere_rule raw with
  | some p =>
    obtain ⟨st, act⟩ := p
    obtain ⟨v, e, m, f, s, c, b⟩ := do_trans_frame vte raw st act
    refine ⟨v, e, m, f, fun _ => ?_, c, b⟩
    have ht := anywhere_rule_target raw st act ha
    have hne : st ≠ STATE_NONE := by
      intro h0
      subst h0
      revert ht
      decide
    rw [s, if_pos hne]
    exact ht
  | none =>
    cases hs : state_rule vte.state raw with
    | some p =>
      obtain ⟨st, act⟩ := p
      obtain ⟨v, e, m, f, s, c, b⟩ := do_trans_frame vte raw st act
      refine ⟨v, e, m, f, fun h0 => ?_, c, b⟩
      rw [s]
      rcases state_rule_target vte.state raw st act hs with h1 | h1
      · rw [if_neg (not_not.mpr h1)]
        exact h0
      · have hne : st ≠ STATE_NONE := by
          intro h2
          subst h2
          revert h1
          decide
        rw [if_pos hne]
        exact h1
    | none => exact ⟨vte, rfl, rfl, rfl, fun h => h, fun h => h, fun h => h⟩

/-! ## C2: state and parameter count stay well-formed -/

/-- Feeding any list of code points returns, and keeps what `parse_data`
keeps. -/
theorem parse_all_frame (cps : List Nat) (vte : kmscon_vte) :
    ∃ v, parse_all vte cps = some v ∧ v.mach = vte.mach ∧ v.flags = vte.flags ∧
      (vte.state ∈ parser_states → v.state ∈ parser_states) ∧
      (vte.csi_argc ≤ CSI_ARG_MAX → v.csi_argc ≤ CSI_ARG_MAX) ∧
      (argv_within (-1) 655359 vte → argv_within (-1) 655359 v) := by
  induction cps generalizing vte with
  | nil => exact ⟨vte, rfl, rfl, rfl, fun h => h, fun h => h, fun h => h⟩
  | cons raw rest ih =>
    obtain ⟨v1, e1, m1, f1, s1, c1, b1⟩ := parse_data_frame vte raw
    obtain ⟨v2, e2, m2, f2, s2, c2, b2⟩ := ih v1
    refine ⟨v2, ?_, m2.trans m1, f2.trans f1, fun h => s2 (s1 h), fun h => c2 (c1 h),
      fun h => b2 (b1 h)⟩
    simp only [parse_all, e1, Option.some_bind, e2]

/-- C2: for every sequence of code points fed to `parse_data` from a freshly
constructed parser, after each input (after every initial segment of the
sequence) the parser has returned, its state is one of the 14 parser states
and not the placeholder `STATE_NONE`, and `csi_argc` is at most 16. -/
theorem parse_all_state_count (cps : List Nat) (k : Nat) :
    ∃ v, parse_all kmscon_vte_new (cps.take k) = some v ∧
      v.state ∈ [STATE_GROUND, STATE_ESC, STATE_ESC_INT, STATE_CSI_ENTRY, STATE_CSI_PARAM,
        STATE_CSI_INT, STATE_CSI_IGNORE, STATE_DCS_ENTRY, STATE_DCS_PARAM, STATE_DCS_INT,
        STATE_DCS_PASS, STATE_DCS_IGNORE, STATE_OSC_STRING, STATE_ST_IGNORE] ∧
      v.state ≠ STATE_NONE ∧ v.csi_argc ≤ 16 := by
  obtain ⟨v, e, -, -, s, c, -⟩ := parse_all_frame (cps.take k) kmscon_vte_new
  have hs : v.state ∈ parser_states := s (by decide)
  refine ⟨v, e, hs, ?_, c (by decide)⟩
  intro h0
  rw [h0] at hs
  revert hs
  decide

/-! ## The decoder on each class of byte -/

set_option maxRecDepth 100000 in
/-- An ASCII byte, once through the `char` parameter. -/
theorem ascii_byte_bits : ∀ (sg : Bool) (b : Fin 128),
    fed_uint32 sg b.val = b.val ∧ fed_uint32 sg b.val ≠ 0xC0 ∧ fed_uint32 sg b.val ≠ 0xC1 ∧
    fed_uint32 sg b.val &&& 0x80 = 0 ∧ fed_uint32 sg b.val &&& 0xC0 ≠ 0x80 := by
  decide

set_option maxRecDepth 100000 in
/-- A continuation byte `0x80 + p`, once through the `char` parameter. -/
theorem cont_byte_bits : ∀ (sg : Bool) (p : Fin 64),
    fed_uint32 sg (0x80 + p.val) ≠ 0xC0 ∧ fed_uint32 sg (0x80 + p.val) ≠ 0xC1 ∧
    fed_uint32 sg (0x80 + p.val) &&& 0x80 ≠ 0 ∧
    fed_uint32 sg (0x80 + p.val) &&& 0xC0 = 0x80 ∧
    fed_uint32 sg (0x80 + p.val) &&& 0x3F = p.val := by
  decide

set_option maxRecDepth 100000 in
/-- A lead byte `0xC0 + a` of a two-byte sequence, once through the `char`
parameter: it compares equal to 0xC0 or 0xC1 only where `char` is unsigned. -/
theorem lead2_byte_bits : ∀ (sg : Bool) (a : Fin 32),
    (fed_uint32 sg (0xC0 + a.val) = 0xC0 ∨ fed_uint32 sg (0xC0 + a.val) = 0xC1
      ↔ sg = false ∧ a.val < 2) ∧
    fed_uint32 sg (0xC0 + a.val) &&& 0x80 ≠ 0 ∧
    fed_uint32 sg (0xC0 + a.val) &&& 0xC0 ≠ 0x80 ∧
    fed_uint32 sg (0xC0 + a.val) &&& 0xE0 = 0xC0 ∧
    fed_uint32 sg (0xC0 + a.val) &&& 0x1F = a.val := by
  decide

set_option maxRecDepth 100000 in
/-- A lead byte `0xE0 + a` of a three-byte sequence. -/
theorem lead3_byte_bits : ∀ (sg : Bool) (a : Fin 16),
    fed_uint32 sg (0xE0 + a.val) ≠ 0xC0 ∧ fed_uint32 sg (0xE0 + a.val) ≠ 0xC1 ∧
    fed_uint32 sg (0xE0 + a.val) &&& 0x80 ≠ 0 ∧
    fed_uint32 sg (0xE0 + a.val) &&& 0xC0 ≠ 0x80 ∧
    fed_uint32 sg (0xE0 + a.val) &&& 0xE0 ≠ 0xC0 ∧
    fed_uint32 sg (0xE0 + a.val) &&& 0xF0 = 0xE0 ∧
    fed_uint32 sg (0xE0 + a.val) &&& 0x0F = a.val := by
  decide

set_option maxRecDepth 100000 in
/-- A lead byte `0xF0 + a` of a four-byte sequence. -/
theorem lead4_byte_bits : ∀ (sg : Bool) (a : Fin 8),
    fed_uint32 sg (0xF0 + a.val) ≠ 0xC0 ∧ fed_uint32 sg (0xF0 + a.val) ≠ 0xC1 ∧
    fed_uint32 sg (0xF0 + a.val) &&& 0x80 ≠ 0 ∧
    fed_uint32 sg (0xF0 + a.val) &&& 0xC0 ≠ 0x80 ∧
    fed_uint32 sg (0xF0 + a.val) &&& 0xE0 ≠ 0xC0 ∧
    fed_uint32 sg (0xF0 + a.val) &&& 0xF0 ≠ 0xE0 ∧
    fed_uint32 sg (0xF0 + a.val) &&& 0xF8 = 0xF0 ∧
    fed_uint32 sg (0xF0 + a.val) &&& 0x07 = a.val := by
  decide

set_option maxRecDepth 100000 in
/-- A byte `0xF8 + a`, which starts no sequence and continues none. -/
theorem high_byte_bits : ∀ (sg : Bool) (a : Fin 8),
    fed_uint32 sg (0xF8 + a.val) ≠ 0xC0 ∧ fed_uint32 sg (0xF8 + a.val) ≠ 0xC1 ∧
    fed_uint32 sg (0xF8 + a.val) &&& 0x80 ≠ 0 ∧
    fed_uint32 sg (0xF8 + a.val) &&& 0xC0 ≠ 0x80 ∧
    fed_uint32 sg (0xF8 + a.val) &&& 0xE0 ≠ 0xC0 ∧
    fed_uint32 sg (0xF8 + a.val) &&& 0xF0 ≠ 0xE0 ∧
    fed_uint32 sg (0xF8 + a.val) &&& 0xF8 ≠ 0xF0 := by
  decide

/-- An ASCII byte at the start of a sequence is accepted as itself. -/
theorem feed_ascii (sg : Bool) (mach : tsm_utf8_mach) (b : Nat) (hb : b < 128)
    (hs : at_sequence_start mach.state) :
    tsm_utf8_mach_feed mach (char_of_byte sg b) = { state := TSM_UTF8_ACCEPT, ch := b } := by
  obtain ⟨h0, h1, h2, h3, -⟩ := ascii_byte_bits sg ⟨b, hb⟩
  simp only [fed_uint32] at h0 h1 h2 h3
  rw [h0] at h1 h2 h3
  unfold tsm_utf8_mach_feed
  rcases hs with h | h | h <;> simp [h, h1, h2, h3, h0]

/-- A continuation byte at the start of a sequence is skipped: the state is
START and the accumulator is kept. -/
theorem feed_stray_cont (sg : Bool) (mach : tsm_utf8_mach) (p : Nat) (hp : p < 64)
    (hs : at_sequence_start mach.state) :
    tsm_utf8_mach_feed mach (char_of_byte sg (0x80 + p))
      = { mach with state := TSM_UTF8_START } := by
  obtain ⟨h1, h2, h3, h4, -⟩ := cont_byte_bits sg ⟨p, hp⟩
  simp only [fed_uint32] at h1 h2 h3 h4
  unfold tsm_utf8_mach_feed
  rcases hs with h | h | h <;> simp [h, h1, h2, h3, h4]

/-- A lead byte 0xC2..0xDF at the start of a sequence. -/
theorem feed_lead2 (sg : Bool) (mach : tsm_utf8_mach) (a : Nat) (ha : a < 32)
    (hsg : sg = true ∨ 2 ≤ a) (hs : at_sequence_start mach.state) :
    tsm_utf8_mach_feed mach (char_of_byte sg (0xC0 + a))
      = { state := TSM_UTF8_EXPECT1, ch := a <<< 6 } := by
  obtain ⟨h1, h2, h3, h4, h5⟩ := lead2_byte_bits sg ⟨a, ha⟩
  simp only [fed_uint32] at h1 h2 h3 h4 h5
  have h1n : ¬ (uint32_of_int (char_of_byte sg (0xC0 + a)) = 0xC0 ∨
      uint32_of_int (char_of_byte sg (0xC0 + a)) = 0xC1) := by
    rw [h1]
    rcases hsg with h | h
    · simp [h]
    · omega
  unfold tsm_utf8_mach_feed
  rcases hs with h | h | h <;> simp [h, h1n, h2, h3, h4, h5]

/-- A lead byte 0xE0..0xEF at the start of a sequence. -/
theorem feed_lead3 (sg : Bool) (mach : tsm_utf8_mach) (a : Nat) (ha : a < 16)
    (hs : at_sequence_start mach.state) :
    tsm_utf8_mach_feed mach (char_of_byte sg (0xE0 + a))
      = { state := TSM_UTF8_EXPECT2, ch := a <<< 12 } := by
  obtain ⟨h1, h2, h3, h4, h5, h6, h7⟩ := lead3_byte_bits sg ⟨a, ha⟩
  simp only [fed_uint32] at h1 h2 h3 h4 h5 h6 h7
  unfold tsm_utf8_mach_feed
  rcases hs with h | h | h <;> simp [h, h1, h2, h3, h4, h5, h6, h7]

/-- A lead byte 0xF0..0xF7 at the start of a sequence. -/
theorem feed_lead4 (sg : Bool) (mach : tsm_utf8_mach) (a : Nat) (ha : a < 8)
    (hs : at_sequence_start mach.state) :
    tsm_utf8_mach_feed mach (char_of_byte sg (0xF0 + a))
      = { state := TSM_UTF8_EXPECT3, ch := a <<< 18 } := by
  obtain ⟨h1, h2, h3, h4, h5, h6, h7, h8⟩ := lead4_byte_bits sg ⟨a, ha⟩
  simp only [fed_uint32] at h1 h2 h3 h4 h5 h6 h7 h8
  unfold tsm_utf8_mach_feed
  rcases hs with h | h | h <;> simp [h, h1, h2, h3, h4, h5, h6, h7, h8]

/-- A continuation byte while three are expected. -/
theorem feed_cont3 (sg : Bool) (mach : tsm_utf8_mach) (p : Nat) (hp : p < 64)
    (hs : mach.state = TSM_UTF8_EXPECT3) :
    tsm_utf8_mach_feed mach (char_of_byte sg (0x80 + p))
      = { state := TSM_UTF8_EXPECT2, ch := mach.ch ||| (p <<< 12) } := by
  obtain ⟨-, -, -, h4, h5⟩ := cont_byte_bits sg ⟨p, hp⟩
  simp only [fed_uint32] at h4 h5
  unfold tsm_utf8_mach_feed
  simp [hs, h4, h5]

/-- A continuation byte while two are expected. -/
theorem feed_cont2 (sg : Bool) (mach : tsm_utf8_mach) (p : Nat) (hp : p < 64)
    (hs : mach.state = TSM_UTF8_EXPECT2) :
    tsm_utf8_mach_feed mach (char_of_byte sg (0x80 + p))
      = { state := TSM_UTF8_EXPECT1, ch := mach.ch ||| (p <<< 6) } := by
  obtain ⟨-, -, -, h4, h5⟩ := cont_byte_bits sg ⟨p, hp⟩
  simp only [fed_uint32] at h4 h5
  unfold tsm_utf8_mach_feed
  simp [hs, h4, h5]

/-- A continuation byte while one is expected. -/
theorem feed_cont1 (sg : Bool) (mach : tsm_utf8_mach) (p : Nat) (hp : p < 64)
    (hs : mach.state = TSM_UTF8_EXPECT1) :
    tsm_utf8_mach_feed mach (char_of_byte sg (0x80 + p))
      = { state := TSM_UTF8_ACCEPT, ch := mach.ch ||| p } := by
  obtain ⟨-, -, -, h4, h5⟩ := cont_byte_bits sg ⟨p, hp⟩
  simp only [fed_uint32] at h4 h5
  unfold tsm_utf8_mach_feed
  simp [hs, h4, h5]

/-! ## C3: decoding the standard encoding -/

theorem shl6_or (a p : Nat) (hp : p < 64) : (a <<< 6) ||| p = a * 64 + p := by
  have h := Nat.mul_add_lt_is_or (show p < 2 ^ 6 by omega) a
  rw [Nat.shiftLeft_eq, ← Nat.mul_comm (2 ^ 6) a, ← h]

theorem shl12_or (a p : Nat) (hp : p < 4096) : (a <<< 12) ||| p = a * 4096 + p := by
  have h := Nat.mul_add_lt_is_or (show p < 2 ^ 12 by omega) a
  rw [Nat.shiftLeft_eq, ← Nat.mul_comm (2 ^ 12) a, ← h]

theorem shl18_or (a p : Nat) (hp : p < 262144) : (a <<< 18) ||| p = a * 262144 + p := by
  have h := Nat.mul_add_lt_is_or (show p < 2 ^ 18 by omega) a
  rw [Nat.shiftLeft_eq, ← Nat.mul_comm (2 ^ 18) a, ← h]

/-- The accumulator of a two-byte sequence. -/
theorem acc2 (a p : Nat) (hp : p < 64) : (a <<< 6) ||| p = a * 64 + p :=
  shl6_or a p hp

/-- The accumulator of a three-byte sequence. -/
theorem acc3 (a p q : Nat) (hp : p < 64) (hq : q < 64) :
    ((a <<< 12) ||| (p <<< 6)) ||| q = a * 4096 + p * 64 + q := by
  have h1 : p <<< 6 = p * 64 := by rw [Nat.shiftLeft_eq]
  rw [h1, shl12_or a (p * 64) (by omega)]
  have h2 : a * 4096 + p * 64 = (a * 64 + p) <<< 6 := by rw [Nat.shiftLeft_eq]; omega
  rw [h2, shl6_or _ q hq]
  omega

/-- The accumulator of a four-byte sequence. -/
theorem acc4 (a p q r : Nat) (hp : p < 64) (hq : q < 64) (hr : r < 64) :
    (((a <<< 18) ||| (p <<< 12)) ||| (q <<< 6)) ||| r
      = a * 262144 + p * 4096 + q * 64 + r := by
  have h1 : p <<< 12 = p * 4096 := by rw [Nat.shiftLeft_eq]
  have h3 : q <<< 6 = q * 64 := by rw [Nat.shiftLeft_eq]
  rw [h1, shl18_or a (p * 4096) (by omega), h3]
  have h2 : a * 262144 + p * 4096 = (a * 64 + p) <<< 12 := by rw [Nat.shiftLeft_eq]; omega
  rw [h2, shl12_or _ (q * 64) (by omega)]
  have h4 : (a * 64 + p) * 4096 + q * 64 = ((a * 64 + p) * 64 + q) <<< 6 := by
    rw [Nat.shiftLeft_eq]; omega
  rw [h4, shl6_or _ r hr]
  omega

/-- C3: for every Unicode scalar value `cp`, on either kind of `char`, feeding
the bytes of the standard UTF-8 encoding of `cp` one by one to
`tsm_utf8_mach_feed`, from a decoder in state START, ACCEPT or REJECT, returns
ACCEPT on the last byte, returns neither ACCEPT nor REJECT on any earlier
byte, and `tsm_utf8_mach_get` then returns `cp`. -/
theorem utf8_decode_encode (sg : Bool) (mach : tsm_utf8_mach) (cp : Nat)
    (hcp : is_unicode_scalar cp) (hs : at_sequence_start mach.state) :
    (tsm_utf8_mach_feed_states mach ((utf8_encode cp).map (char_of_byte sg))).getLast?
      = some TSM_UTF8_ACCEPT ∧
    (∀ s ∈ (tsm_utf8_mach_feed_states mach ((utf8_encode cp).map (char_of_byte sg))).dropLast,
      s ≠ TSM_UTF8_ACCEPT ∧ s ≠ TSM_UTF8_REJECT) ∧
    tsm_utf8_mach_get (tsm_utf8_mach_feed_all mach ((utf8_encode cp).map (char_of_byte sg)))
      = cp := by
  obtain ⟨hmax, -⟩ := hcp
  unfold utf8_encode
  by_cases h1 : cp < 0x80
  · rw [if_pos h1]
    simp only [List.map, tsm_utf8_mach_feed_states, tsm_utf8_mach_feed_all, List.foldl,
      feed_ascii sg mach cp h1 hs]
    simp [tsm_utf8_mach_get]
  · rw [if_neg h1]
    by_cases h2 : cp < 0x800
    · rw [if_pos h2]
      have e1 := feed_lead2 sg mach (cp / 64) (by omega) (Or.inr (by omega)) hs
      have e2 := feed_cont1 sg { state := TSM_UTF8_EXPECT1, ch := (cp / 64) <<< 6 }
        (cp % 64) (by omega) rfl
      simp only [List.map, tsm_utf8_mach_feed_states, tsm_utf8_mach_feed_all, List.foldl,
        e1, e2]
      simp only [acc2 (cp / 64) (cp % 64) (by omega)]
      simp [tsm_utf8_mach_get]
      omega
    · rw [if_neg h2]
      by_cases h3 : cp < 0x10000
      · rw [if_pos h3]
        have e1 := feed_lead3 sg mach (cp / 4096) (by omega) hs
        have e2 := feed_cont2 sg { state := TSM_UTF8_EXPECT2, ch := (cp / 4096) <<< 12 }
          (cp / 64 % 64) (by omega) rfl
        have e3 := feed_cont1 sg
          { state := TSM_UTF8_EXPECT1, ch := (cp / 4096) <<< 12 ||| (cp / 64 % 64) <<< 6 }
          (cp % 64) (by omega) rfl
        simp only [List.map, tsm_utf8_mach_feed_states, tsm_utf8_mach_feed_all, List.foldl,
          e1, e2, e3]
        simp only [acc3 (cp / 4096) (cp / 64 % 64) (cp % 64) (by omega) (by omega)]
        simp [tsm_utf8_mach_get]
        omega
      · rw [if_neg h3]
        have e1 := feed_lead4 sg mach (cp / 262144) (by omega) hs
        have e2 := feed_cont3 sg { state := TSM_UTF8_EXPECT3, ch := (cp / 262144) <<< 18 }
          (cp / 4096 % 64) (by omega) rfl
        have e3 := feed_cont2 sg
          { state := TSM_UTF8_EXPECT2,
            ch := (cp / 262144) <<< 18 ||| (cp / 4096 % 64) <<< 12 }
          (cp / 64 % 64) (by omega) rfl
        have e4 := feed_cont1 sg
          { state := TSM_UTF8_EXPECT1,
            ch := ((cp / 262144) <<< 18 ||| (cp / 4096 % 64) <<< 12) |||
              (cp / 64 % 64) <<< 6 }
          (cp % 64) (by omega) rfl
        simp only [List.map, tsm_utf8_mach_feed_states, tsm_utf8_mach_feed_all, List.foldl,
          e1, e2, e3, e4]
        simp only [acc4 (cp / 262144) (cp / 4096 % 64) (cp / 64 % 64) (cp % 64)
          (by omega) (by omega) (by omega)]
        simp [tsm_utf8_mach_get]
        omega

/-- C3 at U+4F60, on a platform with signed `char`, from a fresh decoder: the
bytes E4 BD A0 give EXPECT2, EXPECT1, ACCEPT and the code point 0x4F60. -/
theorem utf8_decode_encode_witness :
    is_unicode_scalar 0x4F60 ∧ at_sequence_start tsm_utf8_mach_new.state ∧
    utf8_encode 0x4F60 = [0xE4, 0xBD, 0xA0] ∧
    tsm_utf8_mach_feed_states tsm_utf8_mach_new ([0xE4, 0xBD, 0xA0].map (char_of_byte true))
      = [TSM_UTF8_EXPECT2, TSM_UTF8_EXPECT1, TSM_UTF8_ACCEPT] ∧
    tsm_utf8_mach_get (tsm_utf8_mach_feed_all tsm_utf8_mach_new
      ((utf8_encode 0x4F60).map (char_of_byte true))) = 0x4F60 :=
  ⟨by decide, Or.inl rfl, by decide, by decide,
   (utf8_decode_encode true tsm_utf8_mach_new 0x4F60 (by decide) (Or.inl rfl)).2.2⟩

/-! ## C4: overlong encodings -/

/-- Any three-byte sequence with a correct lead byte and continuation bytes
is accepted with its payload. -/
theorem feed_three_bytes (sg : Bool) (mach : tsm_utf8_mach) (a p q : Nat)
    (ha : a < 16) (hp : p < 64) (hq : q < 64) (hs : at_sequence_start mach.state) :
    tsm_utf8_mach_feed_states mach ([0xE0 + a, 0x80 + p, 0x80 + q].map (char_of_byte sg))
      = [TSM_UTF8_EXPECT2, TSM_UTF8_EXPECT1, TSM_UTF8_ACCEPT] ∧
    tsm_utf8_mach_feed_all mach ([0xE0 + a, 0x80 + p, 0x80 + q].map (char_of_byte sg))
      = { state := TSM_UTF8_ACCEPT, ch := a * 4096 + p * 64 + q } := by
  have e1 := feed_lead3 sg mach a ha hs
  have e2 := feed_cont2 sg { state := TSM_UTF8_EXPECT2, ch := a <<< 12 } p hp rfl
  have e3 := feed_cont1 sg { state := TSM_UTF8_EXPECT1, ch := a <<< 12 ||| p <<< 6 } q hq rfl
  simp only [List.map, tsm_utf8_mach_feed_states, tsm_utf8_mach_feed_all, List.foldl,
    e1, e2, e3, acc3 a p q hp hq]
  simp

/-- Any four-byte sequence with a correct lead byte and continuation bytes
is accepted with its payload. -/
theorem feed_four_bytes (sg : Bool) (mach : tsm_utf8_mach) (a p q r : Nat)
    (ha : a < 8) (hp : p < 64) (hq : q < 64) (hr : r < 64)
    (hs : at_sequence_start mach.state) :
    tsm_utf8_mach_feed_states mach
        ([0xF0 + a, 0x80 + p, 0x80 + q, 0x80 + r].map (char_of_byte sg))
      = [TSM_UTF8_EXPECT3, TSM_UTF8_EXPECT2, TSM_UTF8_EXPECT1, TSM_UTF8_ACCEPT] ∧
    tsm_utf8_mach_feed_all mach
        ([0xF0 + a, 0x80 + p, 0x80 + q, 0x80 + r].map (char_of_byte sg))
      = { state := TSM_UTF8_ACCEPT, ch := a * 262144 + p * 4096 + q * 64 + r } := by
  have e1 := feed_lead4 sg mach a ha hs
  have e2 := feed_cont3 sg { state := TSM_UTF8_EXPECT3, ch := a <<< 18 } p hp rfl
  have e3 := feed_cont2 sg { state := TSM_UTF8_EXPECT2, ch := a <<< 18 ||| p <<< 12 } q hq rfl
  have e4 := feed_cont1 sg
    { state := TSM_UTF8_EXPECT1, ch := (a <<< 18 ||| p <<< 12) ||| q <<< 6 } r hr rfl
  simp only [List.map, tsm_utf8_mach_feed_states, tsm_utf8_mach_feed_all, List.foldl,
    e1, e2, e3, e4, acc4 a p q r hp hq hr]
  simp

/-- Where `char` is unsigned, the bytes 0xC0 and 0xC1 are rejected at the start
of a sequence, with the accumulator kept. -/
theorem feed_c0_c1_unsigned (mach : tsm_utf8_mach) (a : Nat) (ha : a < 2)
    (hs : at_sequence_start mach.state) :
    tsm_utf8_mach_feed mach (char_of_byte false (0xC0 + a))
      = { mach with state := TSM_UTF8_REJECT } := by
  have h1 := (lead2_byte_bits false ⟨a, by omega⟩).1
  simp only [fed_uint32] at h1
  have h1p := h1.mpr ⟨trivial, ha⟩
  unfold tsm_utf8_mach_feed
  rcases hs with h | h | h <;> simp [h, h1p]

/-- C4 fails as stated: E0 80 80 is an overlong encoding (of 0), and on either
kind of `char` the decoder, fed from START, returns EXPECT2, EXPECT1, ACCEPT,
never REJECT, and `tsm_utf8_mach_get` then returns 0, not REPLACEMENT. -/
theorem overlong_e0_80_80_accepted :
    is_overlong [0xE0, 0x80, 0x80] ∧
    tsm_utf8_mach_feed_states tsm_utf8_mach_new ([0xE0, 0x80, 0x80].map (char_of_byte false))
      = [TSM_UTF8_EXPECT2, TSM_UTF8_EXPECT1, TSM_UTF8_ACCEPT] ∧
    tsm_utf8_mach_feed_states tsm_utf8_mach_new ([0xE0, 0x80, 0x80].map (char_of_byte true))
      = [TSM_UTF8_EXPECT2, TSM_UTF8_EXPECT1, TSM_UTF8_ACCEPT] ∧
    tsm_utf8_mach_get (tsm_utf8_mach_feed_all tsm_utf8_mach_new
      ([0xE0, 0x80, 0x80].map (char_of_byte false))) = 0 ∧
    tsm_utf8_mach_get (tsm_utf8_mach_feed_all tsm_utf8_mach_new
      ([0xE0, 0x80, 0x80].map (char_of_byte true))) = 0 ∧
    TSM_UCS4_REPLACEMENT ≠ 0 :=
  ⟨⟨0, by decide, Or.inr (Or.inl ⟨rfl, by decide⟩)⟩, by decide, by decide, by decide,
    by decide, by decide⟩

/-- C4 as amended: the decoder checks overlong forms on the two-byte lead
bytes only.  For every overlong three- or four-byte encoding, on either kind
of `char` and from every sequence-start state, no byte is rejected, the last
byte is accepted and `tsm_utf8_mach_get` returns the payload, that is the
overlong value.  For every overlong two-byte encoding (lead byte 0xC0 or
0xC1), where `char` is unsigned, the lead byte is rejected, so that
`tsm_utf8_mach_get` returns REPLACEMENT, and the continuation byte is then
skipped with the decoder in START. -/
theorem overlong_decoding (sg : Bool) (mach : tsm_utf8_mach) (bs : List Nat) (v : Nat)
    (hs : at_sequence_start mach.state) (hv : utf8_payload bs = some v)
    (hover : (bs.length = 2 ∧ v < 0x80) ∨ (bs.length = 3 ∧ v < 0x800) ∨
      (bs.length = 4 ∧ v < 0x10000)) :
    (bs.length = 3 ∨ bs.length = 4 →
      TSM_UTF8_REJECT ∉ tsm_utf8_mach_feed_states mach (bs.map (char_of_byte sg)) ∧
      (tsm_utf8_mach_feed_all mach (bs.map (char_of_byte sg))).state = TSM_UTF8_ACCEPT ∧
      tsm_utf8_mach_get (tsm_utf8_mach_feed_all mach (bs.map (char_of_byte sg))) = v) ∧
    (bs.length = 2 → sg = false →
      tsm_utf8_mach_feed_states mach (bs.map (char_of_byte sg))
        = [TSM_UTF8_REJECT, TSM_UTF8_START] ∧
      tsm_utf8_mach_get (tsm_utf8_mach_feed mach (char_of_byte sg (bs.headD 0)))
        = TSM_UCS4_REPLACEMENT) := by
  rcases bs with _ | ⟨l, _ | ⟨c1, _ | ⟨c2, _ | ⟨c3, _ | ⟨c4, rest⟩⟩⟩⟩⟩
  · simp [utf8_payload] at hv
  · simp [utf8_payload] at hv
  · -- two bytes
    simp only [utf8_payload] at hv
    split_ifs at hv with hc
    obtain ⟨hl1, hl2, hc1, hc2⟩ := hc
    have hv2 : v < 0x80 := by
      rcases hover with h | h | h
      · exact h.2
      · simp at h
      · simp at h
    simp only [Option.some.injEq] at hv
    obtain ⟨a, rfl⟩ : ∃ a, l = 0xC0 + a := ⟨l - 0xC0, by omega⟩
    obtain ⟨p, rfl⟩ : ∃ p, c1 = 0x80 + p := ⟨c1 - 0x80, by omega⟩
    refine ⟨fun h => by simp at h, fun _ hsg => ?_⟩
    subst hsg
    have e1 := feed_c0_c1_unsigned mach a (by omega) hs
    have e2 := feed_stray_cont false { mach with state := TSM_UTF8_REJECT } p (by omega)
      (Or.inr (Or.inr rfl))
    simp only [List.map, tsm_utf8_mach_feed_states, List.headD, e1, e2]
    simp [tsm_utf8_mach_get]
  · -- three bytes
    simp only [utf8_payload] at hv
    split_ifs at hv with hc
    obtain ⟨hl1, hl2, ⟨hc1, hc2⟩, hc3, hc4⟩ := hc
    simp only [Option.some.injEq] at hv
    obtain ⟨a, rfl⟩ : ∃ a, l = 0xE0 + a := ⟨l - 0xE0, by omega⟩
    obtain ⟨p, rfl⟩ : ∃ p, c1 = 0x80 + p := ⟨c1 - 0x80, by omega⟩
    obtain ⟨q, rfl⟩ : ∃ q, c2 = 0x80 + q := ⟨c2 - 0x80, by omega⟩
    obtain ⟨e1, e2⟩ := feed_three_bytes sg mach a p q (by omega) (by omega) (by omega) hs
    refine ⟨fun _ => ?_, fun h => by simp at h⟩
    rw [e1, e2]
    refine ⟨by decide, rfl, ?_⟩
    simp only [tsm_utf8_mach_get]
    rw [if_neg (by simp)]
    omega
  · -- four bytes
    simp only [utf8_payload] at hv
    split_ifs at hv with hc
    obtain ⟨hl1, hl2, ⟨hc1, hc2⟩, ⟨hc3, hc4⟩, hc5, hc6⟩ := hc
    simp only [Option.some.injEq] at hv
    obtain ⟨a, rfl⟩ : ∃ a, l = 0xF0 + a := ⟨l - 0xF0, by omega⟩
    obtain ⟨p, rfl⟩ : ∃ p, c1 = 0x80 + p := ⟨c1 - 0x80, by omega⟩
    obtain ⟨q, rfl⟩ : ∃ q, c2 = 0x80 + q := ⟨c2 - 0x80, by omega⟩
    obtain ⟨r, rfl⟩ : ∃ r, c3 = 0x80 + r := ⟨c3 - 0x80, by omega⟩
    obtain ⟨e1, e2⟩ := feed_four_bytes sg mach a p q r (by omega) (by omega) (by omega)
      (by omega) hs
    refine ⟨fun _ => ?_, fun h => by simp at h⟩
    rw [e1, e2]
    refine ⟨by decide, rfl, ?_⟩
    simp only [tsm_utf8_mach_get]
    rw [if_neg (by simp)]
    omega
  · simp [utf8_payload] at hv

/-- The amended C4 at F0 80 80 AF (an overlong '/') where `char` is signed:
accepted as 0x2F. -/
theorem overlong_decoding_witness :
    at_sequence_start tsm_utf8_mach_new.state ∧
    utf8_payload [0xF0, 0x80, 0x80, 0xAF] = some 0x2F ∧
    tsm_utf8_mach_get (tsm_utf8_mach_feed_all tsm_utf8_mach_new
      ([0xF0, 0x80, 0x80, 0xAF].map (char_of_byte true))) = 0x2F :=
  ⟨Or.inl rfl, by decide,
   ((overlong_decoding true tsm_utf8_mach_new [0xF0, 0x80, 0x80, 0xAF] 0x2F (Or.inl rfl)
      (by decide) (Or.inr (Or.inr ⟨rfl, by decide⟩))).1 (Or.inr rfl)).2.2⟩

/-! ## C5: the bytes 0xC0 and 0xC1 -/

/-- C5 fails where plain `char` is signed: the byte 0xC0 (0xC1) reaches
`tsm_utf8_mach_feed` as the `char` −64 (−63), the conversion `c = ci` makes it
0xFFFFFFC0 (0xFFFFFFC1), the test `c == 0xC0 || c == 0xC1` is false, and the
byte is taken for the lead byte of a two-byte sequence: from every
sequence-start state the decoder goes to EXPECT1, not to REJECT, with
accumulator 0 (0x40).  A continuation byte 0x80 + p that follows is then
accepted as the code point `a * 64 + p`. -/
theorem feed_c0_c1_signed (mach : tsm_utf8_mach) (a p : Nat) (ha : a < 2) (hp : p < 64)
    (hs : at_sequence_start mach.state) :
    char_of_byte true (0xC0 + a) = (a : Int) - 64 ∧
    uint32_of_int (char_of_byte true (0xC0 + a)) = 0xFFFFFFC0 + a ∧
    tsm_utf8_mach_feed mach (char_of_byte true (0xC0 + a))
      = { state := TSM_UTF8_EXPECT1, ch := a * 64 } ∧
    (tsm_utf8_mach_feed mach (char_of_byte true (0xC0 + a))).state ≠ TSM_UTF8_REJECT ∧
    tsm_utf8_mach_feed_all mach ([0xC0 + a, 0x80 + p].map (char_of_byte true))
      = { state := TSM_UTF8_ACCEPT, ch := a * 64 + p } := by
  have e1 := feed_lead2 true mach a (by omega) (Or.inl rfl) hs
  have e2 := feed_cont1 true { state := TSM_UTF8_EXPECT1, ch := a <<< 6 } p hp rfl
  have e3 : a <<< 6 = a * 64 := by rw [Nat.shiftLeft_eq]
  refine ⟨?_, ?_, ?_, ?_, ?_⟩
  · unfold char_of_byte
    rw [if_pos ⟨rfl, by omega⟩]
    push_cast
    omega
  · have h : a = 0 ∨ a = 1 := by omega
    rcases h with h | h <;> subst h <;> decide
  · rw [e1, e3]
  · rw [e1]
    simp
  · simp only [List.map, tsm_utf8_mach_feed_all, List.foldl, e1, e2, acc2 a p hp]

/-- C5 evaluated at the byte 0xC0 on a fresh decoder where `char` is signed,
followed by the byte 0x80: EXPECT1, then ACCEPT with the code point 0. -/
theorem feed_c0_c1_signed_witness :
    at_sequence_start tsm_utf8_mach_new.state ∧
    tsm_utf8_mach_feed tsm_utf8_mach_new (char_of_byte true 0xC0)
      = { state := TSM_UTF8_EXPECT1, ch := 0 } ∧
    tsm_utf8_mach_feed_all tsm_utf8_mach_new ([0xC0, 0x80].map (char_of_byte true))
      = { state := TSM_UTF8_ACCEPT, ch := 0 } :=
  ⟨Or.inl rfl,
   (feed_c0_c1_signed tsm_utf8_mach_new 0 0 (by decide) (by decide) (Or.inl rfl)).2.2.1,
   (feed_c0_c1_signed tsm_utf8_mach_new 0 0 (by decide) (by decide) (Or.inl rfl)).2.2.2.2⟩

/-! ## C7: the bytes C0 80 41 -/

/-- C7 fails as stated: on neither kind of `char` is the decoder in REJECT
after the second byte of C0 80 41.  Where `char` is unsigned the states are
REJECT, START, ACCEPT; where it is signed they are EXPECT1, ACCEPT, ACCEPT. -/
theorem c0_80_41_second_byte_not_reject :
    tsm_utf8_mach_feed_states kmscon_vte_new.mach ([0xC0, 0x80, 0x41].map (char_of_byte false))
      = [TSM_UTF8_REJECT, TSM_UTF8_START, TSM_UTF8_ACCEPT] ∧
    tsm_utf8_mach_feed_states kmscon_vte_new.mach ([0xC0, 0x80, 0x41].map (char_of_byte true))
      = [TSM_UTF8_EXPECT1, TSM_UTF8_ACCEPT, TSM_UTF8_ACCEPT] := by
  decide

/-- C7 as amended: feeding C0 80 41 to a fresh terminal through
`kmscon_vte_input` where `char` is unsigned, the decoder reaches REJECT after
the first byte (0xC0) and the parser receives REPLACEMENT, which GROUND
prints; the second byte (0x80) is skipped and leaves the decoder in START; the
byte 0x41 is then decoded to ACCEPT with code point 'A' and printed with the
current attributes.  On either kind of `char` the last byte 0x41 is decoded to
ACCEPT with code point 'A', and the write of 'A' with the current (default)
attributes is the last call the terminal makes. -/
theorem c0_80_41_input :
    tsm_utf8_mach_feed_states kmscon_vte_new.mach ([0xC0, 0x80, 0x41].map (char_of_byte false))
      = [TSM_UTF8_REJECT, TSM_UTF8_START, TSM_UTF8_ACCEPT] ∧
    vte_input_ucs4 kmscon_vte_new.mach ([0xC0, 0x80, 0x41].map (char_of_byte false))
      = [TSM_UCS4_REPLACEMENT, 0x41] ∧
    kmscon_vte_input kmscon_vte_new ([0xC0, 0x80, 0x41].map (char_of_byte false))
      = some { kmscon_vte_new with
          mach := { state := TSM_UTF8_ACCEPT, ch := 0x41 },
          trace := [console_write (kmscon_symbol_t.make TSM_UCS4_REPLACEMENT) default_cattr,
                    console_write (kmscon_symbol_t.make 0x41) default_cattr] } ∧
    (∀ sg : Bool, ∃ v,
      kmscon_vte_input kmscon_vte_new ([0xC0, 0x80, 0x41].map (char_of_byte sg)) = some v ∧
      v.mach = { state := TSM_UTF8_ACCEPT, ch := 0x41 } ∧ v.state = STATE_GROUND ∧
      v.cattr = default_cattr ∧
      v.trace.getLast? = some (console_write (kmscon_symbol_t.make 0x41) default_cattr)) := by
  refine ⟨by decide, by decide, by decide, fun sg => ?_⟩
  cases sg
  · exact ⟨{ kmscon_vte_new with
        mach := { state := TSM_UTF8_ACCEPT, ch := 0x41 },
        trace := [console_write (kmscon_symbol_t.make TSM_UCS4_REPLACEMENT) default_cattr,
                  console_write (kmscon_symbol_t.make 0x41) default_cattr] },
      by decide, by decide⟩
  · exact ⟨{ kmscon_vte_new with
        mach := { state := TSM_UTF8_ACCEPT, ch := 0x41 },
        trace := [console_write (kmscon_symbol_t.make 0x41) default_cattr] },
      by decide, by decide⟩

/-! ## `kmscon_vte_input` as decoder followed by parser -/

theorem set_mach_ite (m : tsm_utf8_mach) (c : Prop) [Decidable c] (a b : kmscon_vte) :
    set_mach m (if c then a else b) = if c then set_mach m a else set_mach m b := by
  split_ifs <;> rfl

theorem do_execute_set_mach (m : tsm_utf8_mach) (vte : kmscon_vte) (ctrl : Nat) :
    do_execute (set_mach m vte) ctrl = set_mach m (do_execute vte ctrl) := by
  unfold do_execute
  simp only [set_mach_ite]
  rfl

theorem do_esc_set_mach (m : tsm_utf8_mach) (vte : kmscon_vte) (data : Nat) :
    do_esc (set_mach m vte) data = set_mach m (do_esc vte data) := by
  unfold do_esc
  simp only [set_mach_ite]
  rfl

theorem do_csi_set_mach (m : tsm_utf8_mach) (vte : kmscon_vte) (data : Nat) :
    do_csi (set_mach m vte) data = set_mach m (do_csi vte data) := by
  unfold do_csi
  by_cases h : vte.csi_argc < CSI_ARG_MAX
  · have h1 : (set_mach m vte).csi_argc < CSI_ARG_MAX := h
    simp only [if_pos h, if_pos h1, set_mach_ite]
    rfl
  · have h1 : ¬ (set_mach m vte).csi_argc < CSI_ARG_MAX := h
    simp only [if_neg h, if_neg h1, set_mach_ite]
    rfl

theorem do_param_set_mach (m : tsm_utf8_mach) (vte : kmscon_vte) (data : Nat) :
    do_param (set_mach m vte) data = (do_param vte data).map (set_mach m) := by
  by_cases hd : data = 0x3b
  · subst hd
    rw [do_param_semicolon, do_param_semicolon]
    by_cases h : vte.csi_argc < CSI_ARG_MAX
    · have h1 : (set_mach m vte).csi_argc < CSI_ARG_MAX := h
      rw [if_pos h, if_pos h1]
      rfl
    · have h1 : ¬ (set_mach m vte).csi_argc < CSI_ARG_MAX := h
      rw [if_neg h, if_neg h1]
      rfl
  · by_cases h : vte.csi_argc < CSI_ARG_MAX
    · have h1 : (set_mach m vte).csi_argc < CSI_ARG_MAX := h
      rw [do_param_slot vte data hd h, do_param_slot (set_mach m vte) data hd h1]
      simp only [Option.map_some', set_mach_ite]
      rfl
    · rw [do_param_full vte data hd (by omega), do_param_full (set_mach m vte) data hd
        (show CSI_ARG_MAX ≤ vte.csi_argc by omega)]
      rfl

theorem do_action_set_mach (m : tsm_utf8_mach) (vte : kmscon_vte) (data : Nat)
    (act : parser_action) :
    do_action (set_mach m vte) data act = (do_action vte data act).map (set_mach m) := by
  cases act
  case ACTION_PARAM => exact do_param_set_mach m vte data
  case ACTION_EXECUTE =>
    show some (do_execute (set_mach m vte) data) = some (set_mach m (do_execute vte data))
    rw [do_execute_set_mach]
  case ACTION_ESC_DISPATCH =>
    show some (do_esc (set_mach m vte) data) = some (set_mach m (do_esc vte data))
    rw [do_esc_set_mach]
  case ACTION_CSI_DISPATCH =>
    show some (do_csi (set_mach m vte) data) = some (set_mach m (do_csi vte data))
    rw [do_csi_set_mach]
  all_goals rfl

theorem do_trans_set_mach (m : tsm_utf8_mach) (vte : kmscon_vte) (data : Nat)
    (st : parser_state) (act : parser_action) :
    do_trans (set_mach m vte) data st act = (do_trans vte data st act).map (set_mach m) := by
  by_cases hst : st ≠ STATE_NONE
  · rw [do_trans_of_ne_none _ _ _ _ hst, do_trans_of_ne_none _ _ _ _ hst, do_action_set_mach]
    cases h2 : do_action vte data act with
    | none => rfl
    | some v2 =>
      simp only [Option.map_some', Option.some_bind]
      rw [do_action_set_mach]
      cases h3 : do_action v2 data (entry_action st) with
      | none => rfl
      | some v3 => rfl
  · have hs : st = STATE_NONE := not_not.mp hst
    subst hs
    rw [do_trans_none, do_trans_none, do_action_set_mach]

/-- The function `parse_data` does not look at the decoder. -/
theorem parse_data_set_mach (m : tsm_utf8_mach) (vte : kmscon_vte) (raw : Nat) :
    parse_data (set_mach m vte) raw = (parse_data vte raw).map (set_mach m) := by
  unfold parse_data
  cases anywhere_rule raw with
  | some p => exact do_trans_set_mach m vte raw p.1 p.2
  | none =>
    show (match state_rule vte.state raw with
      | some (state, act) => do_trans (set_mach m vte) raw state act
      | none => some (set_mach m vte)) = _
    cases state_rule vte.state raw with
    | some p => exact do_trans_set_mach m vte raw p.1 p.2
    | none => rfl

theorem parse_all_set_mach (m : tsm_utf8_mach) (cps : List Nat) (vte : kmscon_vte) :
    parse_all (set_mach m vte) cps = (parse_all vte cps).map (set_mach m) := by
  induction cps generalizing vte with
  | nil => rfl
  | cons raw rest ih =>
    obtain ⟨v1, e1, -⟩ := parse_data_frame vte raw
    simp only [parse_all, parse_data_set_mach, e1, Option.map_some', Option.some_bind, ih]

/-- The function `kmscon_vte_input` is the parser run over the code points the decoder
hands over (`vte_input_ucs4`), next to the decoder run over the input. -/
theorem kmscon_vte_input_eq (cs : List Int) (vte : kmscon_vte) :
    kmscon_vte_input vte cs
      = (parse_all vte (vte_input_ucs4 vte.mach cs)).map
          (set_mach (tsm_utf8_mach_feed_all vte.mach cs)) := by
  induction cs generalizing vte with
  | nil =>
    simp only [kmscon_vte_input, vte_input_ucs4, parse_all, tsm_utf8_mach_feed_all,
      List.foldl, Option.map_some']
    rfl
  | cons c rest ih =>
    have hm : ∀ (m : tsm_utf8_mach) (w : kmscon_vte),
        kmscon_vte_input (set_mach m w) rest
          = (parse_all w (vte_input_ucs4 m rest)).map
              (set_mach (tsm_utf8_mach_feed_all m rest)) := by
      intro m w
      rw [ih (set_mach m w)]
      show (parse_all (set_mach m w) (vte_input_ucs4 m rest)).map
        (set_mach (tsm_utf8_mach_feed_all m rest)) = _
      rw [parse_all_set_mach]
      cases parse_all w (vte_input_ucs4 m rest) with
      | none => rfl
      | some v => rfl
    by_cases h : (tsm_utf8_mach_feed vte.mach c).state = TSM_UTF8_ACCEPT ∨
        (tsm_utf8_mach_feed vte.mach c).state = TSM_UTF8_REJECT
    · obtain ⟨v1, e1, -⟩ := parse_data_frame vte
        (tsm_utf8_mach_get (tsm_utf8_mach_feed vte.mach c))
      have e2 := parse_data_set_mach (tsm_utf8_mach_feed vte.mach c) vte
        (tsm_utf8_mach_get (tsm_utf8_mach_feed vte.mach c))
      rw [e1] at e2
      simp only [kmscon_vte_input, vte_input_ucs4, if_pos h, parse_all, e1,
        Option.some_bind, tsm_utf8_mach_feed_all, List.foldl]
      show (parse_data (set_mach (tsm_utf8_mach_feed vte.mach c) vte) _).bind _ = _
      rw [e2]
      simp only [Option.map_some', Option.some_bind]
      exact hm _ v1
    · simp only [kmscon_vte_input, vte_input_ucs4, if_neg h, tsm_utf8_mach_feed_all,
        List.foldl]
      exact hm _ vte

/-! ## C6: invalid input -/

set_option maxRecDepth 100000 in
/-- A byte outside 0x80..0xBF, once through the `char` parameter, is not of the
form 10xxxxxx. -/
theorem non_cont_byte_bits : ∀ (sg : Bool) (b : Fin 256),
    b.val < 0x80 ∨ 0xC0 ≤ b.val → fed_uint32 sg b.val &&& 0xC0 ≠ 0x80 := by
  decide

/-- A byte outside 0x80..0xBF is rejected while continuation bytes are due. -/
theorem feed_non_cont_pending (sg : Bool) (mach : tsm_utf8_mach) (b : Nat) (hb : b < 256)
    (hnc : b < 0x80 ∨ 0xC0 ≤ b) (hs : ¬ at_sequence_start mach.state) :
    (tsm_utf8_mach_feed mach (char_of_byte sg b)).state = TSM_UTF8_REJECT := by
  have h := non_cont_byte_bits sg ⟨b, hb⟩ hnc
  simp only [fed_uint32] at h
  unfold at_sequence_start at hs
  unfold tsm_utf8_mach_feed
  cases hst : mach.state <;> simp_all

/-- A byte 0xF8..0xFF is rejected in every state. -/
theorem feed_high_byte (sg : Bool) (mach : tsm_utf8_mach) (b : Nat) (hb : b < 256)
    (hh : 0xF8 ≤ b) :
    (tsm_utf8_mach_feed mach (char_of_byte sg b)).state = TSM_UTF8_REJECT := by
  by_cases hs : at_sequence_start mach.state
  · obtain ⟨a, rfl⟩ : ∃ a, b = 0xF8 + a := ⟨b - 0xF8, by omega⟩
    obtain ⟨h1, h2, h3, h4, h5, h6, h7⟩ := high_byte_bits sg ⟨a, by omega⟩
    simp only [fed_uint32] at h1 h2 h3 h4 h5 h6 h7
    unfold tsm_utf8_mach_feed
    rcases hs with h | h | h <;> simp [h, h1, h2, h3, h4, h5, h6, h7]
  · exact feed_non_cont_pending sg mach b hb (Or.inr (by omega)) hs

theorem feed_all_append (mach : tsm_utf8_mach) (xs ys : List Int) :
    tsm_utf8_mach_feed_all mach (xs ++ ys)
      = tsm_utf8_mach_feed_all (tsm_utf8_mach_feed_all mach xs) ys := by
  simp [tsm_utf8_mach_feed_all, List.foldl_append]

theorem vte_input_ucs4_append (xs ys : List Int) (mach : tsm_utf8_mach) :
    vte_input_ucs4 mach (xs ++ ys)
      = vte_input_ucs4 mach xs ++ vte_input_ucs4 (tsm_utf8_mach_feed_all mach xs) ys := by
  induction xs generalizing mach with
  | nil => rfl
  | cons x rest ih =>
    simp only [List.cons_append, vte_input_ucs4, tsm_utf8_mach_feed_all, List.foldl]
    split_ifs
    · exact congrArg _ (ih _)
    · exact ih _

/-- C6 fails as stated, on either kind of `char` and from a fresh decoder.
The byte sequence 80 is not valid UTF-8, yet nothing at all is handed to the
parser.  The overlong E0 80 80 is not valid UTF-8, yet the parser is handed
the code point 0 only.  The truncated C2 is not valid UTF-8 and leaves the
decoder in EXPECT1; FF is not valid UTF-8 and leaves it in REJECT. -/
theorem invalid_utf8_without_replacement :
    utf8_valid [0x80] = false ∧ utf8_valid [0xE0, 0x80, 0x80] = false ∧
    utf8_valid [0xC2] = false ∧ utf8_valid [0xFF] = false ∧
    (∀ sg : Bool,
      vte_input_ucs4 tsm_utf8_mach_new ([0x80].map (char_of_byte sg)) = [] ∧
      vte_input_ucs4 tsm_utf8_mach_new ([0xE0, 0x80, 0x80].map (char_of_byte sg)) = [0] ∧
      (tsm_utf8_mach_feed_all tsm_utf8_mach_new ([0xC2].map (char_of_byte sg))).state
        = TSM_UTF8_EXPECT1 ∧
      (tsm_utf8_mach_feed_all tsm_utf8_mach_new ([0xFF].map (char_of_byte sg))).state
        = TSM_UTF8_REJECT) := by
  decide

/-- C6 as amended: `kmscon_vte_input` hands the parser the code points of
`vte_input_ucs4`, and REPLACEMENT is among them whenever the decoder rejects a
byte.  It rejects, on either kind of `char`, every byte 0xF8..0xFF and every
byte outside 0x80..0xBF that arrives while continuation bytes are due.  When
the rejected byte is the last one, the decoder is left in REJECT. -/
theorem vte_input_replacement (sg : Bool) (vte : kmscon_vte) (pre : List Nat) (b : Nat)
    (post : List Nat) (hb : b < 256)
    (hrej : 0xF8 ≤ b ∨ ((b < 0x80 ∨ 0xC0 ≤ b) ∧
      ¬ at_sequence_start
        (tsm_utf8_mach_feed_all vte.mach (pre.map (char_of_byte sg))).state)) :
    kmscon_vte_input vte ((pre ++ b :: post).map (char_of_byte sg))
      = (parse_all vte
          (vte_input_ucs4 vte.mach ((pre ++ b :: post).map (char_of_byte sg)))).map
          (set_mach
            (tsm_utf8_mach_feed_all vte.mach ((pre ++ b :: post).map (char_of_byte sg)))) ∧
    (tsm_utf8_mach_feed (tsm_utf8_mach_feed_all vte.mach (pre.map (char_of_byte sg)))
      (char_of_byte sg b)).state = TSM_UTF8_REJECT ∧
    TSM_UCS4_REPLACEMENT ∈
      vte_input_ucs4 vte.mach ((pre ++ b :: post).map (char_of_byte sg)) ∧
    (post = [] →
      (tsm_utf8_mach_feed_all vte.mach ((pre ++ b :: post).map (char_of_byte sg))).state
        = TSM_UTF8_REJECT) := by
  have hr : (tsm_utf8_mach_feed (tsm_utf8_mach_feed_all vte.mach (pre.map (char_of_byte sg)))
      (char_of_byte sg b)).state = TSM_UTF8_REJECT := by
    rcases hrej with h | ⟨h1, h2⟩
    · exact feed_high_byte sg _ b hb h
    · exact feed_non_cont_pending sg _ b hb h1 h2
  refine ⟨kmscon_vte_input_eq _ vte, hr, ?_, ?_⟩
  · rw [List.map_append, vte_input_ucs4_append, List.map_cons]
    apply List.mem_append_right
    simp only [vte_input_ucs4, hr, or_true, if_true]
    apply List.mem_cons.mpr
    left
    simp [tsm_utf8_mach_get, hr]
  · intro hp
    subst hp
    rw [List.map_append, feed_all_append]
    exact hr

/-- The amended C6 at the input 41 E4 41 where `char` is signed: the second
'A' arrives while two continuation bytes are due, is rejected, and REPLACEMENT
is handed to the parser. -/
theorem vte_input_replacement_witness :
    ¬ at_sequence_start
      (tsm_utf8_mach_feed_all kmscon_vte_new.mach ([0x41, 0xE4].map (char_of_byte true))).state ∧
    vte_input_ucs4 kmscon_vte_new.mach ([0x41, 0xE4, 0x41].map (char_of_byte true))
      = [0x41, TSM_UCS4_REPLACEMENT] ∧
    TSM_UCS4_REPLACEMENT ∈
      vte_input_ucs4 kmscon_vte_new.mach (([0x41, 0xE4] ++ 0x41 :: []).map (char_of_byte true)) :=
  ⟨by decide, by decide,
   (vte_input_replacement true kmscon_vte_new [0x41, 0xE4] 0x41 [] (by decide)
      (Or.inr ⟨Or.inl (by decide), by decide⟩)).2.2.1⟩

/-! ## C9: how large a parameter slot can get -/

/-- The function `kmscon_vte_input` returns for every input, and keeps what `parse_data`
keeps. -/
theorem kmscon_vte_input_frame (cs : List Int) (vte : kmscon_vte) :
    ∃ v, kmscon_vte_input vte cs = some v ∧ v.flags = vte.flags ∧
      (vte.state ∈ parser_states → v.state ∈ parser_states) ∧
      (vte.csi_argc ≤ CSI_ARG_MAX → v.csi_argc ≤ CSI_ARG_MAX) ∧
      (argv_within (-1) 655359 vte → argv_within (-1) 655359 v) := by
  obtain ⟨v, e, -, f, s, c, b⟩ := parse_all_frame (vte_input_ucs4 vte.mach cs) vte
  refine ⟨set_mach (tsm_utf8_mach_feed_all vte.mach cs) v, ?_, f, s, c, b⟩
  rw [kmscon_vte_input_eq, e]
  rfl

/-- C9 fails as stated: after ESC [ 9 9 9 9 9 the first parameter slot holds
99999, which is greater than 65535. -/
theorem param_slot_exceeds_65535 :
    ∃ v, parse_all kmscon_vte_new [0x1b, 0x5b, 0x39, 0x39, 0x39, 0x39, 0x39] = some v ∧
      v.csi_argv.get 0 = 99999 ∧ v.csi_argv.get 0 > 65535 :=
  ⟨{ kmscon_vte_new with
      state := STATE_CSI_PARAM,
      csi_argv := (Mathlib.Vector.replicate CSI_ARG_MAX (-1)).set 0 99999 },
    by decide, by decide, by decide⟩

/-- C9 as amended: for every input stream, given as code points to
`parse_data` or as bytes to `kmscon_vte_input`, from a freshly constructed
parser, every slot of the parameter vector stays within −1..655359 at every
point of the stream; PARAM drops a digit once the current slot exceeds 65535,
and takes it when the slot is at most 65535. -/
theorem param_slot_bound :
    (∀ (cps : List Nat) (k : Nat), ∃ v, parse_all kmscon_vte_new (cps.take k) = some v ∧
      ∀ i : Fin CSI_ARG_MAX, -1 ≤ v.csi_argv.get i ∧ v.csi_argv.get i ≤ 655359) ∧
    (∀ (u8 : List Int) (k : Nat), ∃ v, kmscon_vte_input kmscon_vte_new (u8.take k) = some v ∧
      ∀ i : Fin CSI_ARG_MAX, -1 ≤ v.csi_argv.get i ∧ v.csi_argv.get i ≤ 655359) ∧
    (∀ (vte : kmscon_vte) (data : Nat) (h : vte.csi_argc < CSI_ARG_MAX),
      0x30 ≤ data ∧ data ≤ 0x39 →
      do_param vte data =
        some (if vte.csi_argv.get ⟨vte.csi_argc, h⟩ > 65535 then vte
          else { vte with csi_argv := (vte.csi_argv.set ⟨vte.csi_argc, h⟩
            (param_digit (vte.csi_argv.get ⟨vte.csi_argc, h⟩) data)) })) := by
  have h0 : argv_within (-1) 655359 kmscon_vte_new := by
    intro i
    show _ ≤ (Mathlib.Vector.replicate CSI_ARG_MAX (0 : Int)).get i ∧
      (Mathlib.Vector.replicate CSI_ARG_MAX (0 : Int)).get i ≤ _
    rw [Mathlib.Vector.get_replicate]
    omega
  refine ⟨fun cps k => ?_, fun u8 k => ?_, fun vte data h hd => ?_⟩
  · obtain ⟨v, e, -, -, -, -, b⟩ := parse_all_frame (cps.take k) kmscon_vte_new
    exact ⟨v, e, b h0⟩
  · obtain ⟨v, e, -, -, -, b⟩ := kmscon_vte_input_frame (u8.take k) kmscon_vte_new
    exact ⟨v, e, b h0⟩
  · rw [do_param_slot vte data (by omega) h, if_pos hd]

/-- The amended C9 at concrete inputs: the bound 655359 is reached by
ESC [ 6 5 5 3 5 9, and a further digit is dropped. -/
theorem param_slot_bound_witness :
    (∃ v, parse_all kmscon_vte_new [0x1b, 0x5b, 0x36, 0x35, 0x35, 0x33, 0x35, 0x39] = some v ∧
      v.csi_argv.get 0 = 655359 ∧
      parse_data v 0x39 = some v) ∧
    do_param (do_clear kmscon_vte_new) 0x37 =
      some { do_clear kmscon_vte_new with
        csi_argv := (Mathlib.Vector.replicate CSI_ARG_MAX (-1)).set 0 7 } :=
  ⟨⟨{ kmscon_vte_new with
        state := STATE_CSI_PARAM,
        csi_argv := (Mathlib.Vector.replicate CSI_ARG_MAX (-1)).set 0 655359 },
      by decide, by decide, by decide⟩,
   (param_slot_bound.2.2 (do_clear kmscon_vte_new) 0x37 (by decide) (by decide)).trans
     (by decide)⟩

/-! ## PARAM in CSI_ENTRY and CSI_PARAM -/

/-- In CSI_ENTRY and CSI_PARAM a digit or ';' runs PARAM and leaves the parser
in CSI_PARAM. -/
theorem parse_data_param_char (vte : kmscon_vte) (raw : Nat) (hraw : is_param_char raw)
    (hst : vte.state = STATE_CSI_ENTRY ∨ vte.state = STATE_CSI_PARAM) :
    parse_data vte raw = (do_param vte raw).map (set_state STATE_CSI_PARAM) := by
  have ha : anywhere_rule raw = none := by
    unfold anywhere_rule
    unfold is_param_char in_range at hraw
    simp only [in_range]
    split_ifs <;> first | rfl | omega
  have hc0 : ¬ c0_label raw := by
    unfold is_param_char in_range at hraw
    unfold c0_label in_range
    omega
  obtain ⟨v, e, -, s, -⟩ := do_param_frame vte raw
  rcases hst with h | h
  · have hs : state_rule vte.state raw = some (STATE_CSI_PARAM, ACTION_PARAM) := by
      rw [h]
      unfold is_param_char in_range at hraw
      simp only [state_rule, in_range, if_neg hc0]
      rw [if_neg (by omega), if_neg (by omega), if_neg (by omega), if_pos hraw]
    simp only [parse_data, ha, hs]
    rw [do_trans_of_ne_none _ _ _ _ (by decide)]
    show (do_param vte raw).bind _ = _
    rw [e]
    rfl
  · have hs : state_rule vte.state raw = some (STATE_NONE, ACTION_PARAM) := by
      rw [h]
      simp only [state_rule, if_neg hc0]
      rw [if_pos hraw]
    simp only [parse_data, ha, hs, do_trans_none]
    show do_param vte raw = _
    rw [e]
    show some v = some { v with state := STATE_CSI_PARAM }
    rw [← h, ← s]

/-! ## Facts about the parameter vector -/

theorem vector_get_eq_getD (v : Mathlib.Vector Int CSI_ARG_MAX) (n : Nat)
    (h : n < CSI_ARG_MAX) : v.get ⟨n, h⟩ = v.toList.getD n 0 := by
  obtain ⟨l, hl⟩ := v
  have h2 : n < l.length := by omega
  simp [Mathlib.Vector.get, Mathlib.Vector.toList, List.getD, List.getElem?_eq_getElem h2]

theorem vector_set_set (v : Mathlib.Vector Int CSI_ARG_MAX) (i : Fin CSI_ARG_MAX) (a b : Int) :
    (v.set i a).set i b = v.set i b := by
  apply Mathlib.Vector.toList_injective
  simp [Mathlib.Vector.toList_set]

theorem vector_set_get (v : Mathlib.Vector Int CSI_ARG_MAX) (i : Fin CSI_ARG_MAX) :
    v.set i (v.get i) = v := by
  apply Mathlib.Vector.ext
  intro j
  rw [Mathlib.Vector.get_set_eq_if]
  split_ifs with h
  · rw [h]
  · rfl

theorem set_append_replicate (pre : List Int) (k : Nat) (x y : Int) :
    (pre ++ List.replicate (k + 1) x).set pre.length y = pre ++ y :: List.replicate k x := by
  induction pre with
  | nil => simp [List.replicate_succ]
  | cons a rest ih => simpa using ih

theorem getD_append_replicate (pre : List Int) (k : Nat) (x : Int) :
    (pre ++ List.replicate (k + 1) x).getD pre.length 0 = x := by
  induction pre with
  | nil => simp [List.replicate_succ]
  | cons a rest ih => simpa using ih

theorem parse_all_append (xs ys : List Nat) (vte : kmscon_vte) :
    parse_all vte (xs ++ ys) = (parse_all vte xs).bind fun v => parse_all v ys := by
  induction xs generalizing vte with
  | nil => rfl
  | cons x rest ih =>
    obtain ⟨v1, e1, -⟩ := parse_data_frame vte x
    simp only [List.cons_append, parse_all, e1, Option.some_bind]
    exact ih v1

theorem parse_all_singleton (x : Nat) (vte : kmscon_vte) :
    parse_all vte [x] = parse_data vte x := by
  obtain ⟨v1, e1, -⟩ := parse_data_frame vte x
  simp only [parse_all, e1, Option.some_bind]

/-- ESC [ from any terminal: the parameters are cleared and the parser is in
CSI_ENTRY. -/
theorem parse_all_esc_bracket (vte : kmscon_vte) :
    parse_all vte [0x1b, 0x5b] = some { do_clear vte with state := STATE_CSI_ENTRY } := by
  have h1 : parse_data vte 0x1b = some { do_clear vte with state := STATE_ESC } := by
    have hr : anywhere_rule 0x1b = some (STATE_ESC, ACTION_NONE) := by decide
    simp only [parse_data, hr]
    exact do_trans_none_clear vte _ STATE_ESC (by decide) rfl
  have h2 : parse_data { do_clear vte with state := STATE_ESC } 0x5b
      = some { do_clear vte with state := STATE_CSI_ENTRY } := by
    have hr : anywhere_rule 0x5b = none := by decide
    have hs : state_rule STATE_ESC 0x5b = some (STATE_CSI_ENTRY, ACTION_NONE) := by decide
    simp only [parse_data, hr, hs]
    exact do_trans_none_clear _ _ STATE_CSI_ENTRY (by decide) rfl
  simp only [parse_all, h1, Option.some_bind, h2]

/-! ## C8: collecting CSI parameters -/

theorem decimal_value_snoc (q : List Nat) (d : Nat) :
    decimal_value (q ++ [d]) = decimal_value q * 10 + (d - 0x30) := by
  simp [decimal_value, List.foldl_append]

/-- The digit step of PARAM computes the decimal value. -/
theorem param_digit_value (q : List Nat) (d : Nat) (hd : 0x30 ≤ d ∧ d ≤ 0x39) :
    param_digit (csi_param_value q) d = csi_param_value (q ++ [d]) := by
  have hne : q ++ [d] ≠ [] := by simp
  obtain ⟨h1, h2⟩ := hd
  have hcast : ((d - 0x30 : Nat) : Int) = (d : Int) - 48 := by omega
  unfold param_digit csi_param_value
  rw [if_neg hne, decimal_value_snoc]
  push_cast
  rw [hcast]
  by_cases hq : q = []
  · subst hq
    simp [decimal_value]
  · rw [if_neg hq]
    split_ifs with h0 <;> omega

/-- The digits of one parameter, fed in CSI_ENTRY or CSI_PARAM with the
current slot unset, leave the value of the parameter in that slot. -/
theorem parse_all_digits (p : List Nat) (vte : kmscon_vte)
    (hd : ∀ d ∈ p, 0x30 ≤ d ∧ d ≤ 0x39) (hv : decimal_value p ≤ 65535)
    (hst : vte.state = STATE_CSI_ENTRY ∨ vte.state = STATE_CSI_PARAM)
    (h : vte.csi_argc < CSI_ARG_MAX) (hslot : vte.csi_argv.get ⟨vte.csi_argc, h⟩ = -1) :
    ∃ v, parse_all vte p = some v ∧ v.csi_argc = vte.csi_argc ∧
      v.csi_argv = vte.csi_argv.set ⟨vte.csi_argc, h⟩ (csi_param_value p) ∧
      (v.state = STATE_CSI_ENTRY ∨ v.state = STATE_CSI_PARAM) := by
  induction p using List.reverseRecOn with
  | nil =>
    refine ⟨vte, rfl, rfl, ?_, hst⟩
    have e : csi_param_value [] = vte.csi_argv.get ⟨vte.csi_argc, h⟩ := by
      rw [hslot]
      rfl
    rw [e, vector_set_get]
  | append_singleton q d ih =>
    have hdq : ∀ x ∈ q, 0x30 ≤ x ∧ x ≤ 0x39 := fun x hx => hd x (by simp [hx])
    have hdd : 0x30 ≤ d ∧ d ≤ 0x39 := hd d (by simp)
    rw [decimal_value_snoc] at hv
    obtain ⟨v1, e1, c1, a1, s1⟩ := ih hdq (by omega)
    have h1 : v1.csi_argc < CSI_ARG_MAX := by rw [c1]; exact h
    have hcur : v1.csi_argv.get ⟨v1.csi_argc, h1⟩ = csi_param_value q := by
      simp only [a1, c1]
      exact Mathlib.Vector.get_set_same _ _ _
    have hle : ¬ v1.csi_argv.get ⟨v1.csi_argc, h1⟩ > 0xffff := by
      rw [hcur]
      unfold csi_param_value
      split_ifs <;> omega
    have e2 : parse_data v1 d = (do_param v1 d).map (set_state STATE_CSI_PARAM) :=
      parse_data_param_char v1 d (Or.inl hdd) s1
    rw [do_param_slot v1 d (by omega) h1, if_neg hle, if_pos hdd] at e2
    refine ⟨set_state STATE_CSI_PARAM { v1 with csi_argv := (v1.csi_argv.set ⟨v1.csi_argc, h1⟩
      (param_digit (v1.csi_argv.get ⟨v1.csi_argc, h1⟩) d)) }, ?_, ?_, ?_, Or.inr rfl⟩
    · rw [parse_all_append, e1, Option.some_bind, parse_all_singleton, e2]
      rfl
    · exact c1
    · show v1.csi_argv.set ⟨v1.csi_argc, h1⟩ _ = _
      rw [hcur, param_digit_value q d hdd]
      simp only [a1, c1]
      exact vector_set_set _ _ _ _

theorem intercalate_cons_cons (sep p q : List Nat) (rest : List (List Nat)) :
    List.intercalate sep (p :: q :: rest) = p ++ (sep ++ List.intercalate sep (q :: rest)) := by
  simp [List.intercalate]

theorem intercalate_singleton (sep p : List Nat) : List.intercalate sep [p] = p := by
  simp [List.intercalate]

/-- The parameters of a CSI sequence, fed from slot `pre.length` on with the
slots from there on unset, fill one slot each. -/
theorem parse_all_params (ps : List (List Nat)) :
    ∀ (vte : kmscon_vte) (pre : List Int), ps ≠ [] →
      (∀ p ∈ ps, (∀ d ∈ p, 0x30 ≤ d ∧ d ≤ 0x39) ∧ decimal_value p ≤ 65535) →
      (vte.state = STATE_CSI_ENTRY ∨ vte.state = STATE_CSI_PARAM) →
      vte.csi_argc = pre.length → pre.length + ps.length ≤ CSI_ARG_MAX →
      vte.csi_argv.toList = pre ++ List.replicate (CSI_ARG_MAX - pre.length) (-1) →
      ∃ v, parse_all vte (List.intercalate [0x3b] ps) = some v ∧
        v.csi_argv.toList = pre ++ ps.map csi_param_value ++
          List.replicate (CSI_ARG_MAX - pre.length - ps.length) (-1) ∧
        v.csi_argc = pre.length + ps.length - 1 ∧
        (v.state = STATE_CSI_ENTRY ∨ v.state = STATE_CSI_PARAM) := by
  induction ps with
  | nil => intro _ _ h; exact absurd rfl h
  | cons p rest ih =>
    intro vte pre _ hps hst hc hlen harr
    simp only [List.length_cons] at hlen
    have hp := hps p (by simp)
    have h : vte.csi_argc < CSI_ARG_MAX := by omega
    obtain ⟨k, hk⟩ : ∃ k, CSI_ARG_MAX - pre.length = k + 1 := ⟨CSI_ARG_MAX - pre.length - 1, by omega⟩
    have hslot : vte.csi_argv.get ⟨vte.csi_argc, h⟩ = -1 := by
      rw [vector_get_eq_getD, harr, hc, hk, getD_append_replicate]
    obtain ⟨v1, e1, c1, a1, s1⟩ := parse_all_digits p vte hp.1 hp.2 hst h hslot
    have harr1 : v1.csi_argv.toList = pre ++ csi_param_value p :: List.replicate k (-1) := by
      rw [a1, Mathlib.Vector.toList_set, harr, hk]
      simp only [hc]
      exact set_append_replicate pre k (-1) _
    cases rest with
    | nil =>
      refine ⟨v1, ?_, ?_, ?_, s1⟩
      · rw [intercalate_singleton, e1]
      · rw [harr1]
        have hk2 : CSI_ARG_MAX - pre.length - [p].length = k := by
          simp only [List.length_singleton]
          omega
        rw [hk2]
        simp
      · rw [c1, hc]
        simp
    | cons q rest2 =>
      simp only [List.length_cons] at hlen
      have h1 : v1.csi_argc < CSI_ARG_MAX := by omega
      have e2 : parse_data v1 0x3b
          = some (set_state STATE_CSI_PARAM { v1 with csi_argc := v1.csi_argc + 1 }) := by
        rw [parse_data_param_char v1 0x3b (Or.inr rfl) s1, do_param_semicolon, if_pos h1]
        rfl
      have hl1 : (pre ++ [csi_param_value p]).length = pre.length + 1 := by simp
      have hl2 : (q :: rest2).length = rest2.length + 1 := rfl
      have hl3 : (p :: q :: rest2).length = rest2.length + 1 + 1 := rfl
      obtain ⟨v, e, a, c, s⟩ := ih
        (set_state STATE_CSI_PARAM { v1 with csi_argc := v1.csi_argc + 1 })
        (pre ++ [csi_param_value p]) (by simp)
        (fun x hx => hps x (by simp [hx])) (Or.inr rfl)
        (by
          show v1.csi_argc + 1 = _
          rw [c1, hc, hl1])
        (by
          rw [hl1, hl2]
          omega)
        (by
          show v1.csi_argv.toList = _
          rw [harr1, hl1]
          have hk2 : CSI_ARG_MAX - (pre.length + 1) = k := by omega
          rw [hk2]
          simp)
      refine ⟨v, ?_, ?_, ?_, s⟩
      · rw [intercalate_cons_cons, parse_all_append, e1, Option.some_bind]
        show parse_all v1 (0x3b :: List.intercalate [0x3b] (q :: rest2)) = _
        simp only [parse_all, e2, Option.some_bind]
        exact e
      · rw [a, hl1, hl2, hl3]
        have hk3 : CSI_ARG_MAX - (pre.length + 1) - (rest2.length + 1)
            = CSI_ARG_MAX - pre.length - (rest2.length + 1 + 1) := by omega
        rw [hk3]
        simp
      · rw [c, hl1, hl2, hl3]
        omega

/-- C8: for every list of at most 16 CSI parameters, each either empty or a
decimal numeral (leading zeros allowed) of value at most 65535, feeding ESC [
followed by the parameters joined with ';' to the parser, in whatever state it
is, returns and leaves `csi_argv[i]` equal to the value of the i-th parameter
(−1 for an empty one) for every i below the number of parameters, and every
remaining slot equal to −1. -/
theorem csi_params_collected (vte : kmscon_vte) (ps : List (List Nat))
    (hlen : ps.length ≤ 16)
    (hps : ∀ p ∈ ps, (∀ d ∈ p, 0x30 ≤ d ∧ d ≤ 0x39) ∧ decimal_value p ≤ 65535) :
    ∃ v, parse_all vte (0x1b :: 0x5b :: List.intercalate [0x3b] ps) = some v ∧
      v.csi_argv.toList
        = ps.map csi_param_value ++ List.replicate (16 - ps.length) (-1) := by
  have e0 := parse_all_esc_bracket vte
  have happ : parse_all vte (0x1b :: 0x5b :: List.intercalate [0x3b] ps)
      = parse_all { do_clear vte with state := STATE_CSI_ENTRY }
          (List.intercalate [0x3b] ps) := by
    have := parse_all_append [0x1b, 0x5b] (List.intercalate [0x3b] ps) vte
    rw [e0, Option.some_bind] at this
    exact this
  rw [happ]
  by_cases hne : ps = []
  · subst hne
    exact ⟨_, rfl, rfl⟩
  · obtain ⟨v, e, a, -, -⟩ := parse_all_params ps
      { do_clear vte with state := STATE_CSI_ENTRY } [] hne hps (Or.inl rfl) rfl
      (by simpa using hlen) rfl
    refine ⟨v, e, ?_⟩
    rw [a]
    simp

/-- C8 at the parameters "12", "" and "007" fed to a fresh parser, that is at
ESC [ 1 2 ; ; 0 0 7: the slots are 12, −1, 7 and thirteen times −1. -/
theorem csi_params_collected_witness :
    ∃ v, parse_all kmscon_vte_new
        [0x1b, 0x5b, 0x31, 0x32, 0x3b, 0x3b, 0x30, 0x30, 0x37] = some v ∧
      v.csi_argv.toList = [12, -1, 7, -1, -1, -1, -1, -1, -1, -1, -1, -1, -1, -1, -1, -1] :=
  csi_params_collected kmscon_vte_new [[0x31, 0x32], [], [0x30, 0x30, 0x37]] (by decide)
    (by decide)

/-! ## C10: more than 16 parameters -/

/-- One digit or ';' fed in CSI_ENTRY or CSI_PARAM: the parser is in CSI_PARAM
afterwards and the count has advanced by one for ';', saturating at
`CSI_ARG_MAX`, and not at all for a digit. -/
theorem parse_data_param_char_count (vte : kmscon_vte) (c : Nat) (hcp : is_param_char c)
    (hst : vte.state = STATE_CSI_ENTRY ∨ vte.state = STATE_CSI_PARAM)
    (hc : vte.csi_argc ≤ CSI_ARG_MAX) :
    ∃ v, parse_data vte c = some v ∧ v.state = STATE_CSI_PARAM ∧
      v.csi_argc = min CSI_ARG_MAX (vte.csi_argc + (if c = 0x3b then 1 else 0)) := by
  rw [parse_data_param_char vte c hcp hst]
  by_cases hd : c = 0x3b
  · subst hd
    rw [do_param_semicolon]
    by_cases h : vte.csi_argc < CSI_ARG_MAX
    · rw [if_pos h]
      refine ⟨_, rfl, rfl, ?_⟩
      show vte.csi_argc + 1 = _
      simp only [if_true]
      omega
    · rw [if_neg h]
      refine ⟨_, rfl, rfl, ?_⟩
      show vte.csi_argc = _
      simp only [if_true]
      omega
  · obtain ⟨v, e, -, -, -, -, -, -, -⟩ := do_param_frame vte c
    have hcnt : v.csi_argc = vte.csi_argc := by
      by_cases h : vte.csi_argc < CSI_ARG_MAX
      · rw [do_param_slot vte c hd h] at e
        simp only [Option.some.injEq] at e
        rw [← e]
        split_ifs <;> rfl
      · rw [do_param_full vte c hd (by omega)] at e
        simp only [Option.some.injEq] at e
        rw [← e]
    rw [e]
    refine ⟨_, rfl, rfl, ?_⟩
    show v.csi_argc = _
    rw [hcnt, if_neg hd]
    omega

/-- Digits and semicolons fed in CSI_ENTRY or CSI_PARAM: the count advances by
the number of semicolons, saturating at `CSI_ARG_MAX`. -/
theorem parse_all_param_chars (s : List Nat) :
    ∀ vte : kmscon_vte, (∀ c ∈ s, is_param_char c) →
      (vte.state = STATE_CSI_ENTRY ∨ vte.state = STATE_CSI_PARAM) →
      vte.csi_argc ≤ CSI_ARG_MAX →
      ∃ v, parse_all vte s = some v ∧
        v.csi_argc = min CSI_ARG_MAX (vte.csi_argc + s.count 0x3b) ∧
        (v.state = STATE_CSI_ENTRY ∨ v.state = STATE_CSI_PARAM) := by
  induction s with
  | nil =>
    intro vte _ hst hc
    exact ⟨vte, rfl, by simp [hc], hst⟩
  | cons c rest ih =>
    intro vte hs hst hc
    obtain ⟨v1, e1, s1, c1⟩ := parse_data_param_char_count vte c (hs c (by simp)) hst hc
    obtain ⟨v, e, c2, s2⟩ := ih v1 (fun x hx => hs x (by simp [hx])) (Or.inr s1)
      (by rw [c1]; exact Nat.min_le_left _ _)
    refine ⟨v, ?_, ?_, s2⟩
    · simp only [parse_all, e1, Option.some_bind]
      exact e
    · rw [c2, c1]
      by_cases hd : c = 0x3b
      · subst hd
        rw [List.count_cons_self]
        simp only [if_true]
        omega
      · rw [List.count_cons_of_ne (Ne.symm hd), if_neg hd]
        omega

/-- C10: within one CSI sequence (ESC [ followed by digits and semicolons),
once 16 semicolons have been consumed, that is once a 17th parameter begins,
the count is 16 and every further digit and every further ';' leaves all 16
slots, the count and the rest of the terminal unchanged.  This holds of every
terminal with a full count in CSI_ENTRY or CSI_PARAM.  No slot of index 16 or
more is ever read or written: on every terminal and every code point
`do_param` returns without an access outside `csi_argv`. -/
theorem param_overflow_dropped (vte : kmscon_vte) (raw : Nat) :
    (∀ s : List Nat, (∀ c ∈ s, is_param_char c) → 16 ≤ s.count 0x3b → is_param_char raw →
      ∃ v, parse_all vte (0x1b :: 0x5b :: s) = some v ∧ v.csi_argc = 16 ∧
        parse_data v raw = some { v with state := STATE_CSI_PARAM } ∧
        parse_all vte (0x1b :: 0x5b :: (s ++ [raw]))
          = some { v with state := STATE_CSI_PARAM }) ∧
    (is_param_char raw →
      vte.state = STATE_CSI_ENTRY ∨ vte.state = STATE_CSI_PARAM →
      CSI_ARG_MAX ≤ vte.csi_argc →
      parse_data vte raw = some { vte with state := STATE_CSI_PARAM }) ∧
    (∃ v, do_param vte raw = some v) := by
  have key : ∀ w : kmscon_vte, is_param_char raw →
      w.state = STATE_CSI_ENTRY ∨ w.state = STATE_CSI_PARAM → CSI_ARG_MAX ≤ w.csi_argc →
      parse_data w raw = some { w with state := STATE_CSI_PARAM } := by
    intro w hraw hst hc
    rw [parse_data_param_char w raw hraw hst]
    by_cases hd : raw = 0x3b
    · subst hd
      rw [do_param_semicolon, if_neg (by omega)]
      rfl
    · rw [do_param_full w raw hd hc]
      rfl
  refine ⟨fun s hs h16 hraw => ?_, key vte, do_param_some vte raw⟩
  obtain ⟨v, e, c, st⟩ := parse_all_param_chars s
    { do_clear vte with state := STATE_CSI_ENTRY } hs (Or.inl rfl) (Nat.zero_le _)
  have hc16 : v.csi_argc = 16 := by
    rw [c]
    show min 16 (0 + List.count 0x3b s) = 16
    omega
  have e0 : parse_all vte (0x1b :: 0x5b :: s) = some v := by
    have h := parse_all_append [0x1b, 0x5b] s vte
    rw [parse_all_esc_bracket, Option.some_bind] at h
    exact h.trans e
  have e1 := key v hraw st (by show 16 ≤ v.csi_argc; omega)
  refine ⟨v, e0, hc16, e1, ?_⟩
  have h := parse_all_append (0x1b :: 0x5b :: s) [raw] vte
  rw [e0, Option.some_bind, parse_all_singleton, e1] at h
  exact h

/-- C10 at a concrete input: after ESC [ and 16 semicolons the count is 16,
and the digit 7 changes nothing. -/
theorem param_overflow_dropped_witness :
    (∀ c ∈ List.replicate 16 0x3b, is_param_char c) ∧
    16 ≤ (List.replicate 16 0x3b).count 0x3b ∧ is_param_char 0x37 ∧
    ∃ v, parse_all kmscon_vte_new (0x1b :: 0x5b :: List.replicate 16 0x3b) = some v ∧
      v.csi_argc = 16 ∧ parse_data v 0x37 = some { v with state := STATE_CSI_PARAM } ∧
      parse_all kmscon_vte_new (0x1b :: 0x5b :: (List.replicate 16 0x3b ++ [0x37]))
        = some { v with state := STATE_CSI_PARAM } :=
  ⟨by decide, by decide, by decide,
   (param_overflow_dropped kmscon_vte_new 0x37).1 (List.replicate 16 0x3b) (by decide)
     (by decide) (by decide)⟩

/-! ## The two descriptions of UTF-8 agree -/

/-- The standard encoding of a scalar value is well-formed UTF-8. -/
theorem utf8_valid_encode (cp : Nat) (hcp : is_unicode_scalar cp) :
    utf8_valid (utf8_encode cp) = true := by
  obtain ⟨hmax, hsur⟩ := hcp
  unfold utf8_encode utf8_valid
  by_cases h1 : cp < 0x80
  · rw [if_pos h1]
    simp [utf8_valid_from, h1]
  · rw [if_neg h1]
    by_cases h2 : cp < 0x800
    · rw [if_pos h2]
      have hl : ¬ (0xC0 + cp / 64 < 0x80) := by omega
      have hr : 0xC2 ≤ 0xC0 + cp / 64 ∧ 0xC0 + cp / 64 ≤ 0xDF := by omega
      have hc : 0x80 ≤ 0x80 + cp % 64 ∧ 0x80 + cp % 64 ≤ 0xBF := by omega
      simp only [utf8_valid_from, if_neg hl, if_pos hr, if_pos hc]
      rfl
    · rw [if_neg h2]
      by_cases h3 : cp < 0x10000
      · rw [if_pos h3]
        have hl : ¬ (0xE0 + cp / 4096 < 0x80) := by omega
        have hr : ¬ (0xC2 ≤ 0xE0 + cp / 4096 ∧ 0xE0 + cp / 4096 ≤ 0xDF) := by omega
        have hc3 : 0x80 ≤ 0x80 + cp % 64 ∧ 0x80 + cp % 64 ≤ 0xBF := by omega
        simp only [utf8_valid_from, if_neg hl, if_neg hr]
        by_cases ha : 0xE0 + cp / 4096 = 0xE0
        · have hc2 : 0xA0 ≤ 0x80 + cp / 64 % 64 ∧ 0x80 + cp / 64 % 64 ≤ 0xBF := by omega
          simp only [if_pos ha, utf8_valid_from, if_pos hc2, if_pos hc3]
          rfl
        · rw [if_neg ha]
          by_cases hb : (0xE1 ≤ 0xE0 + cp / 4096 ∧ 0xE0 + cp / 4096 ≤ 0xEC) ∨
              0xE0 + cp / 4096 = 0xEE ∨ 0xE0 + cp / 4096 = 0xEF
          · have hc2 : 0x80 ≤ 0x80 + cp / 64 % 64 ∧ 0x80 + cp / 64 % 64 ≤ 0xBF := by omega
            simp only [if_pos hb, utf8_valid_from, if_pos hc2, if_pos hc3]
            rfl
          · have hd : 0xE0 + cp / 4096 = 0xED := by omega
            have hc2 : 0x80 ≤ 0x80 + cp / 64 % 64 ∧ 0x80 + cp / 64 % 64 ≤ 0x9F := by omega
            simp only [if_neg hb, if_pos hd, utf8_valid_from, if_pos hc2, if_pos hc3]
            rfl
      · rw [if_neg h3]
        have hl : ¬ (0xF0 + cp / 262144 < 0x80) := by omega
        have hr : ¬ (0xC2 ≤ 0xF0 + cp / 262144 ∧ 0xF0 + cp / 262144 ≤ 0xDF) := by omega
        have h4 : ¬ (0xF0 + cp / 262144 = 0xE0) := by omega
        have h5 : ¬ ((0xE1 ≤ 0xF0 + cp / 262144 ∧ 0xF0 + cp / 262144 ≤ 0xEC) ∨
            0xF0 + cp / 262144 = 0xEE ∨ 0xF0 + cp / 262144 = 0xEF) := by omega
        have h6 : ¬ (0xF0 + cp / 262144 = 0xED) := by omega
        have hc3 : 0x80 ≤ 0x80 + cp / 64 % 64 ∧ 0x80 + cp / 64 % 64 ≤ 0xBF := by omega
        have hc4 : 0x80 ≤ 0x80 + cp % 64 ∧ 0x80 + cp % 64 ≤ 0xBF := by omega
        simp only [utf8_valid_from, if_neg hl, if_neg hr, if_neg h4, if_neg h5, if_neg h6]
        by_cases ha : 0xF0 + cp / 262144 = 0xF0
        · have hc2 : 0x90 ≤ 0x80 + cp / 4096 % 64 ∧ 0x80 + cp / 4096 % 64 ≤ 0xBF := by omega
          simp only [if_pos ha, utf8_valid_from, if_pos hc2, if_pos hc3, if_pos hc4]
          rfl
        · rw [if_neg ha]
          by_cases hb : 0xF1 ≤ 0xF0 + cp / 262144 ∧ 0xF0 + cp / 262144 ≤ 0xF3
          · have hc2 : 0x80 ≤ 0x80 + cp / 4096 % 64 ∧ 0x80 + cp / 4096 % 64 ≤ 0xBF := by omega
            simp only [if_pos hb, utf8_valid_from, if_pos hc2, if_pos hc3, if_pos hc4]
            rfl
          · have hd : 0xF0 + cp / 262144 = 0xF4 := by omega
            have hc2 : 0x80 ≤ 0x80 + cp / 4096 % 64 ∧ 0x80 + cp / 4096 % 64 ≤ 0x8F := by omega
            simp only [if_neg hb, if_pos hd, utf8_valid_from, if_pos hc2, if_pos hc3,
              if_pos hc4]
            rfl

/-! ## C11: CLEAR on entry -/

theorem entry_action_clear_iff (st : parser_state) :
    entry_action st = ACTION_CLEAR ↔ clear_on_entry st := by
  cases st <;> decide

theorem params_cleared_do_clear (vte : kmscon_vte) : params_cleared (do_clear vte) :=
  ⟨rfl, fun i => Mathlib.Vector.get_replicate _ i⟩

/-- A transition into ESC, CSI_ENTRY or DCS_ENTRY returns with the parameters
cleared, whatever the terminal, the code point and the transition action. -/
theorem do_trans_clear_on_entry (vte : kmscon_vte) (data : Nat) (st : parser_state)
    (act : parser_action) (hst : clear_on_entry st) :
    ∃ v, do_trans vte data st act = some v ∧ v.state = st ∧ params_cleared v := by
  have hne : st ≠ STATE_NONE := by
    rcases hst with h | h | h <;> rw [h] <;> decide
  have hen : entry_action st = ACTION_CLEAR := (entry_action_clear_iff st).mpr hst
  obtain ⟨v2, e2, -⟩ := do_action_frame vte data act
  refine ⟨{ do_clear v2 with state := st }, ?_, rfl, params_cleared_do_clear v2⟩
  rw [do_trans_of_ne_none vte data st act hne, e2, Option.some_bind, hen]
  rfl

/-- In ESC, CSI_ENTRY and DCS_ENTRY the arms that keep the state run EXECUTE or
IGNORE only. -/
theorem state_rule_keep_in_entry (st0 : parser_state) (raw : Nat) (act : parser_action)
    (hst : clear_on_entry st0) (h : state_rule st0 raw = some (STATE_NONE, act)) :
    act = ACTION_EXECUTE ∨ act = ACTION_IGNORE := by
  rcases hst with h0 | h0 | h0 <;> subst h0 <;> simp only [state_rule] at h <;>
    split_ifs at h <;> cases h <;> decide

/-- The invariant of C11 is kept by `parse_data`. -/
theorem parse_data_entry_cleared (vte : kmscon_vte) (raw : Nat)
    (hinv : clear_on_entry vte.state → params_cleared vte) :
    ∃ v, parse_data vte raw = some v ∧ (clear_on_entry v.state → params_cleared v) := by
  have htrans : ∀ (st : parser_state) (act : parser_action), st ≠ STATE_NONE →
      ∃ v, do_trans vte raw st act = some v ∧ (clear_on_entry v.state → params_cleared v) := by
    intro st act hne
    by_cases hc : clear_on_entry st
    · obtain ⟨v, e, -, p⟩ := do_trans_clear_on_entry vte raw st act hc
      exact ⟨v, e, fun _ => p⟩
    · obtain ⟨v, e, -, -, s, -⟩ := do_trans_frame vte raw st act
      rw [if_pos hne] at s
      exact ⟨v, e, fun h => absurd (s ▸ h) hc⟩
  unfold parse_data
  cases ha : anywhere_rule raw with
  | some p =>
    obtain ⟨st, act⟩ := p
    have ht := anywhere_rule_target raw st act ha
    exact htrans st act (by intro h0; subst h0; revert ht; decide)
  | none =>
    cases hs : state_rule vte.state raw with
    | none => exact ⟨vte, rfl, hinv⟩
    | some p =>
      obtain ⟨st, act⟩ := p
      by_cases hne : st = STATE_NONE
      · subst hne
        show ∃ v, do_trans vte raw STATE_NONE act = some v ∧ _
        rw [do_trans_none]
        by_cases hc : clear_on_entry vte.state
        · obtain ⟨hc0, hc1⟩ := hinv hc
          rcases state_rule_keep_in_entry vte.state raw act hc hs with h | h <;> subst h
          · obtain ⟨-, s, c, a, -, -⟩ := do_execute_frame vte raw
            refine ⟨do_execute vte raw, rfl, fun _ => ⟨?_, ?_⟩⟩
            · rw [c]; exact hc0
            · rw [a]; exact hc1
          · exact ⟨vte, rfl, hinv⟩
        · obtain ⟨v, e, -, s, -⟩ := do_action_frame vte raw act
          exact ⟨v, e, fun h => absurd (s ▸ h) hc⟩
      · exact htrans st act hne

theorem parse_all_entry_cleared (cps : List Nat) (vte : kmscon_vte)
    (hinv : clear_on_entry vte.state → params_cleared vte) :
    ∃ v, parse_all vte cps = some v ∧ (clear_on_entry v.state → params_cleared v) := by
  induction cps generalizing vte with
  | nil => exact ⟨vte, rfl, hinv⟩
  | cons raw rest ih =>
    obtain ⟨v1, e1, h1⟩ := parse_data_entry_cleared vte raw hinv
    obtain ⟨v2, e2, h2⟩ := ih v1 h1
    exact ⟨v2, by simp only [parse_all, e1, Option.some_bind, e2], h2⟩

/-- C11: entering ESC, CSI_ENTRY or DCS_ENTRY always runs CLEAR: every
transition into one of them, from every terminal, ends with count 0 and all 16
slots −1.  Hence in every configuration reached from a fresh parser, by code
points given to `parse_data` or by bytes given to `kmscon_vte_input`, whose
state is ESC, CSI_ENTRY or DCS_ENTRY, the count is 0 and all 16 slots are −1:
nothing of an earlier sequence is left when a sequence starts. -/
theorem entry_state_params_cleared :
    (∀ (vte : kmscon_vte) (data : Nat) (st : parser_state) (act : parser_action),
      st = STATE_ESC ∨ st = STATE_CSI_ENTRY ∨ st = STATE_DCS_ENTRY →
      ∃ v, do_trans vte data st act = some v ∧ v.state = st ∧ v.csi_argc = 0 ∧
        ∀ i : Fin CSI_ARG_MAX, v.csi_argv.get i = -1) ∧
    (∀ cps : List Nat, ∃ v, parse_all kmscon_vte_new cps = some v ∧
      (v.state = STATE_ESC ∨ v.state = STATE_CSI_ENTRY ∨ v.state = STATE_DCS_ENTRY →
        v.csi_argc = 0 ∧ ∀ i : Fin CSI_ARG_MAX, v.csi_argv.get i = -1)) ∧
    (∀ u8 : List Int, ∃ v, kmscon_vte_input kmscon_vte_new u8 = some v ∧
      (v.state = STATE_ESC ∨ v.state = STATE_CSI_ENTRY ∨ v.state = STATE_DCS_ENTRY →
        v.csi_argc = 0 ∧ ∀ i : Fin CSI_ARG_MAX, v.csi_argv.get i = -1)) := by
  have h0 : clear_on_entry kmscon_vte_new.state → params_cleared kmscon_vte_new := by
    intro h
    have hg : kmscon_vte_new.state = STATE_GROUND := rfl
    rw [hg] at h
    exact absurd h (by decide)
  refine ⟨fun vte data st act hst => do_trans_clear_on_entry vte data st act hst,
    fun cps => parse_all_entry_cleared cps kmscon_vte_new h0, fun u8 => ?_⟩
  obtain ⟨v, e, h⟩ := parse_all_entry_cleared
    (vte_input_ucs4 kmscon_vte_new.mach u8) kmscon_vte_new h0
  refine ⟨set_mach (tsm_utf8_mach_feed_all kmscon_vte_new.mach u8) v, ?_, h⟩
  rw [kmscon_vte_input_eq, e]
  rfl

/-- C11 at a concrete input: the bytes ESC [ 3 1 m ESC [ reach CSI_ENTRY with
the slot that held 31 cleared, and a transition into DCS_ENTRY from a terminal
with leftover parameters clears them. -/
theorem entry_state_params_cleared_witness :
    (∃ v, do_trans { kmscon_vte_new with csi_argc := 3 } 0x90 STATE_DCS_ENTRY ACTION_NONE
        = some v ∧ v.state = STATE_DCS_ENTRY ∧ v.csi_argc = 0 ∧
        ∀ i : Fin CSI_ARG_MAX, v.csi_argv.get i = -1) ∧
    parse_all kmscon_vte_new [0x1b, 0x5b, 0x33, 0x31, 0x6d, 0x1b, 0x5b]
      = some { kmscon_vte_new with
          state := STATE_CSI_ENTRY,
          csi_argv := Mathlib.Vector.replicate CSI_ARG_MAX (-1),
          cattr := { default_cattr with fr := 205, fg := 0, fb := 0 } } :=
  ⟨entry_state_params_cleared.1 { kmscon_vte_new with csi_argc := 3 } 0x90 STATE_DCS_ENTRY
      ACTION_NONE (Or.inr (Or.inr rfl)),
   by decide⟩

/-! ## C12: plain text -/

/-- When the first switch has no arm for the code point, `parse_data` makes
the `do_trans` call of the arm of the current state. -/
theorem parse_data_of_state_rule (vte : kmscon_vte) (raw : Nat) (st : parser_state)
    (act : parser_action) (ha : anywhere_rule raw = none)
    (hs : state_rule vte.state raw = some (st, act)) :
    parse_data vte raw = do_trans vte raw st act := by
  simp only [parse_data, ha, hs]

/-- The code points 0x20..0x7F belong to no anywhere rule. -/
theorem anywhere_rule_printable (raw : Nat) (h : in_range raw 0x20 0x7f) :
    anywhere_rule raw = none := by
  unfold anywhere_rule
  unfold in_range at h
  simp only [in_range]
  split_ifs <;> first | rfl | omega

/-- In GROUND a code point 0x20..0x7F is printed with the current attributes
and nothing else happens. -/
theorem parse_data_ground_print (vte : kmscon_vte) (raw : Nat)
    (h : in_range raw 0x20 0x7f) (hst : vte.state = STATE_GROUND) :
    parse_data vte raw
      = some (emit vte (console_write (kmscon_symbol_t.make raw) vte.cattr)) := by
  have hs : state_rule vte.state raw = some (STATE_NONE, ACTION_PRINT) := by
    rw [hst]
    unfold in_range at h
    simp only [state_rule, c0_label, in_range]
    split_ifs <;> first | rfl | omega
  rw [parse_data_of_state_rule vte raw _ _ (anywhere_rule_printable raw h) hs, do_trans_none]
  rfl

/-- Printable code points fed in GROUND: one write each, in order. -/
theorem parse_all_ground_print (bs : List Nat) (vte : kmscon_vte)
    (hb : ∀ b ∈ bs, in_range b 0x20 0x7f) (hst : vte.state = STATE_GROUND) :
    parse_all vte bs = some { vte with trace := (vte.trace ++
      bs.map (fun b => console_write (kmscon_symbol_t.make b) vte.cattr)) } := by
  induction bs generalizing vte with
  | nil => simp [parse_all]
  | cons b rest ih =>
    have e1 := parse_data_ground_print vte b (hb b (by simp)) hst
    simp only [parse_all, e1, Option.some_bind]
    rw [ih (emit vte (console_write (kmscon_symbol_t.make b) vte.cattr))
      (fun x hx => hb x (by simp [hx])) hst]
    simp [emit]

/-- ASCII bytes fed to a decoder at the start of a sequence reach the parser
as they are, on either kind of `char`. -/
theorem vte_input_ucs4_ascii (sg : Bool) (bs : List Nat) (mach : tsm_utf8_mach)
    (hb : ∀ b ∈ bs, b < 128) (hs : at_sequence_start mach.state) :
    vte_input_ucs4 mach (bs.map (char_of_byte sg)) = bs ∧
    at_sequence_start (tsm_utf8_mach_feed_all mach (bs.map (char_of_byte sg))).state := by
  induction bs generalizing mach with
  | nil => exact ⟨rfl, hs⟩
  | cons b rest ih =>
    have e1 := feed_ascii sg mach b (hb b (by simp)) hs
    obtain ⟨i1, i2⟩ := ih { state := TSM_UTF8_ACCEPT, ch := b }
      (fun x hx => hb x (by simp [hx])) (Or.inr (Or.inl rfl))
    constructor
    · simp only [List.map_cons, vte_input_ucs4, e1, true_or, if_true, tsm_utf8_mach_get]
      rw [i1]
      simp
    · simp only [List.map_cons, tsm_utf8_mach_feed_all, List.foldl, e1]
      exact i2

/-- C12: for every sequence of n bytes in 0x20..0x7E fed to `kmscon_vte_input`
with the parser in GROUND and the decoder at START, on either kind of `char`,
the call returns and the trace grows by exactly n writes, one per byte in
input order, each of the symbol made of that byte's code point with the
current attributes; nothing else is issued (no other screen operation, no
reply), and state, attributes, parameters and flags are as before, so the
parser stays in GROUND. -/
theorem plain_text_written (sg : Bool) (vte : kmscon_vte) (bs : List Nat)
    (hb : ∀ b ∈ bs, 0x20 ≤ b ∧ b ≤ 0x7E) (hst : vte.state = STATE_GROUND)
    (hm : vte.mach.state = TSM_UTF8_START) :
    kmscon_vte_input vte (bs.map (char_of_byte sg))
      = some { vte with
          mach := tsm_utf8_mach_feed_all vte.mach (bs.map (char_of_byte sg)),
          trace := (vte.trace ++
            bs.map (fun b => console_write (kmscon_symbol_t.make b) vte.cattr)) } := by
  have h1 := (vte_input_ucs4_ascii sg bs vte.mach (fun b h => by have := hb b h; omega)
    (Or.inl hm)).1
  rw [kmscon_vte_input_eq, h1,
    parse_all_ground_print bs vte (fun b h => by have := hb b h; unfold in_range; omega) hst]
  rfl

/-- C12 at the bytes 48 65 6C 6C 6F on a fresh terminal where `char` is
signed: five writes, 'H', 'e', 'l', 'l', 'o', with the default attributes. -/
theorem plain_text_written_witness :
    kmscon_vte_input kmscon_vte_new ([0x48, 0x65, 0x6C, 0x6C, 0x6F].map (char_of_byte true))
      = some { kmscon_vte_new with
          mach := { state := TSM_UTF8_ACCEPT, ch := 0x6F },
          trace := [console_write (kmscon_symbol_t.make 0x48) default_cattr,
                    console_write (kmscon_symbol_t.make 0x65) default_cattr,
                    console_write (kmscon_symbol_t.make 0x6C) default_cattr,
                    console_write (kmscon_symbol_t.make 0x6C) default_cattr,
                    console_write (kmscon_symbol_t.make 0x6F) default_cattr] } :=
  (plain_text_written true kmscon_vte_new [0x48, 0x65, 0x6C, 0x6C, 0x6F] (by decide) rfl
    rfl).trans (by decide)

/-! ## A whole CSI sequence -/

/-- Digits and semicolons fed in CSI_ENTRY or CSI_PARAM change nothing but
state and parameters. -/
theorem parse_all_param_chars_frame (s : List Nat) :
    ∀ vte : kmscon_vte, (∀ c ∈ s, is_param_char c) →
      (vte.state = STATE_CSI_ENTRY ∨ vte.state = STATE_CSI_PARAM) →
      ∃ v, parse_all vte s = some v ∧ v.mach = vte.mach ∧ v.cattr = vte.cattr ∧
        v.flags = vte.flags ∧ v.trace = vte.trace := by
  induction s with
  | nil => intro vte _ _; exact ⟨vte, rfl, rfl, rfl, rfl, rfl⟩
  | cons c rest ih =>
    intro vte hs hst
    obtain ⟨v1, e1, m1, -, a1, f1, t1, -, -⟩ := do_param_frame vte c
    have e2 := parse_data_param_char vte c (hs c (by simp)) hst
    rw [e1] at e2
    obtain ⟨v, e, m, a, f, t⟩ := ih (set_state STATE_CSI_PARAM v1)
      (fun x hx => hs x (by simp [hx])) (Or.inr rfl)
    refine ⟨v, ?_, m.trans m1, a.trans a1, f.trans f1, t.trans t1⟩
    simp only [parse_all, e2, Option.map_some', Option.some_bind]
    exact e

/-- The parameters joined with ';' consist of digits and semicolons. -/
theorem intercalate_param_chars (ps : List (List Nat))
    (hps : ∀ p ∈ ps, ∀ d ∈ p, 0x30 ≤ d ∧ d ≤ 0x39) :
    ∀ c ∈ List.intercalate [0x3b] ps, is_param_char c := by
  induction ps with
  | nil => intro c hc; simp [List.intercalate] at hc
  | cons p rest ih =>
    cases rest with
    | nil =>
      intro c hc
      rw [intercalate_singleton] at hc
      exact Or.inl (hps p (by simp) c hc)
    | cons q rest2 =>
      intro c hc
      rw [intercalate_cons_cons] at hc
      rcases List.mem_append.mp hc with h | h
      · exact Or.inl (hps p (by simp) c h)
      · rcases List.mem_append.mp h with h2 | h2
        · simp only [List.mem_singleton] at h2
          exact Or.inr h2
        · exact ih (fun x hx => hps x (by simp [hx])) c h2

/-- In CSI_ENTRY and CSI_PARAM a final byte 0x40..0x7E runs CSI_DISPATCH and
leaves the parser in GROUND. -/
theorem parse_data_csi_dispatch (vte : kmscon_vte) (final : Nat)
    (hf : in_range final 0x40 0x7e)
    (hst : vte.state = STATE_CSI_ENTRY ∨ vte.state = STATE_CSI_PARAM) :
    parse_data vte final = some (set_state STATE_GROUND (do_csi vte final)) := by
  have ha : anywhere_rule final = none :=
    anywhere_rule_printable final (by unfold in_range at hf ⊢; omega)
  have hs : state_rule vte.state final = some (STATE_GROUND, ACTION_CSI_DISPATCH) := by
    unfold in_range at hf
    rcases hst with h | h <;> rw [h] <;> simp only [state_rule, c0_label, in_range] <;>
      split_ifs <;> first | rfl | omega
  rw [parse_data_of_state_rule vte final _ _ ha hs,
    do_trans_of_ne_none vte final _ _ (by decide)]
  rfl

/-- A whole CSI sequence with well-formed parameters, fed to the parser in
whatever state it is: CSI_DISPATCH runs on a terminal `w` that differs from
the one before the sequence in state and parameters only and whose slots hold
the values of the parameters followed by −1, and the parser ends in GROUND. -/
theorem parse_all_csi_sequence (vte : kmscon_vte) (ps : List (List Nat)) (final : Nat)
    (hps : csi_params_ok ps) (hf : in_range final 0x40 0x7e) :
    ∃ w, parse_all vte (csi_sequence ps final)
        = some (set_state STATE_GROUND (do_csi w final)) ∧
      w.mach = vte.mach ∧ w.cattr = vte.cattr ∧ w.flags = vte.flags ∧
      w.trace = vte.trace ∧
      w.csi_argv.toList
        = ps.map csi_param_value ++ List.replicate (16 - ps.length) (-1) := by
  obtain ⟨hlen, hdig⟩ := hps
  have hchars := intercalate_param_chars ps (fun p hp => (hdig p hp).1)
  obtain ⟨w, e, m, a, f, t⟩ := parse_all_param_chars_frame (List.intercalate [0x3b] ps)
    (set_state STATE_CSI_ENTRY (do_clear vte)) hchars (Or.inl rfl)
  obtain ⟨w2, e2, -, st⟩ := parse_all_param_chars (List.intercalate [0x3b] ps)
    (set_state STATE_CSI_ENTRY (do_clear vte)) hchars (Or.inl rfl) (Nat.zero_le _)
  have hw : w2 = w := Option.some.inj (e2.symm.trans e)
  subst hw
  have harr : w2.csi_argv.toList
      = ps.map csi_param_value ++ List.replicate (16 - ps.length) (-1) := by
    by_cases hne : ps = []
    · subst hne
      have hnil : List.intercalate [0x3b] ([] : List (List Nat)) = [] := by
        simp [List.intercalate]
      rw [hnil] at e
      have hw : set_state STATE_CSI_ENTRY (do_clear vte) = w2 := Option.some.inj e
      rw [← hw]
      rfl
    · obtain ⟨w3, e3, a3, -, -⟩ := parse_all_params ps
        (set_state STATE_CSI_ENTRY (do_clear vte)) [] hne hdig (Or.inl rfl) rfl
        (by simpa using hlen) rfl
      have hw3 : w3 = w2 := Option.some.inj (e3.symm.trans e)
      subst hw3
      rw [a3]
      simp
  refine ⟨w2, ?_, m, a, f, t, harr⟩
  have hesc : parse_all vte [0x1b, 0x5b] = some (set_state STATE_CSI_ENTRY (do_clear vte)) :=
    parse_all_esc_bracket vte
  have h1 : parse_all vte (csi_sequence ps final)
      = (parse_all vte [0x1b, 0x5b]).bind fun v =>
          parse_all v (List.intercalate [0x3b] ps ++ [final]) :=
    parse_all_append [0x1b, 0x5b] (List.intercalate [0x3b] ps ++ [final]) vte
  rw [h1, hesc, Option.some_bind, parse_all_append, e, Option.some_bind,
    parse_all_singleton, parse_data_csi_dispatch w2 final hf st]

/-- The slot `csi_argv[0]` after the parameters of a CSI sequence. -/
theorem csi_argv_first (w : kmscon_vte) (ps : List (List Nat)) (hlen : ps.length ≤ 16)
    (h : w.csi_argv.toList
      = ps.map csi_param_value ++ List.replicate (16 - ps.length) (-1)) :
    w.csi_argv.get 0 = csi_first_param ps := by
  have h0 : w.csi_argv.get 0 = w.csi_argv.toList.getD 0 0 :=
    vector_get_eq_getD w.csi_argv 0 (by decide)
  rw [h0, h]
  unfold csi_first_param
  cases ps with
  | nil => rfl
  | cons p rest => rfl

/-! ## CSI_DISPATCH on each final byte -/

theorem csi_bump_fields (w : kmscon_vte) :
    (csi_bump w).csi_argv = w.csi_argv ∧ (csi_bump w).cattr = w.cattr ∧
    (csi_bump w).trace = w.trace ∧ (csi_bump w).flags = w.flags ∧
    (csi_bump w).mach = w.mach ∧ (csi_bump w).state = w.state := by
  unfold csi_bump
  split_ifs <;> exact ⟨rfl, rfl, rfl, rfl, rfl, rfl⟩

theorem csi_num_eq (w : kmscon_vte) : csi_num (csi_bump w) = move_distance (w.csi_argv.get 0) := by
  unfold csi_num move_distance
  rw [(csi_bump_fields w).1]
  split_ifs <;> omega

/-- The function `do_csi` on 'm': the attributes are the fold of `sgr_apply`
over the 16 slots in order; nothing is issued. -/
theorem do_csi_sgr (w : kmscon_vte) :
    (do_csi w 0x6d).cattr = w.csi_argv.toList.foldl sgr_apply w.cattr ∧
    (do_csi w 0x6d).trace = w.trace := by
  have h : do_csi w 0x6d = { csi_bump w with
      cattr := (csi_bump w).csi_argv.toList.foldl sgr_apply (csi_bump w).cattr } := rfl
  obtain ⟨a, c, t, -⟩ := csi_bump_fields w
  rw [h]
  exact ⟨by rw [← a, ← c], t⟩

/-- The function `do_csi` on 'J' and on 'K': the operations chosen by
`csi_argv[0]` are issued, the attributes are kept. -/
theorem do_csi_erase (w : kmscon_vte) :
    (do_csi w 0x4a).trace = w.trace ++ ed_operations (w.csi_argv.get 0) ∧
    (do_csi w 0x4a).cattr = w.cattr ∧
    (do_csi w 0x4b).trace = w.trace ++ el_operations (w.csi_argv.get 0) ∧
    (do_csi w 0x4b).cattr = w.cattr := by
  have hj : do_csi w 0x4a =
      if (csi_bump w).csi_argv.get 0 ≤ 0 then emit (csi_bump w) console_erase_cursor_to_screen
      else if (csi_bump w).csi_argv.get 0 = 1 then
        emit (csi_bump w) console_erase_screen_to_cursor
      else if (csi_bump w).csi_argv.get 0 = 2 then emit (csi_bump w) console_erase_screen
      else csi_bump w := rfl
  have hk : do_csi w 0x4b =
      if (csi_bump w).csi_argv.get 0 ≤ 0 then emit (csi_bump w) console_erase_cursor_to_end
      else if (csi_bump w).csi_argv.get 0 = 1 then
        emit (csi_bump w) console_erase_home_to_cursor
      else if (csi_bump w).csi_argv.get 0 = 2 then emit (csi_bump w) console_erase_current_line
      else csi_bump w := rfl
  obtain ⟨a, c, t, -⟩ := csi_bump_fields w
  rw [hj, hk, a]
  unfold ed_operations el_operations
  refine ⟨?_, ?_, ?_, ?_⟩ <;> split_ifs <;> simp [emit, t, c]

/-- The function `do_csi` on 'A', 'B', 'C', 'D': one cursor move is issued,
the attributes are kept. -/
theorem do_csi_cursor (w : kmscon_vte) :
    (do_csi w 0x41).trace
      = w.trace ++ [console_move_up (move_distance (w.csi_argv.get 0)) false] ∧
    (do_csi w 0x42).trace
      = w.trace ++ [console_move_down (move_distance (w.csi_argv.get 0)) false] ∧
    (do_csi w 0x43).trace
      = w.trace ++ [console_move_right (move_distance (w.csi_argv.get 0))] ∧
    (do_csi w 0x44).trace
      = w.trace ++ [console_move_left (move_distance (w.csi_argv.get 0))] ∧
    (do_csi w 0x41).cattr = w.cattr ∧ (do_csi w 0x42).cattr = w.cattr ∧
    (do_csi w 0x43).cattr = w.cattr ∧ (do_csi w 0x44).cattr = w.cattr := by
  have ha : do_csi w 0x41 = emit (csi_bump w) (console_move_up (csi_num (csi_bump w)) false) :=
    rfl
  have hb : do_csi w 0x42
      = emit (csi_bump w) (console_move_down (csi_num (csi_bump w)) false) := rfl
  have hc : do_csi w 0x43 = emit (csi_bump w) (console_move_right (csi_num (csi_bump w))) :=
    rfl
  have hd : do_csi w 0x44 = emit (csi_bump w) (console_move_left (csi_num (csi_bump w))) :=
    rfl
  obtain ⟨-, c, t, -⟩ := csi_bump_fields w
  rw [ha, hb, hc, hd, csi_num_eq]
  simp [emit, t, c]

/-- The function `do_csi` on a final byte other than A, B, C, D, J, K, m:
nothing is issued and the attributes are kept. -/
theorem do_csi_unhandled (w : kmscon_vte) (data : Nat)
    (h : data ≠ 0x41 ∧ data ≠ 0x42 ∧ data ≠ 0x43 ∧ data ≠ 0x44 ∧ data ≠ 0x4a ∧
      data ≠ 0x4b ∧ data ≠ 0x6d) :
    (do_csi w data).trace = w.trace ∧ (do_csi w data).cattr = w.cattr := by
  obtain ⟨h1, h2, h3, h4, h5, h6, h7⟩ := h
  have he : do_csi w data = csi_bump w := by
    unfold do_csi csi_bump
    simp only [if_neg h1, if_neg h2, if_neg h3, if_neg h4, if_neg h5, if_neg h6, if_neg h7]
    split_ifs <;> rfl
  obtain ⟨-, c, t, -⟩ := csi_bump_fields w
  rw [he]
  exact ⟨t, c⟩

/-! ## C13: SGR applies its parameters in order -/

theorem sgr_apply_unset (a : font_char_attr) : sgr_apply a (-1) = a := rfl

theorem foldl_sgr_apply_unset (k : Nat) (a : font_char_attr) :
    (List.replicate k (-1 : Int)).foldl sgr_apply a = a := by
  induction k with
  | zero => rfl
  | succ n ih => simpa [List.replicate_succ, sgr_apply_unset] using ih

/-- A whole SGR sequence: the attributes are the fold of `sgr_apply` over the
values of the parameters. -/
theorem parse_all_sgr (vte : kmscon_vte) (ps : List (List Nat)) (hps : csi_params_ok ps) :
    ∃ v, parse_all vte (csi_sequence ps 0x6d) = some v ∧
      v.cattr = (ps.map csi_param_value).foldl sgr_apply vte.cattr ∧
      v.trace = vte.trace ∧ v.state = STATE_GROUND ∧ v.flags = vte.flags ∧
      v.mach = vte.mach := by
  obtain ⟨w, e, m, a, f, t, arr⟩ := parse_all_csi_sequence vte ps 0x6d hps (by decide)
  obtain ⟨h1, h2⟩ := do_csi_sgr w
  obtain ⟨hm, -, -, -, hf⟩ := do_csi_frame w 0x6d
  refine ⟨_, e, ?_, ?_, rfl, ?_, ?_⟩
  · show (do_csi w 0x6d).cattr = _
    rw [h1, arr, List.foldl_append, foldl_sgr_apply_unset, a]
  · show (do_csi w 0x6d).trace = _
    rw [h2, t]
  · show (do_csi w 0x6d).flags = _
    rw [hf, f]
  · show (do_csi w 0x6d).mach = _
    rw [hm, m]

/-- C13: on a fresh terminal, on either kind of `char`, the input
1B 5B 33 31 6D 58 writes 'X' with foreground (205,0,0) and a following
1B 5B 30 6D 59 writes 'Y' with foreground (255,255,255).  In general CSI m
applies its parameters in slot order: `do_csi` folds `sgr_apply` over the 16
slots from left to right, so that after a whole sequence ESC [ p1 ; .. ; pn m
the attributes are the left-to-right fold of the values of the parameters over
the attributes before the sequence; in that fold 0 restores foreground white,
background black and clears bold, underline and inverse, 1, 4, 7 set bold,
underline, inverse, 22, 24, 27 clear them, and an unset slot changes
nothing. -/
theorem sgr_fold :
    (∀ sg : Bool, ∃ v1 v2,
      kmscon_vte_input kmscon_vte_new
        ([0x1B, 0x5B, 0x33, 0x31, 0x6D, 0x58].map (char_of_byte sg)) = some v1 ∧
      v1.trace = [console_write (kmscon_symbol_t.make 0x58)
        { default_cattr with fr := 205, fg := 0, fb := 0 }] ∧
      kmscon_vte_input v1 ([0x1B, 0x5B, 0x30, 0x6D, 0x59].map (char_of_byte sg)) = some v2 ∧
      v2.trace = v1.trace ++ [console_write (kmscon_symbol_t.make 0x59) default_cattr] ∧
      default_cattr.fr = 255 ∧ default_cattr.fg = 255 ∧ default_cattr.fb = 255) ∧
    (∀ w : kmscon_vte,
      (do_csi w 0x6d).cattr = w.csi_argv.toList.foldl sgr_apply w.cattr) ∧
    (∀ (vte : kmscon_vte) (ps : List (List Nat)), csi_params_ok ps →
      ∃ v, parse_all vte (csi_sequence ps 0x6d) = some v ∧
        v.cattr = (ps.map csi_param_value).foldl sgr_apply vte.cattr ∧
        v.trace = vte.trace ∧ v.state = STATE_GROUND) ∧
    (∀ a : font_char_attr,
      sgr_apply a 0 = { a with fr := 255, fg := 255, fb := 255, br := 0, bg := 0, bb := 0,
                               bold := false, underline := false, inverse := false } ∧
      sgr_apply a 1 = { a with bold := true } ∧
      sgr_apply a 4 = { a with underline := true } ∧
      sgr_apply a 7 = { a with inverse := true } ∧
      sgr_apply a 22 = { a with bold := false } ∧
      sgr_apply a 24 = { a with underline := false } ∧
      sgr_apply a 27 = { a with inverse := false } ∧
      sgr_apply a (-1) = a) := by
  refine ⟨fun sg => ?_, fun w => (do_csi_sgr w).1, fun vte ps hps => ?_, fun a => ?_⟩
  · cases sg
    · exact ⟨{ kmscon_vte_new with
          mach := { state := TSM_UTF8_ACCEPT, ch := 0x58 },
          csi_argc := 1,
          csi_argv := (Mathlib.Vector.replicate CSI_ARG_MAX (-1)).set 0 31,
          cattr := { default_cattr with fr := 205, fg := 0, fb := 0 },
          trace := [console_write (kmscon_symbol_t.make 0x58)
            { default_cattr with fr := 205, fg := 0, fb := 0 }] },
        { kmscon_vte_new with
          mach := { state := TSM_UTF8_ACCEPT, ch := 0x59 },
          csi_argc := 1,
          csi_argv := (Mathlib.Vector.replicate CSI_ARG_MAX (-1)).set 0 0,
          trace := [console_write (kmscon_symbol_t.make 0x58)
              { default_cattr with fr := 205, fg := 0, fb := 0 },
            console_write (kmscon_symbol_t.make 0x59) default_cattr] },
        by decide, rfl, by decide, rfl, rfl, rfl, rfl⟩
    · exact ⟨{ kmscon_vte_new with
          mach := { state := TSM_UTF8_ACCEPT, ch := 0x58 },
          csi_argc := 1,
          csi_argv := (Mathlib.Vector.replicate CSI_ARG_MAX (-1)).set 0 31,
          cattr := { default_cattr with fr := 205, fg := 0, fb := 0 },
          trace := [console_write (kmscon_symbol_t.make 0x58)
            { default_cattr with fr := 205, fg := 0, fb := 0 }] },
        { kmscon_vte_new with
          mach := { state := TSM_UTF8_ACCEPT, ch := 0x59 },
          csi_argc := 1,
          csi_argv := (Mathlib.Vector.replicate CSI_ARG_MAX (-1)).set 0 0,
          trace := [console_write (kmscon_symbol_t.make 0x58)
              { default_cattr with fr := 205, fg := 0, fb := 0 },
            console_write (kmscon_symbol_t.make 0x59) default_cattr] },
        by decide, rfl, by decide, rfl, rfl, rfl, rfl⟩
  · obtain ⟨v, e, c, t, s, -⟩ := parse_all_sgr vte ps hps
    exact ⟨v, e, c, t, s⟩
  · exact ⟨rfl, rfl, rfl, rfl, rfl, rfl, rfl, rfl⟩

/-- C13 at ESC [ 1 ; 4 ; 31 ; 22 m fed to a fresh parser: underline is set,
bold is set and cleared again, the foreground is (205,0,0). -/
theorem sgr_fold_witness :
    csi_params_ok [[0x31], [0x34], [0x33, 0x31], [0x32, 0x32]] ∧
    ∃ v, parse_all kmscon_vte_new
        (csi_sequence [[0x31], [0x34], [0x33, 0x31], [0x32, 0x32]] 0x6d) = some v ∧
      v.cattr = [1, 4, 31, 22].foldl sgr_apply default_cattr ∧
      v.cattr = { default_cattr with fr := 205, fg := 0, fb := 0, underline := true } :=
  ⟨by decide,
   (sgr_fold.2.2.1 kmscon_vte_new [[0x31], [0x34], [0x33, 0x31], [0x32, 0x32]]
      (by decide)).imp fun _ h => ⟨h.1, h.2.1, h.2.1.trans (by decide)⟩⟩

/-! ## C14: the foreground colours -/

/-- C14: for each n in 30..37 the sequence ESC [ n m, fed to the parser in
whatever state it is, sets the current foreground to the triple of the fixed
table, 30 (0,0,0), 31 (205,0,0), 32 (0,205,0), 33 (205,205,0), 34 (0,0,238),
35 (205,0,205), 36 (0,205,205), 37 (255,255,255), and leaves the background
triple and the flags bold, underline and inverse (and blink, protect) exactly
as they were; nothing is issued and the parser ends in GROUND. -/
theorem sgr_foreground (vte : kmscon_vte) (n : Nat) (hn : 30 ≤ n ∧ n ≤ 37) :
    ∃ v, parse_all vte [0x1b, 0x5b, 0x33, 0x30 + (n - 30), 0x6d] = some v ∧
      (v.cattr.fr, v.cattr.fg, v.cattr.fb) = ansi_foreground n ∧
      ansi_foreground 30 = (0, 0, 0) ∧ ansi_foreground 31 = (205, 0, 0) ∧
      ansi_foreground 32 = (0, 205, 0) ∧ ansi_foreground 33 = (205, 205, 0) ∧
      ansi_foreground 34 = (0, 0, 238) ∧ ansi_foreground 35 = (205, 0, 205) ∧
      ansi_foreground 36 = (0, 205, 205) ∧ ansi_foreground 37 = (255, 255, 255) ∧
      v.cattr.br = vte.cattr.br ∧ v.cattr.bg = vte.cattr.bg ∧ v.cattr.bb = vte.cattr.bb ∧
      v.cattr.bold = vte.cattr.bold ∧ v.cattr.underline = vte.cattr.underline ∧
      v.cattr.inverse = vte.cattr.inverse ∧ v.cattr.blink = vte.cattr.blink ∧
      v.cattr.protect = vte.cattr.protect ∧
      v.trace = vte.trace ∧ v.state = STATE_GROUND := by
  obtain ⟨h1, h2⟩ := hn
  have hps : csi_params_ok [[0x33, 0x30 + (n - 30)]] := by
    refine ⟨by simp, fun p hp => ?_⟩
    simp only [List.mem_singleton] at hp
    subst hp
    refine ⟨fun d hd => ?_, ?_⟩
    · simp only [List.mem_cons, List.mem_singleton, List.not_mem_nil, or_false] at hd
      rcases hd with h | h <;> omega
    · simp only [decimal_value, List.foldl]
      omega
  obtain ⟨v, e, c, t, s, -⟩ := parse_all_sgr vte [[0x33, 0x30 + (n - 30)]] hps
  have hval : csi_param_value [0x33, 0x30 + (n - 30)] = (n : Int) := by
    simp only [csi_param_value, decimal_value, List.foldl]
    rw [if_neg (by simp)]
    omega
  have hc : v.cattr = sgr_apply vte.cattr (n : Int) := by
    rw [c]
    simp only [List.map, List.foldl, hval]
  refine ⟨v, e, ?_, rfl, rfl, rfl, rfl, rfl, rfl, rfl, rfl, ?_⟩
  · rw [hc]
    have hcases : n = 30 ∨ n = 31 ∨ n = 32 ∨ n = 33 ∨ n = 34 ∨ n = 35 ∨ n = 36 ∨ n = 37 := by
      omega
    rcases hcases with h | h | h | h | h | h | h | h <;> subst h <;> rfl
  · rw [hc]
    have hcases : n = 30 ∨ n = 31 ∨ n = 32 ∨ n = 33 ∨ n = 34 ∨ n = 35 ∨ n = 36 ∨ n = 37 := by
      omega
    rcases hcases with h | h | h | h | h | h | h | h <;> subst h <;>
      exact ⟨rfl, rfl, rfl, rfl, rfl, rfl, rfl, rfl, t, s⟩

/-- C14 at ESC [ 3 4 m after ESC [ 1 m on a fresh parser: the foreground is
(0,0,238) and bold stays set. -/
theorem sgr_foreground_witness :
    ∃ v, parse_all { kmscon_vte_new with cattr := { default_cattr with bold := true } }
        [0x1b, 0x5b, 0x33, 0x34, 0x6d] = some v ∧
      (v.cattr.fr, v.cattr.fg, v.cattr.fb) = (0, 0, 238) ∧ v.cattr.bold = true :=
  (sgr_foreground { kmscon_vte_new with cattr := { default_cattr with bold := true } } 34
    (by decide)).imp fun _ h => ⟨h.1, h.2.1, h.2.2.2.2.2.2.2.2.2.2.2.2.2.1⟩

/-! ## C15: erase in display and in line -/

/-- C15: CSI J issues exactly the screen operation chosen by `csi_argv[0]`:
erase cursor-to-screen-end when it is ≤ 0 (also when it is missing, that is
−1), erase screen-start-to-cursor when it is 1, erase whole screen when it is
2, and nothing otherwise; CSI K likewise issues erase cursor-to-line-end, erase
line-start-to-cursor, erase current line, or nothing.  This holds of `do_csi`
on every terminal and of a whole sequence ESC [ p1 ; .. ; pn J (or K) fed to
the parser in whatever state it is, where the first parameter decides; no
reply is written and the parser ends in GROUND. -/
theorem erase_dispatch :
    (∀ w : kmscon_vte,
      (do_csi w 0x4a).trace = w.trace ++ ed_operations (w.csi_argv.get 0) ∧
      (do_csi w 0x4b).trace = w.trace ++ el_operations (w.csi_argv.get 0)) ∧
    (∀ (vte : kmscon_vte) (ps : List (List Nat)), csi_params_ok ps →
      (∃ v, parse_all vte (csi_sequence ps 0x4a) = some v ∧
        v.trace = vte.trace ++ ed_operations (csi_first_param ps) ∧
        v.state = STATE_GROUND) ∧
      (∃ v, parse_all vte (csi_sequence ps 0x4b) = some v ∧
        v.trace = vte.trace ++ el_operations (csi_first_param ps) ∧
        v.state = STATE_GROUND)) ∧
    (∀ a0 : Int,
      (a0 ≤ 0 → ed_operations a0 = [console_erase_cursor_to_screen] ∧
        el_operations a0 = [console_erase_cursor_to_end]) ∧
      (a0 = 1 → ed_operations a0 = [console_erase_screen_to_cursor] ∧
        el_operations a0 = [console_erase_home_to_cursor]) ∧
      (a0 = 2 → ed_operations a0 = [console_erase_screen] ∧
        el_operations a0 = [console_erase_current_line]) ∧
      (3 ≤ a0 → ed_operations a0 = [] ∧ el_operations a0 = [])) ∧
    csi_first_param [] = -1 ∧ csi_first_param [[]] = -1 := by
  refine ⟨fun w => ⟨(do_csi_erase w).1, (do_csi_erase w).2.2.1⟩, fun vte ps hps => ⟨?_, ?_⟩,
    fun a0 => ⟨fun h => ?_, fun h => ?_, fun h => ?_, fun h => ?_⟩, rfl, rfl⟩
  · obtain ⟨w, e, -, -, -, t, arr⟩ := parse_all_csi_sequence vte ps 0x4a hps (by decide)
    refine ⟨_, e, ?_, rfl⟩
    show (do_csi w 0x4a).trace = _
    rw [(do_csi_erase w).1, t, csi_argv_first w ps hps.1 arr]
  · obtain ⟨w, e, -, -, -, t, arr⟩ := parse_all_csi_sequence vte ps 0x4b hps (by decide)
    refine ⟨_, e, ?_, rfl⟩
    show (do_csi w 0x4b).trace = _
    rw [(do_csi_erase w).2.2.1, t, csi_argv_first w ps hps.1 arr]
  · unfold ed_operations el_operations
    rw [if_pos h, if_pos h]
    exact ⟨rfl, rfl⟩
  · subst h
    exact ⟨rfl, rfl⟩
  · subst h
    exact ⟨rfl, rfl⟩
  · unfold ed_operations el_operations
    rw [if_neg (by omega), if_neg (by omega), if_neg (by omega), if_neg (by omega),
      if_neg (by omega), if_neg (by omega)]
    exact ⟨rfl, rfl⟩

/-- C15 at ESC [ 1 K and ESC [ 7 J on a fresh parser: the first issues erase
line-start-to-cursor, the second issues nothing. -/
theorem erase_dispatch_witness :
    csi_params_ok [[0x31]] ∧ csi_params_ok [[0x37]] ∧
    (∃ v, parse_all kmscon_vte_new [0x1b, 0x5b, 0x31, 0x4b] = some v ∧
      v.trace = [console_erase_home_to_cursor]) ∧
    (∃ v, parse_all kmscon_vte_new [0x1b, 0x5b, 0x37, 0x4a] = some v ∧ v.trace = []) :=
  ⟨by decide, by decide,
   ((erase_dispatch.2.1 kmscon_vte_new [[0x31]] (by decide)).2).imp fun _ h => ⟨h.1, h.2.1⟩,
   ((erase_dispatch.2.1 kmscon_vte_new [[0x37]] (by decide)).1).imp fun _ h => ⟨h.1, h.2.1⟩⟩

/-! ## C16: cursor moves -/

/-- C16: CSI A, B, C and D each issue exactly one cursor move, up, down, right
and left respectively, by `csi_argv[0]` when that is at least 1 and by 1 when
it is missing (−1) or ≤ 0, so by at least 1 always; the moves of A and B are
issued with scrolling disabled.  This holds of `do_csi` on every terminal and
of a whole sequence ESC [ p1 ; .. ; pn A (B, C, D) fed to the parser in
whatever state it is, where only the first parameter counts; no reply is
written and the parser ends in GROUND. -/
theorem cursor_dispatch :
    (∀ w : kmscon_vte,
      (do_csi w 0x41).trace
        = w.trace ++ [console_move_up (move_distance (w.csi_argv.get 0)) false] ∧
      (do_csi w 0x42).trace
        = w.trace ++ [console_move_down (move_distance (w.csi_argv.get 0)) false] ∧
      (do_csi w 0x43).trace
        = w.trace ++ [console_move_right (move_distance (w.csi_argv.get 0))] ∧
      (do_csi w 0x44).trace
        = w.trace ++ [console_move_left (move_distance (w.csi_argv.get 0))]) ∧
    (∀ (vte : kmscon_vte) (ps : List (List Nat)), csi_params_ok ps →
      (∃ v, parse_all vte (csi_sequence ps 0x41) = some v ∧ v.state = STATE_GROUND ∧
        v.trace = vte.trace ++ [console_move_up (move_distance (csi_first_param ps)) false]) ∧
      (∃ v, parse_all vte (csi_sequence ps 0x42) = some v ∧ v.state = STATE_GROUND ∧
        v.trace
          = vte.trace ++ [console_move_down (move_distance (csi_first_param ps)) false]) ∧
      (∃ v, parse_all vte (csi_sequence ps 0x43) = some v ∧ v.state = STATE_GROUND ∧
        v.trace = vte.trace ++ [console_move_right (move_distance (csi_first_param ps))]) ∧
      (∃ v, parse_all vte (csi_sequence ps 0x44) = some v ∧ v.state = STATE_GROUND ∧
        v.trace = vte.trace ++ [console_move_left (move_distance (csi_first_param ps))])) ∧
    (∀ a0 : Int, (1 ≤ a0 → move_distance a0 = a0) ∧ (a0 ≤ 0 → move_distance a0 = 1) ∧
      1 ≤ move_distance a0) := by
  refine ⟨fun w => ?_, fun vte ps hps => ⟨?_, ?_, ?_, ?_⟩, fun a0 => ?_⟩
  · obtain ⟨h1, h2, h3, h4, -⟩ := do_csi_cursor w
    exact ⟨h1, h2, h3, h4⟩
  · obtain ⟨w, e, -, -, -, t, arr⟩ := parse_all_csi_sequence vte ps 0x41 hps (by decide)
    refine ⟨_, e, rfl, ?_⟩
    show (do_csi w 0x41).trace = _
    rw [(do_csi_cursor w).1, t, csi_argv_first w ps hps.1 arr]
  · obtain ⟨w, e, -, -, -, t, arr⟩ := parse_all_csi_sequence vte ps 0x42 hps (by decide)
    refine ⟨_, e, rfl, ?_⟩
    show (do_csi w 0x42).trace = _
    rw [(do_csi_cursor w).2.1, t, csi_argv_first w ps hps.1 arr]
  · obtain ⟨w, e, -, -, -, t, arr⟩ := parse_all_csi_sequence vte ps 0x43 hps (by decide)
    refine ⟨_, e, rfl, ?_⟩
    show (do_csi w 0x43).trace = _
    rw [(do_csi_cursor w).2.2.1, t, csi_argv_first w ps hps.1 arr]
  · obtain ⟨w, e, -, -, -, t, arr⟩ := parse_all_csi_sequence vte ps 0x44 hps (by decide)
    refine ⟨_, e, rfl, ?_⟩
    show (do_csi w 0x44).trace = _
    rw [(do_csi_cursor w).2.2.2.1, t, csi_argv_first w ps hps.1 arr]
  · unfold move_distance
    refine ⟨fun h => ?_, fun h => ?_, ?_⟩
    · rw [if_pos h]
    · rw [if_neg (by omega)]
    · split_ifs <;> omega

/-- C16 at ESC [ 1 2 ; 5 B and ESC [ 0 D on a fresh parser: down by 12 without
scrolling (the second parameter is ignored), and left by 1. -/
theorem cursor_dispatch_witness :
    csi_params_ok [[0x31, 0x32], [0x35]] ∧ csi_params_ok [[0x30]] ∧
    (∃ v, parse_all kmscon_vte_new [0x1b, 0x5b, 0x31, 0x32, 0x3b, 0x35, 0x42] = some v ∧
      v.trace = [console_move_down 12 false]) ∧
    (∃ v, parse_all kmscon_vte_new [0x1b, 0x5b, 0x30, 0x44] = some v ∧
      v.trace = [console_move_left 1]) :=
  ⟨by decide, by decide,
   ((cursor_dispatch.2.1 kmscon_vte_new [[0x31, 0x32], [0x35]] (by decide)).2.1).imp
     fun _ h => ⟨h.1, h.2.2⟩,
   ((cursor_dispatch.2.1 kmscon_vte_new [[0x30]] (by decide)).2.2.2).imp
     fun _ h => ⟨h.1, h.2.2⟩⟩

/-! ## C17: ED 2 followed by ESC [ H -/

/-- C17 fails as stated: on a fresh terminal, on either kind of `char`, the
bytes 1B 5B 32 4A 1B 5B 48 make the terminal issue the erase of the whole
screen and nothing else: `do_csi` has no arm for 'H', so no cursor operation
is issued for ESC [ H. -/
theorem ed_cup_no_cursor_move :
    kmscon_vte_input kmscon_vte_new
        ([0x1B, 0x5B, 0x32, 0x4A, 0x1B, 0x5B, 0x48].map (char_of_byte false))
      = some { kmscon_vte_new with
          mach := { state := TSM_UTF8_ACCEPT, ch := 0x48 },
          csi_argc := 1,
          csi_argv := Mathlib.Vector.replicate CSI_ARG_MAX (-1),
          trace := [console_erase_screen] } ∧
    kmscon_vte_input kmscon_vte_new
        ([0x1B, 0x5B, 0x32, 0x4A, 0x1B, 0x5B, 0x48].map (char_of_byte true))
      = some { kmscon_vte_new with
          mach := { state := TSM_UTF8_ACCEPT, ch := 0x48 },
          csi_argc := 1,
          csi_argv := Mathlib.Vector.replicate CSI_ARG_MAX (-1),
          trace := [console_erase_screen] } := by
  decide

/-- C17 as amended: processing the bytes 1B 5B 32 4A 1B 5B 48, on either kind
of `char`, on a terminal in whatever parser state whose decoder is at the
start of a sequence, issues exactly one screen operation, the erase of the
whole screen (ED 2), and ends in GROUND; the sequence ESC [ H is not handled
by `do_csi` and is ignored: no cursor operation is issued for it, no reply is
written, and attributes and flags are as before. -/
theorem ed_cup_erases_only (sg : Bool) (vte : kmscon_vte)
    (hm : at_sequence_start vte.mach.state) :
    ∃ v, kmscon_vte_input vte
        ([0x1B, 0x5B, 0x32, 0x4A, 0x1B, 0x5B, 0x48].map (char_of_byte sg)) = some v ∧
      v.trace = vte.trace ++ [console_erase_screen] ∧ v.state = STATE_GROUND ∧
      v.cattr = vte.cattr ∧ v.flags = vte.flags := by
  have hu := (vte_input_ucs4_ascii sg [0x1B, 0x5B, 0x32, 0x4A, 0x1B, 0x5B, 0x48] vte.mach
    (by decide) hm).1
  obtain ⟨w1, e1, -, a1, f1, t1, arr1⟩ :=
    parse_all_csi_sequence vte [[0x32]] 0x4a (by decide) (by decide)
  obtain ⟨w2, e2, -, a2, f2, t2, -⟩ :=
    parse_all_csi_sequence (set_state STATE_GROUND (do_csi w1 0x4a)) [] 0x48 (by decide)
      (by decide)
  have hj := do_csi_erase w1
  have hh := do_csi_unhandled w2 0x48 (by decide)
  have hf1 := (do_csi_frame w1 0x4a).2.2.2.2
  have hf2 := (do_csi_frame w2 0x48).2.2.2.2
  have h0 : w1.csi_argv.get 0 = 2 := csi_argv_first w1 [[0x32]] (by decide) arr1
  have hp : parse_all vte [0x1B, 0x5B, 0x32, 0x4A, 0x1B, 0x5B, 0x48]
      = some (set_state STATE_GROUND (do_csi w2 0x48)) := by
    have happ := parse_all_append [0x1B, 0x5B, 0x32, 0x4A] [0x1B, 0x5B, 0x48] vte
    have e1' : parse_all vte [0x1B, 0x5B, 0x32, 0x4A]
        = some (set_state STATE_GROUND (do_csi w1 0x4a)) := e1
    have e2' : parse_all (set_state STATE_GROUND (do_csi w1 0x4a)) [0x1B, 0x5B, 0x48]
        = some (set_state STATE_GROUND (do_csi w2 0x48)) := e2
    rw [e1', Option.some_bind, e2'] at happ
    exact happ
  refine ⟨set_mach (tsm_utf8_mach_feed_all vte.mach
      ([0x1B, 0x5B, 0x32, 0x4A, 0x1B, 0x5B, 0x48].map (char_of_byte sg)))
    (set_state STATE_GROUND (do_csi w2 0x48)), ?_, ?_, rfl, ?_, ?_⟩
  · rw [kmscon_vte_input_eq, hu, hp]
    rfl
  · show (do_csi w2 0x48).trace = _
    rw [hh.1, t2]
    show (do_csi w1 0x4a).trace = _
    rw [hj.1, t1, h0]
    rfl
  · show (do_csi w2 0x48).cattr = _
    rw [hh.2, a2]
    show (do_csi w1 0x4a).cattr = _
    rw [hj.2.1, a1]
  · show (do_csi w2 0x48).flags = _
    rw [hf2, f2]
    show (do_csi w1 0x4a).flags = _
    rw [hf1, f1]

/-- The amended C17 on a terminal that has printed 'A' and is in the middle of
an OSC string, where `char` is signed. -/
theorem ed_cup_erases_only_witness :
    at_sequence_start ({ kmscon_vte_new with
      state := STATE_OSC_STRING,
      trace := [console_write (kmscon_symbol_t.make 0x41) default_cattr] } :
        kmscon_vte).mach.state ∧
    ∃ v, kmscon_vte_input { kmscon_vte_new with
          state := STATE_OSC_STRING,
          trace := [console_write (kmscon_symbol_t.make 0x41) default_cattr] }
        ([0x1B, 0x5B, 0x32, 0x4A, 0x1B, 0x5B, 0x48].map (char_of_byte true)) = some v ∧
      v.trace = [console_write (kmscon_symbol_t.make 0x41) default_cattr,
        console_erase_screen] ∧ v.state = STATE_GROUND :=
  ⟨Or.inl rfl,
   (ed_cup_erases_only true { kmscon_vte_new with
      state := STATE_OSC_STRING,
      trace := [console_write (kmscon_symbol_t.make 0x41) default_cattr] }
      (Or.inl rfl)).imp fun _ h => ⟨h.1, h.2.1, h.2.2.1⟩⟩

/-! ## C18: ENQ -/

/-- C18: the code point 05 (ENQ) given to `parse_data` with the parser in
GROUND makes exactly one call of the write callback, with exactly the one
byte 06, and changes nothing else: no screen operation is issued and the
parser state is unchanged.  The same holds of the single input byte 05 given
to `kmscon_vte_input`, on either kind of `char`, when the decoder is at the
start of a sequence. -/
theorem enq_reply :
    (∀ vte : kmscon_vte, vte.state = STATE_GROUND →
      parse_data vte 0x05 = some { vte with trace := (vte.trace ++ [vte_write [0x06]]) }) ∧
    (∀ (sg : Bool) (vte : kmscon_vte), vte.state = STATE_GROUND →
      at_sequence_start vte.mach.state →
      kmscon_vte_input vte ([0x05].map (char_of_byte sg))
        = some { vte with
            mach := { state := TSM_UTF8_ACCEPT, ch := 0x05 },
            trace := (vte.trace ++ [vte_write [0x06]]) }) := by
  have hp : ∀ vte : kmscon_vte, vte.state = STATE_GROUND →
      parse_data vte 0x05 = some { vte with trace := (vte.trace ++ [vte_write [0x06]]) } := by
    intro vte hst
    have ha : anywhere_rule 0x05 = none := by decide
    have hs : state_rule vte.state 0x05 = some (STATE_NONE, ACTION_EXECUTE) := by
      rw [hst]
      decide
    rw [parse_data_of_state_rule vte 0x05 _ _ ha hs, do_trans_none]
    rfl
  refine ⟨hp, fun sg vte hst hm => ?_⟩
  have hu := vte_input_ucs4_ascii sg [0x05] vte.mach (by decide) hm
  have hf := feed_ascii sg vte.mach 0x05 (by decide) hm
  rw [kmscon_vte_input_eq, hu.1, parse_all_singleton, hp vte hst]
  simp only [List.map, tsm_utf8_mach_feed_all, List.foldl, hf]
  rfl

/-- C18 at the byte 05 on a fresh terminal where `char` is signed. -/
theorem enq_reply_witness :
    kmscon_vte_input kmscon_vte_new ([0x05].map (char_of_byte true))
      = some { kmscon_vte_new with
          mach := { state := TSM_UTF8_ACCEPT, ch := 0x05 },
          trace := [vte_write [0x06]] } :=
  enq_reply.2 true kmscon_vte_new rfl (Or.inl rfl)

/-! ## C19: EXECUTE of the C0 controls -/

/-- C19: EXECUTE is `do_execute`.  On 0x0A, 0x0B and 0x0C it issues the
screen's newline when LINE_FEED_NEW_LINE_MODE is set in the flags and
otherwise a cursor-down by 1 with scrolling allowed; on 0x08 it issues
cursor-left by 1, on 0x0D line-home, on 0x1A a write of 0xBF with the current
attributes, and on 0x00 nothing.  Each issues exactly that one operation (or
none), writes no reply, and changes nothing else of the terminal. -/
theorem execute_c0 (vte : kmscon_vte) :
    (∀ ctrl : Nat, do_action vte ctrl ACTION_EXECUTE = some (do_execute vte ctrl)) ∧
    (∀ ctrl : Nat, ctrl = 0x0a ∨ ctrl = 0x0b ∨ ctrl = 0x0c →
      do_execute vte ctrl =
        if vte.flags &&& FLAG_LINE_FEED_NEW_LINE_MODE ≠ 0 then
          { vte with trace := (vte.trace ++ [console_newline]) }
        else { vte with trace := (vte.trace ++ [console_move_down 1 true]) }) ∧
    do_execute vte 0x08 = { vte with trace := (vte.trace ++ [console_move_left 1]) } ∧
    do_execute vte 0x0d = { vte with trace := (vte.trace ++ [console_move_line_home]) } ∧
    do_execute vte 0x1a
      = { vte with trace := (vte.trace ++ [console_write (kmscon_symbol_t.raw 0xbf) vte.cattr]) } ∧
    do_execute vte 0x00 = vte := by
  refine ⟨fun _ => rfl, fun ctrl h => ?_, rfl, rfl, rfl, rfl⟩
  rcases h with h | h | h <;> subst h <;> rfl

/-- C19 at LF on a fresh terminal (flags 0: cursor-down with scrolling) and on
a terminal with LINE_FEED_NEW_LINE_MODE set (newline). -/
theorem execute_c0_witness :
    do_execute kmscon_vte_new 0x0a
      = { kmscon_vte_new with trace := [console_move_down 1 true] } ∧
    do_execute { kmscon_vte_new with flags := FLAG_LINE_FEED_NEW_LINE_MODE } 0x0a
      = { kmscon_vte_new with
          flags := FLAG_LINE_FEED_NEW_LINE_MODE, trace := [console_newline] } :=
  ⟨((execute_c0 kmscon_vte_new).2.1 0x0a (Or.inl rfl)).trans (by decide),
   ((execute_c0 { kmscon_vte_new with flags := FLAG_LINE_FEED_NEW_LINE_MODE }).2.1 0x0a
      (Or.inl rfl)).trans (by decide)⟩

/-! ## C20: IND, NEL and RI in 7-bit and 8-bit form -/

/-- The code point ESC from any terminal. -/
theorem parse_data_esc (vte : kmscon_vte) :
    parse_data vte 0x1b = some (set_state STATE_ESC (do_clear vte)) := by
  have hr : anywhere_rule 0x1b = some (STATE_ESC, ACTION_NONE) := by decide
  simp only [parse_data, hr]
  exact do_trans_none_clear vte _ STATE_ESC (by decide) rfl

/-- A final byte of an escape sequence that ESC dispatches, fed in ESC. -/
theorem parse_data_esc_dispatch (vte : kmscon_vte) (raw : Nat)
    (h : in_range raw 0x30 0x4f) (hst : vte.state = STATE_ESC) :
    parse_data vte raw = some (set_state STATE_GROUND (do_esc vte raw)) := by
  have ha : anywhere_rule raw = none :=
    anywhere_rule_printable raw (by unfold in_range at h ⊢; omega)
  have hs : state_rule vte.state raw = some (STATE_GROUND, ACTION_ESC_DISPATCH) := by
    rw [hst]
    unfold in_range at h
    simp only [state_rule, c0_label, in_range]
    split_ifs <;> first | rfl | omega
  rw [parse_data_of_state_rule vte raw _ _ ha hs,
    do_trans_of_ne_none vte raw _ _ (by decide)]
  rfl

/-- C20: IND, NEL and RI have the same effect in their 7-bit and 8-bit forms.
From every terminal, in whatever parser state, the two code points ESC 'D' and
the single code point 0x84 both issue exactly a cursor-down by 1 with
scrolling, ESC 'E' and 0x85 both issue exactly newline, ESC 'M' and 0x8D both
issue exactly a cursor-up by 1 with (reverse) scrolling; no reply is written,
and all six leave the parser in GROUND.  The two forms differ in the
parameters only, which ESC clears. -/
theorem ind_nel_ri (vte : kmscon_vte) :
    parse_all vte [0x1b, 0x44]
      = some { do_clear vte with
          state := STATE_GROUND, trace := (vte.trace ++ [console_move_down 1 true]) } ∧
    parse_data vte 0x84
      = some { vte with
          state := STATE_GROUND, trace := (vte.trace ++ [console_move_down 1 true]) } ∧
    parse_all vte [0x1b, 0x45]
      = some { do_clear vte with
          state := STATE_GROUND, trace := (vte.trace ++ [console_newline]) } ∧
    parse_data vte 0x85
      = some { vte with
          state := STATE_GROUND, trace := (vte.trace ++ [console_newline]) } ∧
    parse_all vte [0x1b, 0x4d]
      = some { do_clear vte with
          state := STATE_GROUND, trace := (vte.trace ++ [console_move_up 1 true]) } ∧
    parse_data vte 0x8d
      = some { vte with
          state := STATE_GROUND, trace := (vte.trace ++ [console_move_up 1 true]) } := by
  have h7 : ∀ raw : Nat, in_range raw 0x30 0x4f →
      parse_all vte [0x1b, raw]
        = some (set_state STATE_GROUND (do_esc (set_state STATE_ESC (do_clear vte)) raw)) := by
    intro raw hr
    simp only [parse_all, parse_data_esc, Option.some_bind,
      parse_data_esc_dispatch (set_state STATE_ESC (do_clear vte)) raw hr rfl]
  have h8 : ∀ raw : Nat, anywhere_execute raw →
      parse_data vte raw = some { do_execute vte raw with state := STATE_GROUND } := by
    intro raw hr
    have ha : anywhere_rule raw = some (STATE_GROUND, ACTION_EXECUTE) := by
      unfold anywhere_rule
      rw [if_pos hr]
    simp only [parse_data, ha]
    exact do_trans_ground_execute vte raw
  refine ⟨?_, ?_, ?_, ?_, ?_, ?_⟩
  · rw [h7 0x44 (by decide)]
    rfl
  · rw [h8 0x84 (by decide)]
    rfl
  · rw [h7 0x45 (by decide)]
    rfl
  · rw [h8 0x85 (by decide)]
    rfl
  · rw [h7 0x4d (by decide)]
    rfl
  · rw [h8 0x8d (by decide)]
    rfl

/-! ## C21: DEL -/

/-- C21 fails as stated: in DCS_PASS the arm of 0x7F runs IGNORE, not
DCS_COLLECT. -/
theorem del_in_dcs_pass_ignored :
    anywhere_rule 0x7f = none ∧
    state_rule STATE_DCS_PASS 0x7f = some (STATE_NONE, ACTION_IGNORE) ∧
    state_rule STATE_DCS_PASS 0x7f ≠ some (STATE_NONE, ACTION_DCS_COLLECT) := by
  decide

/-- C21 as amended: the code point 0x7F (DEL) never changes the parser state;
it is handled by OSC_COLLECT in OSC_STRING and by IGNORE in DCS_PASS, ESC,
ESC_INT, CSI_ENTRY, CSI_PARAM, CSI_INT, CSI_IGNORE, DCS_ENTRY, DCS_PARAM,
DCS_INT, DCS_IGNORE and ST_IGNORE (in GROUND it is printed); outside GROUND it
leaves the whole terminal as it was. -/
theorem del_rules :
    anywhere_rule 0x7f = none ∧
    state_rule STATE_OSC_STRING 0x7f = some (STATE_NONE, ACTION_OSC_COLLECT) ∧
    (∀ st ∈ [STATE_DCS_PASS, STATE_ESC, STATE_ESC_INT, STATE_CSI_ENTRY, STATE_CSI_PARAM,
        STATE_CSI_INT, STATE_CSI_IGNORE, STATE_DCS_ENTRY, STATE_DCS_PARAM, STATE_DCS_INT,
        STATE_DCS_IGNORE, STATE_ST_IGNORE],
      state_rule st 0x7f = some (STATE_NONE, ACTION_IGNORE)) ∧
    state_rule STATE_GROUND 0x7f = some (STATE_NONE, ACTION_PRINT) ∧
    (∀ vte : kmscon_vte, ∃ v, parse_data vte 0x7f = some v ∧ v.state = vte.state) ∧
    (∀ vte : kmscon_vte, vte.state ≠ STATE_GROUND → parse_data vte 0x7f = some vte) := by
  have ha : anywhere_rule 0x7f = none := by decide
  have hng : ∀ vte : kmscon_vte, vte.state ≠ STATE_GROUND → parse_data vte 0x7f = some vte := by
    intro vte hst
    unfold parse_data
    rw [ha]
    cases h : vte.state <;> first
      | exact absurd h hst
      | rfl
  refine ⟨ha, by decide, by decide, by decide, fun vte => ?_, hng⟩
  by_cases hg : vte.state = STATE_GROUND
  · have e := parse_data_ground_print vte 0x7f (by decide) hg
    exact ⟨_, e, rfl⟩
  · exact ⟨vte, hng vte hg, rfl⟩

/-- The amended C21 on a terminal in DCS_PASS and on one in GROUND. -/
theorem del_rules_witness :
    parse_data { kmscon_vte_new with state := STATE_DCS_PASS } 0x7f
      = some { kmscon_vte_new with state := STATE_DCS_PASS } ∧
    ∃ v, parse_data kmscon_vte_new 0x7f = some v ∧ v.state = STATE_GROUND :=
  ⟨del_rules.2.2.2.2.2 { kmscon_vte_new with state := STATE_DCS_PASS } (by decide),
   del_rules.2.2.2.2.1 kmscon_vte_new⟩

/-! ## C22: C0 controls inside a sequence -/

/-- Outside the anywhere rules: a C0 code point of the per-state label. -/
theorem anywhere_rule_c0 (raw : Nat) (h : c0_label raw) : anywhere_rule raw = none := by
  unfold anywhere_rule
  unfold c0_label in_range at h
  simp only [in_range]
  split_ifs <;> first | rfl | omega

/-- A C0 code point met in one of the seven states whose first arm is EXECUTE
is executed and the state stays. -/
theorem parse_data_c0_execute (vte : kmscon_vte) (raw : Nat) (h : c0_label raw)
    (hst : vte.state ∈ [STATE_GROUND, STATE_ESC, STATE_ESC_INT, STATE_CSI_ENTRY,
      STATE_CSI_PARAM, STATE_CSI_INT, STATE_CSI_IGNORE]) :
    state_rule vte.state raw = some (STATE_NONE, ACTION_EXECUTE) ∧
    parse_data vte raw = some (do_execute vte raw) := by
  have hs : state_rule vte.state raw = some (STATE_NONE, ACTION_EXECUTE) := by
    simp only [List.mem_cons, List.mem_singleton, List.not_mem_nil, or_false] at hst
    rcases hst with e | e | e | e | e | e | e <;> rw [e] <;>
      simp only [state_rule, if_pos h, h, true_or, if_true]
  refine ⟨hs, ?_⟩
  rw [parse_data_of_state_rule vte raw _ _ (anywhere_rule_c0 raw h) hs]
  rfl

/-- A C0 code point met in one of the six string states is ignored; in DCS_PASS
it is handed to DCS_COLLECT; the terminal stays as it was. -/
theorem parse_data_c0_ignore (vte : kmscon_vte) (raw : Nat) (h : c0_label raw)
    (hst : vte.state ∈ [STATE_DCS_ENTRY, STATE_DCS_PARAM, STATE_DCS_INT, STATE_DCS_IGNORE,
      STATE_OSC_STRING, STATE_ST_IGNORE, STATE_DCS_PASS]) :
    state_rule vte.state raw
      = some (STATE_NONE,
          if vte.state = STATE_DCS_PASS then ACTION_DCS_COLLECT else ACTION_IGNORE) ∧
    parse_data vte raw = some vte := by
  have hs : state_rule vte.state raw
      = some (STATE_NONE,
          if vte.state = STATE_DCS_PASS then ACTION_DCS_COLLECT else ACTION_IGNORE) := by
    simp only [List.mem_cons, List.mem_singleton, List.not_mem_nil, or_false] at hst
    rcases hst with e | e | e | e | e | e | e <;> rw [e] <;>
      simp only [state_rule, if_pos h, h, true_or, if_true] <;> rfl
  refine ⟨hs, ?_⟩
  rw [parse_data_of_state_rule vte raw _ _ (anywhere_rule_c0 raw h) hs]
  simp only [List.mem_cons, List.mem_singleton, List.not_mem_nil, or_false] at hst
  rcases hst with e | e | e | e | e | e | e <;> rw [e] <;> rfl

/-- C22 fails as stated: ENQ (0x05) met in OSC_STRING is ignored, where EXECUTE
would have sent the reply 0x06. -/
theorem enq_in_osc_string_ignored :
    state_rule STATE_OSC_STRING 0x05 = some (STATE_NONE, ACTION_IGNORE) ∧
    (parse_data { kmscon_vte_new with state := STATE_OSC_STRING } 0x05).map (fun v => v.trace)
      = some [] ∧
    (do_execute { kmscon_vte_new with state := STATE_OSC_STRING } 0x05).trace
      = [vte_write [0x06]] := by
  refine ⟨by decide, ?_, rfl⟩
  rw [(parse_data_c0_ignore { kmscon_vte_new with state := STATE_OSC_STRING } 0x05
    (by decide) (by decide)).2]
  rfl

/-- C22 as amended: a code point in 0x00..0x1F other than 0x18, 0x1A and 0x1B
is handled by EXECUTE in GROUND, ESC, ESC_INT, CSI_ENTRY, CSI_PARAM, CSI_INT and
CSI_IGNORE, by IGNORE in DCS_ENTRY, DCS_PARAM, DCS_INT, DCS_IGNORE, OSC_STRING
and ST_IGNORE, and by DCS_COLLECT in DCS_PASS; in every state the parser state
stays, and in the string states the whole terminal stays as it was. -/
theorem c0_in_sequence (vte : kmscon_vte) (raw : Nat) (h : c0_label raw) :
    (vte.state ∈ [STATE_GROUND, STATE_ESC, STATE_ESC_INT, STATE_CSI_ENTRY,
        STATE_CSI_PARAM, STATE_CSI_INT, STATE_CSI_IGNORE] →
      state_rule vte.state raw = some (STATE_NONE, ACTION_EXECUTE) ∧
      parse_data vte raw = some (do_execute vte raw) ∧
      (do_execute vte raw).state = vte.state) ∧
    (vte.state ∈ [STATE_DCS_ENTRY, STATE_DCS_PARAM, STATE_DCS_INT, STATE_DCS_IGNORE,
        STATE_OSC_STRING, STATE_ST_IGNORE] →
      state_rule vte.state raw = some (STATE_NONE, ACTION_IGNORE) ∧
      parse_data vte raw = some vte) ∧
    (vte.state = STATE_DCS_PASS →
      state_rule vte.state raw = some (STATE_NONE, ACTION_DCS_COLLECT) ∧
      parse_data vte raw = some vte) := by
  refine ⟨fun hst => ?_, fun hst => ?_, fun hst => ?_⟩
  · obtain ⟨a, b⟩ := parse_data_c0_execute vte raw h hst
    exact ⟨a, b, (do_execute_frame vte raw).2.1⟩
  · have hm : vte.state ∈ [STATE_DCS_ENTRY, STATE_DCS_PARAM, STATE_DCS_INT, STATE_DCS_IGNORE,
        STATE_OSC_STRING, STATE_ST_IGNORE, STATE_DCS_PASS] := by
      simp only [List.mem_cons, List.mem_singleton, List.not_mem_nil, or_false] at hst ⊢
      tauto
    have hne : vte.state ≠ STATE_DCS_PASS := by
      simp only [List.mem_cons, List.mem_singleton, List.not_mem_nil, or_false] at hst
      rcases hst with e | e | e | e | e | e <;> rw [e] <;> decide
    obtain ⟨a, b⟩ := parse_data_c0_ignore vte raw h hm
    rw [if_neg hne] at a
    exact ⟨a, b⟩
  · obtain ⟨a, b⟩ := parse_data_c0_ignore vte raw h (by rw [hst]; decide)
    rw [if_pos hst] at a
    exact ⟨a, b⟩

/-- The amended C22 on BS in CSI_PARAM (executed), in DCS_INT (ignored) and in
DCS_PASS (collected). -/
theorem c0_in_sequence_witness :
    parse_data { kmscon_vte_new with state := STATE_CSI_PARAM } 0x08
      = some (do_execute { kmscon_vte_new with state := STATE_CSI_PARAM } 0x08) ∧
    parse_data { kmscon_vte_new with state := STATE_DCS_INT } 0x08
      = some { kmscon_vte_new with state := STATE_DCS_INT } ∧
    parse_data { kmscon_vte_new with state := STATE_DCS_PASS } 0x08
      = some { kmscon_vte_new with state := STATE_DCS_PASS } :=
  ⟨((c0_in_sequence { kmscon_vte_new with state := STATE_CSI_PARAM } 0x08 (by decide)).1
      (by decide)).2.1,
   ((c0_in_sequence { kmscon_vte_new with state := STATE_DCS_INT } 0x08 (by decide)).2.1
      (by decide)).2,
   ((c0_in_sequence { kmscon_vte_new with state := STATE_DCS_PASS } 0x08 (by decide)).2.2
      rfl).2⟩

/-! ## C23: sequences without an operation -/

/-- A final byte 0x40..0x7E met in CSI_ENTRY, CSI_PARAM or CSI_INT runs
CSI_DISPATCH and ends in GROUND. -/
theorem parse_data_csi_final (vte : kmscon_vte) (final : Nat)
    (hf : in_range final 0x40 0x7e)
    (hst : vte.state = STATE_CSI_ENTRY ∨ vte.state = STATE_CSI_PARAM ∨
      vte.state = STATE_CSI_INT) :
    parse_data vte final = some (set_state STATE_GROUND (do_csi vte final)) := by
  have ha : anywhere_rule final = none :=
    anywhere_rule_printable final (by unfold in_range at hf ⊢; omega)
  have hs : state_rule vte.state final = some (STATE_GROUND, ACTION_CSI_DISPATCH) := by
    unfold in_range at hf
    rcases hst with h | h | h <;> rw [h] <;> simp only [state_rule, c0_label, in_range] <;>
      split_ifs <;> first | rfl | omega
  rw [parse_data_of_state_rule vte final _ _ ha hs,
    do_trans_of_ne_none vte final _ _ (by decide)]
  rfl

/-- A final byte of an escape sequence, met in ESC or in ESC_INT, runs
ESC_DISPATCH and ends in GROUND. -/
theorem parse_data_esc_final (vte : kmscon_vte) (raw : Nat)
    (h : (vte.state = STATE_ESC ∧ esc_final raw) ∨
      (vte.state = STATE_ESC_INT ∧ in_range raw 0x30 0x7e)) :
    parse_data vte raw = some (set_state STATE_GROUND (do_esc vte raw)) := by
  have ha : anywhere_rule raw = none :=
    anywhere_rule_printable raw (by unfold esc_final in_range at h; unfold in_range; omega)
  have hs : state_rule vte.state raw = some (STATE_GROUND, ACTION_ESC_DISPATCH) := by
    unfold esc_final in_range at h
    rcases h with ⟨e, h⟩ | ⟨e, h⟩ <;> rw [e] <;> simp only [state_rule, c0_label, in_range] <;>
      split_ifs <;> first | rfl | omega
  rw [parse_data_of_state_rule vte raw _ _ ha hs,
    do_trans_of_ne_none vte raw _ _ (by decide)]
  rfl

/-- Without one of the finals D, E, M the function `do_esc` does nothing. -/
theorem do_esc_unhandled (w : kmscon_vte) (data : Nat)
    (h : data ≠ 0x44 ∧ data ≠ 0x45 ∧ data ≠ 0x4d) : do_esc w data = w := by
  obtain ⟨h1, h2, h3⟩ := h
  unfold do_esc
  simp only [if_neg h1, if_neg h2, if_neg h3, ite_self]

/-- C23: in CSI_ENTRY, CSI_PARAM and CSI_INT every final byte 0x40..0x7E moves
the parser to GROUND, and when the final byte is none of A, B, C, D, J, K, m
(nor p, which has an empty arm) no console operation is issued, no reply is
sent and attributes and mode flags stay.  Likewise a final byte of an escape
sequence other than D, E and M, met in ESC (where the final bytes are 0x30..0x7E
without the introducers P, X, [, ], ^, _) or in ESC_INT (0x30..0x7E), leaves the
parser in GROUND with no operation and no reply. -/
theorem unhandled_finals (vte : kmscon_vte) (raw : Nat) :
    (in_range raw 0x40 0x7e →
      vte.state = STATE_CSI_ENTRY ∨ vte.state = STATE_CSI_PARAM ∨ vte.state = STATE_CSI_INT →
      ∃ v, parse_data vte raw = some v ∧ v.state = STATE_GROUND ∧
        (raw ∉ [0x41, 0x42, 0x43, 0x44, 0x4a, 0x4b, 0x6d, 0x70] →
          v.trace = vte.trace ∧ v.cattr = vte.cattr ∧ v.flags = vte.flags)) ∧
    ((vte.state = STATE_ESC ∧ esc_final raw) ∨
        (vte.state = STATE_ESC_INT ∧ in_range raw 0x30 0x7e) →
      ∃ v, parse_data vte raw = some v ∧ v.state = STATE_GROUND ∧
        (raw ∉ [0x44, 0x45, 0x4d] →
          v.trace = vte.trace ∧ v.cattr = vte.cattr ∧ v.flags = vte.flags)) := by
  refine ⟨fun hf hst => ?_, fun h => ?_⟩
  · refine ⟨_, parse_data_csi_final vte raw hf hst, rfl, fun hn => ?_⟩
    simp only [List.mem_cons, List.mem_singleton, List.not_mem_nil, or_false, not_or] at hn
    obtain ⟨t, c⟩ := do_csi_unhandled vte raw
      ⟨hn.1, hn.2.1, hn.2.2.1, hn.2.2.2.1, hn.2.2.2.2.1, hn.2.2.2.2.2.1, hn.2.2.2.2.2.2.1⟩
    exact ⟨t, c, (do_csi_frame vte raw).2.2.2.2⟩
  · refine ⟨_, parse_data_esc_final vte raw h, rfl, fun hn => ?_⟩
    simp only [List.mem_cons, List.mem_singleton, List.not_mem_nil, or_false, not_or] at hn
    rw [do_esc_unhandled vte raw ⟨hn.1, hn.2.1, hn.2.2⟩]
    exact ⟨rfl, rfl, rfl⟩

/-- C23 on CSI ... H met in CSI_INT and on ESC c met in ESC. -/
theorem unhandled_finals_witness :
    (∃ v, parse_data { kmscon_vte_new with state := STATE_CSI_INT } 0x48 = some v ∧
      v.state = STATE_GROUND ∧
      (0x48 ∉ [0x41, 0x42, 0x43, 0x44, 0x4a, 0x4b, 0x6d, 0x70] →
        v.trace = [] ∧ v.cattr = default_cattr ∧ v.flags = 0)) ∧
    (∃ v, parse_data { kmscon_vte_new with state := STATE_ESC } 0x63 = some v ∧
      v.state = STATE_GROUND ∧
      (0x63 ∉ [0x44, 0x45, 0x4d] →
        v.trace = [] ∧ v.cattr = default_cattr ∧ v.flags = 0)) :=
  ⟨(unhandled_finals { kmscon_vte_new with state := STATE_CSI_INT } 0x48).1
      (by decide) (Or.inr (Or.inr rfl)),
   (unhandled_finals { kmscon_vte_new with state := STATE_ESC } 0x63).2
      (Or.inl ⟨rfl, by decide⟩)⟩

/-! ## C24, C25: Return, KP_Enter and the cursor keys -/

/-- A key without a label in the Control switch is translated by the second
switch whatever the modifier mask. -/
theorem handle_keyboard_named (get_u8 : kmscon_symbol_t → List Nat) (vte : kmscon_vte)
    (ev : uterm_input_event) (u8 : List Nat) (hc : control_key ev.keysym = none)
    (hn : named_key vte.flags ev.keysym = some u8) :
    kmscon_vte_handle_keyboard get_u8 vte ev = emit vte (vte_write u8) := by
  unfold kmscon_vte_handle_keyboard
  rw [hc, hn]
  simp only [ite_self]

/-- The arm of KP_Enter in the second switch. -/
theorem named_key_kp_enter (flags : Nat) :
    named_key flags XK_KP_Enter
      = if flags &&& FLAG_KEYPAD_APPLICATION_MODE ≠ 0 then some [0x1b, 0x4f, 0x4d]
        else if flags &&& FLAG_LINE_FEED_NEW_LINE_MODE ≠ 0 then some [0x0d, 0x0a]
        else some [0x0d] := rfl

/-- The arm of Return in the second switch. -/
theorem named_key_return (flags : Nat) :
    named_key flags XK_Return
      = if flags &&& FLAG_LINE_FEED_NEW_LINE_MODE ≠ 0 then some [0x0d, 0x0a]
        else some [0x0d] := rfl

/-- The arms of Left, Home and End in the second switch. -/
theorem named_key_left_home_end (flags : Nat) :
    named_key flags XK_Left
      = (if flags &&& FLAG_CURSOR_KEY_MODE ≠ 0 then some [0x1b, 0x4f, 0x44]
        else some [0x1b, 0x5b, 0x44]) ∧
    named_key flags XK_Home
      = (if flags &&& FLAG_CURSOR_KEY_MODE ≠ 0 then some [0x1b, 0x4f, 0x48]
        else some [0x1b, 0x5b, 0x48]) ∧
    named_key flags XK_End
      = (if flags &&& FLAG_CURSOR_KEY_MODE ≠ 0 then some [0x1b, 0x4f, 0x46]
        else some [0x1b, 0x5b, 0x46]) := ⟨rfl, rfl, rfl⟩

/-- The arms of Up, Down and Right in the second switch: both branches of the
test of CURSOR_KEY_MODE write the same bytes. -/
theorem named_key_up_down_right (flags : Nat) :
    named_key flags XK_Up = some [0x1b, 0x5b, 0x41] ∧
    named_key flags XK_Down = some [0x1b, 0x5b, 0x42] ∧
    named_key flags XK_Right = some [0x1b, 0x5b, 0x43] := by
  refine ⟨?_, ?_, ?_⟩
  · show (if flags &&& FLAG_CURSOR_KEY_MODE ≠ 0 then some [0x1b, 0x5b, 0x41]
      else some [0x1b, 0x5b, 0x41]) = _
    exact ite_self _
  · show (if flags &&& FLAG_CURSOR_KEY_MODE ≠ 0 then some [0x1b, 0x5b, 0x42]
      else some [0x1b, 0x5b, 0x42]) = _
    exact ite_self _
  · show (if flags &&& FLAG_CURSOR_KEY_MODE ≠ 0 then some [0x1b, 0x5b, 0x43]
      else some [0x1b, 0x5b, 0x43]) = _
    exact ite_self _

/-- C24: for KP_Enter in keypad application mode the keyboard handler writes
exactly ESC O M; otherwise, for KP_Enter and for Return, it writes exactly
CR LF when LINE_FEED_NEW_LINE_MODE is set and exactly CR when it is not; each
time it is one write, whatever the modifier mask and the code point of the
event. -/
theorem return_key (get_u8 : kmscon_symbol_t → List Nat) (vte : kmscon_vte)
    (ev : uterm_input_event) :
    (ev.keysym = XK_KP_Enter → vte.flags &&& FLAG_KEYPAD_APPLICATION_MODE ≠ 0 →
      kmscon_vte_handle_keyboard get_u8 vte ev = emit vte (vte_write [0x1b, 0x4f, 0x4d])) ∧
    ((ev.keysym = XK_KP_Enter ∧ vte.flags &&& FLAG_KEYPAD_APPLICATION_MODE = 0) ∨
        ev.keysym = XK_Return →
      kmscon_vte_handle_keyboard get_u8 vte ev
        = emit vte (vte_write
            (if vte.flags &&& FLAG_LINE_FEED_NEW_LINE_MODE ≠ 0 then [0x0d, 0x0a]
              else [0x0d]))) := by
  refine ⟨fun hk hf => ?_, fun h => ?_⟩
  · apply handle_keyboard_named
    · rw [hk]; rfl
    · rw [hk, named_key_kp_enter, if_pos hf]
  · apply handle_keyboard_named
    · rcases h with ⟨hk, -⟩ | hk <;> rw [hk] <;> rfl
    · rcases h with ⟨hk, hf⟩ | hk <;> rw [hk]
      · rw [named_key_kp_enter, if_neg (not_not.mpr hf)]
        split_ifs <;> rfl
      · rw [named_key_return]
        split_ifs <;> rfl

/-- C24 on KP_Enter pressed with Control in keypad application mode, and on
Return pressed with Control in a fresh terminal. -/
theorem return_key_witness :
    kmscon_vte_handle_keyboard (fun _ => [])
        { kmscon_vte_new with flags := FLAG_KEYPAD_APPLICATION_MODE }
        { keysym := XK_KP_Enter, mods := UTERM_CONTROL_MASK, unicode := 0x0d }
      = emit { kmscon_vte_new with flags := FLAG_KEYPAD_APPLICATION_MODE }
          (vte_write [0x1b, 0x4f, 0x4d]) ∧
    kmscon_vte_handle_keyboard (fun _ => []) kmscon_vte_new
        { keysym := XK_Return, mods := UTERM_CONTROL_MASK, unicode := 0x0d }
      = emit kmscon_vte_new (vte_write [0x0d]) :=
  ⟨(return_key (fun _ => []) { kmscon_vte_new with flags := FLAG_KEYPAD_APPLICATION_MODE }
      { keysym := XK_KP_Enter, mods := UTERM_CONTROL_MASK, unicode := 0x0d }).1 rfl (by decide),
   (return_key (fun _ => []) kmscon_vte_new
      { keysym := XK_Return, mods := UTERM_CONTROL_MASK, unicode := 0x0d }).2 (Or.inr rfl)⟩

/-- C25: the keyboard handler writes ESC O D, ESC O H, ESC O F for Left, Home,
End when CURSOR_KEY_MODE is set and ESC [ D, ESC [ H, ESC [ F when it is not,
while Up, Down and Right write ESC [ A, ESC [ B, ESC [ C whatever the value of
CURSOR_KEY_MODE; each time it is one write, whatever the modifier mask. -/
theorem cursor_keys (get_u8 : kmscon_symbol_t → List Nat) (vte : kmscon_vte)
    (ev : uterm_input_event) :
    (ev.keysym = XK_Left → kmscon_vte_handle_keyboard get_u8 vte ev
      = emit vte (vte_write (if vte.flags &&& FLAG_CURSOR_KEY_MODE ≠ 0
          then [0x1b, 0x4f, 0x44] else [0x1b, 0x5b, 0x44]))) ∧
    (ev.keysym = XK_Home → kmscon_vte_handle_keyboard get_u8 vte ev
      = emit vte (vte_write (if vte.flags &&& FLAG_CURSOR_KEY_MODE ≠ 0
          then [0x1b, 0x4f, 0x48] else [0x1b, 0x5b, 0x48]))) ∧
    (ev.keysym = XK_End → kmscon_vte_handle_keyboard get_u8 vte ev
      = emit vte (vte_write (if vte.flags &&& FLAG_CURSOR_KEY_MODE ≠ 0
          then [0x1b, 0x4f, 0x46] else [0x1b, 0x5b, 0x46]))) ∧
    (ev.keysym = XK_Up → kmscon_vte_handle_keyboard get_u8 vte ev
      = emit vte (vte_write [0x1b, 0x5b, 0x41])) ∧
    (ev.keysym = XK_Down → kmscon_vte_handle_keyboard get_u8 vte ev
      = emit vte (vte_write [0x1b, 0x5b, 0x42])) ∧
    (ev.keysym = XK_Right → kmscon_vte_handle_keyboard get_u8 vte ev
      = emit vte (vte_write [0x1b, 0x5b, 0x43])) := by
  obtain ⟨l, h, e⟩ := named_key_left_home_end vte.flags
  obtain ⟨u, d, r⟩ := named_key_up_down_right vte.flags
  refine ⟨fun hk => ?_, fun hk => ?_, fun hk => ?_, fun hk => ?_, fun hk => ?_, fun hk => ?_⟩ <;>
    apply handle_keyboard_named <;> rw [hk] <;> first
      | rfl
      | exact u
      | exact d
      | exact r
      | (rw [l]; split_ifs <;> rfl)
      | (rw [h]; split_ifs <;> rfl)
      | (rw [e]; split_ifs <;> rfl)

/-- C25 on Left and Up in a terminal with CURSOR_KEY_MODE set. -/
theorem cursor_keys_witness :
    kmscon_vte_handle_keyboard (fun _ => [])
        { kmscon_vte_new with flags := FLAG_CURSOR_KEY_MODE }
        { keysym := XK_Left, mods := 0, unicode := UTERM_INPUT_INVALID }
      = emit { kmscon_vte_new with flags := FLAG_CURSOR_KEY_MODE }
          (vte_write [0x1b, 0x4f, 0x44]) ∧
    kmscon_vte_handle_keyboard (fun _ => [])
        { kmscon_vte_new with flags := FLAG_CURSOR_KEY_MODE }
        { keysym := XK_Up, mods := 0, unicode := UTERM_INPUT_INVALID }
      = emit { kmscon_vte_new with flags := FLAG_CURSOR_KEY_MODE }
          (vte_write [0x1b, 0x5b, 0x41]) :=
  ⟨(cursor_keys (fun _ => []) { kmscon_vte_new with flags := FLAG_CURSOR_KEY_MODE }
      { keysym := XK_Left, mods := 0, unicode := UTERM_INPUT_INVALID }).1 rfl,
   (cursor_keys (fun _ => []) { kmscon_vte_new with flags := FLAG_CURSOR_KEY_MODE }
      { keysym := XK_Up, mods := 0, unicode := UTERM_INPUT_INVALID }).2.2.2.1 rfl⟩

/-! ## The order of the keys -/

/-- The result of `strcmp` is −1, 0 or 1. -/
theorem strcmp_range (a b : List Nat) :
    strcmp a b = -1 ∨ strcmp a b = 0 ∨ strcmp a b = 1 := by
  induction a generalizing b with
  | nil => cases b <;> simp [strcmp]
  | cons x s ih =>
    cases b with
    | nil => simp [strcmp]
    | cons y t =>
      unfold strcmp
      split_ifs
      · simp
      · simp
      · exact ih t

/-- A string equals itself under `strcmp`. -/
theorem strcmp_self (a : List Nat) : strcmp a a = 0 := by
  induction a with
  | nil => rfl
  | cons x s ih => unfold strcmp; simp [ih]

/-- Strings that `strcmp` finds equal are equal. -/
theorem strcmp_eq_zero (a b : List Nat) (h : strcmp a b = 0) : a = b := by
  induction a generalizing b with
  | nil => cases b <;> simp [strcmp] at h ⊢
  | cons x s ih =>
    cases b with
    | nil => simp [strcmp] at h
    | cons y t =>
      unfold strcmp at h
      split_ifs at h with h1 h2
      · omega
      · have : x = y := by omega
        rw [this, ih t h]

/-- Swapping the arguments of `strcmp` negates the result. -/
theorem strcmp_swap (a b : List Nat) : strcmp b a = - strcmp a b := by
  induction a generalizing b with
  | nil => cases b <;> simp [strcmp]
  | cons x s ih =>
    cases b with
    | nil => simp [strcmp]
    | cons y t =>
      unfold strcmp
      split_ifs <;> first | omega | rfl | exact ih t

/-- The order `strcmp a b ≤ 0` is transitive. -/
theorem strcmp_trans (a b c : List Nat) (h1 : strcmp a b ≤ 0) (h2 : strcmp b c ≤ 0) :
    strcmp a c ≤ 0 := by
  induction a generalizing b c with
  | nil => cases c <;> simp [strcmp]
  | cons x s ih =>
    cases b with
    | nil => simp [strcmp] at h1
    | cons y t =>
      cases c with
      | nil => simp [strcmp] at h2
      | cons z u =>
        unfold strcmp at h1 h2 ⊢
        split_ifs at h1 h2 ⊢ <;> first | omega | exact ih t u h1 h2

/-- Below something that is strictly below: strictly below. -/
theorem strcmp_le_lt (a b c : List Nat) (h1 : strcmp a b ≤ 0) (h2 : strcmp b c < 0) :
    strcmp a c < 0 := by
  have h := strcmp_trans a b c h1 (by omega)
  by_cases h0 : strcmp a c = 0
  · have e := strcmp_eq_zero a c h0
    subst e
    have := strcmp_swap a b
    omega
  · omega

/-- Strictly below something that is below: strictly below. -/
theorem strcmp_lt_le (a b c : List Nat) (h1 : strcmp a b < 0) (h2 : strcmp b c ≤ 0) :
    strcmp a c < 0 := by
  have h := strcmp_trans a b c (by omega) h2
  by_cases h0 : strcmp a c = 0
  · have e := strcmp_eq_zero a c h0
    subst e
    have := strcmp_swap a b
    omega
  · omega

/-- The order of `strcmp` is the lexicographic order of the byte lists. -/
theorem strcmp_lt_iff_lex (a b : List Nat) :
    strcmp a b < 0 ↔ List.Lex (fun x y : Nat => x < y) a b := by
  induction a generalizing b with
  | nil =>
    cases b with
    | nil => simp [strcmp]
    | cons y t => simp [strcmp, List.Lex.nil]
  | cons x s ih =>
    cases b with
    | nil => simp [strcmp]
    | cons y t =>
      unfold strcmp
      constructor
      · intro h
        split_ifs at h with h1 h2
        · exact List.Lex.rel h1
        · omega
        · have : x = y := by omega
          subst this
          exact List.Lex.cons ((ih t).mp h)
      · intro h
        cases h with
        | cons h' =>
          simp only [lt_self_iff_false, if_false]
          exact (ih _).mpr h'
        | rel h' => simp [h']

/-! ## The sort of `im_ime_load` -/

/-- One round of the inner loop on a list split at index `j`. -/
theorem ime_sort_step_append (l1 : List im_ime) (x y : im_ime) (r : List im_ime) :
    ime_sort_step (l1 ++ x :: y :: r) l1.length
      = some (l1 ++ (if strcmp x.pre y.pre > 0 then y :: x :: r else x :: y :: r)) := by
  have h0 : (l1 ++ x :: y :: r)[l1.length]? = some x := by
    rw [List.getElem?_append_right (Nat.le_refl _)]
    simp
  have h1 : (l1 ++ x :: y :: r)[l1.length + 1]? = some y := by
    rw [List.getElem?_append_right (Nat.le_succ _)]
    simp
  unfold ime_sort_step
  rw [h0, h1]
  dsimp only
  split_ifs with h
  · congr 1
    rw [List.set_append_right _ _ (Nat.le_refl _)]
    rw [List.set_append_right _ _ (Nat.le_succ _)]
    simp
  · rfl

/-- The inner loop, started at index `l1.length`, acts as `bubble` on the rest
of the list. -/
theorem ime_sort_inner_eq (n : Nat) (l1 l : List im_ime) (h : n < l.length) :
    (List.range' l1.length n).foldlM ime_sort_step (l1 ++ l) = some (l1 ++ bubble n l) := by
  induction n generalizing l1 l with
  | zero => rfl
  | succ n ih =>
    match l, h with
    | x :: y :: r, h =>
      rw [List.range'_succ, List.foldlM_cons, ime_sort_step_append]
      simp only [Option.bind_eq_bind, Option.some_bind]
      by_cases hc : strcmp x.pre y.pre > 0
      · rw [if_pos hc]
        have e := ih (l1 ++ [y]) (x :: r) (by simp at h ⊢; omega)
        simp only [List.length_append, List.length_singleton, List.append_assoc,
          List.singleton_append] at e
        rw [e]
        simp only [bubble, if_pos hc]
      · rw [if_neg hc]
        have e := ih (l1 ++ [x]) (y :: r) (by simp at h ⊢; omega)
        simp only [List.length_append, List.length_singleton, List.append_assoc,
          List.singleton_append] at e
        rw [e]
        simp only [bubble, if_neg hc]

/-- The inner loop of `im_ime_load` with bound `n` is `bubble n`. -/
theorem ime_sort_inner_bubble (n : Nat) (l : List im_ime) (h : n < l.length) :
    (List.range n).foldlM ime_sort_step l = some (bubble n l) := by
  have e := ime_sort_inner_eq n [] l h
  simpa [List.range_eq_range'] using e

/-- The function `bubble` permutes the list. -/
theorem bubble_perm (n : Nat) (l : List im_ime) : (bubble n l).Perm l := by
  induction n generalizing l with
  | zero => exact List.Perm.refl _
  | succ n ih =>
    match l with
    | [] => exact List.Perm.refl _
    | [x] => exact List.Perm.refl _
    | x :: y :: r =>
      unfold bubble
      split_ifs
      · exact ((ih (x :: r)).cons y).trans (List.Perm.swap x y r)
      · exact (ih (y :: r)).cons x

/-- The function `bubble n` touches only the first `n + 1` entries. -/
theorem bubble_append (n : Nat) (l1 l2 : List im_ime) (h : n < l1.length) :
    bubble n (l1 ++ l2) = bubble n l1 ++ l2 := by
  induction n generalizing l1 with
  | zero => rfl
  | succ n ih =>
    match l1, h with
    | x :: y :: r, h =>
      simp only [List.cons_append, bubble]
      split_ifs
      · exact congrArg (List.cons y) (ih (x :: r) (by simp at h ⊢; omega))
      · exact congrArg (List.cons x) (ih (y :: r) (by simp at h ⊢; omega))

/-- A full pass of `bubble` moves a largest entry to the end. -/
theorem bubble_last (n : Nat) (l : List im_ime) (h : n + 1 = l.length) :
    ∃ init m, bubble n l = init ++ [m] ∧ ∀ x ∈ l, strcmp x.pre m.pre ≤ 0 := by
  induction n generalizing l with
  | zero =>
    match l, h with
    | [x], _ =>
      refine ⟨[], x, rfl, fun z hz => ?_⟩
      simp only [List.mem_singleton] at hz
      rw [hz, strcmp_self]
  | succ n ih =>
    match l, h with
    | x :: y :: r, h =>
      unfold bubble
      split_ifs with hc
      · obtain ⟨init, m, e, hm⟩ := ih (x :: r) (by simp at h ⊢; omega)
        refine ⟨y :: init, m, by rw [e]; rfl, fun z hz => ?_⟩
        have hx : strcmp x.pre m.pre ≤ 0 := hm x (List.mem_cons_self _ _)
        simp only [List.mem_cons] at hz
        rcases hz with hz | hz | hz
        · rw [hz]; exact hx
        · rw [hz]
          have := strcmp_swap x.pre y.pre
          exact strcmp_trans _ _ _ (by omega) hx
        · exact hm z (List.mem_cons_of_mem _ hz)
      · obtain ⟨init, m, e, hm⟩ := ih (y :: r) (by simp at h ⊢; omega)
        refine ⟨x :: init, m, by rw [e]; rfl, fun z hz => ?_⟩
        have hy : strcmp y.pre m.pre ≤ 0 := hm y (List.mem_cons_self _ _)
        simp only [List.mem_cons] at hz
        rcases hz with hz | hz | hz
        · rw [hz]
          exact strcmp_trans _ _ _ (by omega) hy
        · rw [hz]; exact hy
        · exact hm z (List.mem_cons_of_mem _ hz)

/-- The invariant of the outer loop of `im_ime_load` before round `i`: the
last `i` entries are in order and no entry before them is larger. -/
theorem ime_sort_outer (len k i : Nat) (front back : List im_ime)
    (hf : front.length + i = len) (hb : back.length = i) (hk : i + k + 1 ≤ len)
    (hs : sorted_by_key back)
    (hfb : ∀ x ∈ front, ∀ y ∈ back, strcmp x.pre y.pre ≤ 0) :
    ∃ front1 back1,
      (List.range' i k).foldlM
          (fun p i => (List.range (len - i - 1)).foldlM ime_sort_step p) (front ++ back)
        = some (front1 ++ back1) ∧
      front1.length + (i + k) = len ∧ back1.length = i + k ∧ sorted_by_key back1 ∧
      (∀ x ∈ front1, ∀ y ∈ back1, strcmp x.pre y.pre ≤ 0) ∧
      (front1 ++ back1).Perm (front ++ back) := by
  induction k generalizing i front back with
  | zero => exact ⟨front, back, rfl, hf, hb, hs, hfb, List.Perm.refl _⟩
  | succ k ih =>
    have hn : len - i - 1 + 1 = front.length := by omega
    obtain ⟨init, m, e, hm⟩ := bubble_last (len - i - 1) front hn
    have hp : (init ++ [m]).Perm front := e ▸ bubble_perm _ _
    have hmem : ∀ z, z ∈ init ++ [m] ↔ z ∈ front := fun z => hp.mem_iff
    have hinner : (List.range (len - i - 1)).foldlM ime_sort_step (front ++ back)
        = some (init ++ (m :: back)) := by
      rw [ime_sort_inner_bubble _ _ (by simp; omega), bubble_append _ _ _ (by omega), e]
      simp
    have hs1 : sorted_by_key (m :: back) := by
      unfold sorted_by_key at hs ⊢
      rw [List.pairwise_cons]
      exact ⟨fun y hy => hfb m ((hmem m).mp (by simp)) y hy, hs⟩
    have hfb1 : ∀ x ∈ init, ∀ y ∈ m :: back, strcmp x.pre y.pre ≤ 0 := by
      intro x hx y hy
      have hxf : x ∈ front := (hmem x).mp (by simp [hx])
      simp only [List.mem_cons] at hy
      rcases hy with hy | hy
      · rw [hy]; exact hm x hxf
      · exact hfb x hxf y hy
    have hl : init.length + 1 = front.length := by
      have := hp.length_eq
      simpa using this
    obtain ⟨f1, b1, e1, h1, h2, h3, h4, h5⟩ :=
      ih (i + 1) init (m :: back) (by omega) (by simp [hb]) (by omega) hs1 hfb1
    refine ⟨f1, b1, ?_, by omega, by omega, h3, h4, ?_⟩
    · rw [List.range'_succ, List.foldlM_cons, hinner]
      simpa using e1
    · refine h5.trans ?_
      have : (init ++ m :: back).Perm ((init ++ [m]) ++ back) := by simp
      exact this.trans (hp.append_right back)

/-- The sort of `im_ime_load` returns a permutation in ascending order. -/
theorem ime_sort_spec (l : List im_ime) (h : l.length ≠ 0) :
    ∃ p, ime_sort l l.length = some p ∧ p.Perm l ∧ sorted_by_key p := by
  obtain ⟨f1, b1, e, h1, h2, h3, h4, h5⟩ :=
    ime_sort_outer l.length (l.length - 1) 0 l [] (by simp) rfl (by omega)
      (by unfold sorted_by_key; exact List.Pairwise.nil) (by simp)
  simp only [List.append_nil, Nat.zero_add] at e h5 h1 h2
  refine ⟨f1 ++ b1, ?_, h5, ?_⟩
  · unfold ime_sort
    rw [List.range_eq_range']
    exact e
  · unfold sorted_by_key at h3 ⊢
    rw [List.pairwise_append]
    refine ⟨?_, h3, h4⟩
    match f1, h1 with
    | [x], _ => exact List.pairwise_singleton _ _
    | [], h1 => simp at h1; omega
    | _ :: _ :: _, h1 => simp at h1; omega

/-- The function `im_ime_load` returns, with the entries the callback left, in
ascending order of their keys. -/
theorem im_ime_load_spec (_im : im) (cb : List im_ime → List im_ime) :
    ∃ p, im_ime_load _im cb = some { _im with pinyin := p } ∧
      p.Perm (cb _im.pinyin) ∧ sorted_by_key p := by
  unfold im_ime_load
  dsimp only
  split_ifs with h
  · refine ⟨cb _im.pinyin, rfl, List.Perm.refl _, ?_⟩
    rw [List.length_eq_zero] at h
    rw [h]
    exact List.Pairwise.nil
  · obtain ⟨p, e, hp, hs⟩ := ime_sort_spec (cb _im.pinyin) h
    exact ⟨p, by rw [e]; rfl, hp, hs⟩

/-! ## The dictionary search of `im_keyboard` -/

/-- The dictionary search on a dictionary in ascending order: with the entries
before `min` below the preedit and the entries after `max` above it, and more
fuel than entries between them, the loop ends; it ends on an entry whose key is
the preedit when there is one, and without a match otherwise. -/
theorem im_lookup_sorted (pinyin : List im_ime) (s : List Nat) (hs : sorted_by_key pinyin)
    (fuel : Nat) (min max : Int) (h0 : 0 ≤ min) (h1 : max < pinyin.length)
    (hfuel : max - min + 1 < fuel) (hpos : 0 < fuel)
    (hlo : ∀ (i : Nat) (hi : i < pinyin.length), (i : Int) < min → strcmp s pinyin[i].pre > 0)
    (hhi : ∀ (i : Nat) (hi : i < pinyin.length), max < (i : Int) → strcmp s pinyin[i].pre < 0) :
    (∃ e ∈ pinyin, e.pre = s ∧ im_lookup pinyin s fuel min max = some (some e)) ∨
    ((∀ e ∈ pinyin, e.pre ≠ s) ∧ im_lookup pinyin s fuel min max = some none) := by
  induction fuel generalizing min max with
  | zero => omega
  | succ fuel ih =>
    unfold im_lookup
    by_cases hmm : min ≤ max
    · rw [if_pos hmm]
      dsimp only
      have hmid0 : 0 ≤ min + (max - min) / 2 := by omega
      have hmidlt : (min + (max - min) / 2).toNat < pinyin.length := by omega
      rw [if_pos hmid0, List.getElem?_eq_getElem hmidlt]
      dsimp only
      have hsorted := List.pairwise_iff_getElem.mp hs
      by_cases hgt : strcmp s pinyin[(min + (max - min) / 2).toNat].pre > 0
      · rw [if_pos hgt]
        apply ih
        · omega
        · exact h1
        · omega
        · omega
        · intro i hi him
          by_cases hlt : (i : Int) < min
          · exact hlo i hi hlt
          · by_cases heq : i = (min + (max - min) / 2).toNat
            · subst heq; exact hgt
            · have hle := hsorted i _ hi hmidlt (by omega)
              have := strcmp_swap s pinyin[(min + (max - min) / 2).toNat].pre
              have h2 := strcmp_lt_le _ _ _ (show strcmp
                pinyin[(min + (max - min) / 2).toNat].pre s < 0 by omega)
                (show strcmp s s ≤ 0 by rw [strcmp_self])
              have h3 := strcmp_le_lt _ _ _ hle h2
              have := strcmp_swap s pinyin[i].pre
              omega
        · exact hhi
      · rw [if_neg hgt]
        by_cases hlt : strcmp s pinyin[(min + (max - min) / 2).toNat].pre < 0
        · rw [if_pos hlt]
          apply ih
          · exact h0
          · omega
          · omega
          · omega
          · exact hlo
          · intro i hi him
            by_cases hgt2 : max < (i : Int)
            · exact hhi i hi hgt2
            · by_cases heq : i = (min + (max - min) / 2).toNat
              · subst heq; exact hlt
              · have hle := hsorted _ i hmidlt hi (by omega)
                exact strcmp_lt_le _ _ _ hlt hle
        · rw [if_neg hlt]
          left
          refine ⟨_, List.getElem_mem _, ?_, rfl⟩
          exact (strcmp_eq_zero _ _ (by omega)).symm
    · rw [if_neg hmm]
      right
      refine ⟨fun e he heq => ?_, rfl⟩
      obtain ⟨i, hi, rfl⟩ := List.getElem_of_mem he
      have hself : strcmp s pinyin[i].pre = 0 := by rw [heq, strcmp_self]
      by_cases hlt : (i : Int) < min
      · have := hlo i hi hlt; omega
      · have := hhi i hi (by omega); omega

/-- The dictionary search as `im_keyboard` starts it, on a dictionary in
ascending order and with more fuel than entries. -/
theorem im_lookup_spec (pinyin : List im_ime) (s : List Nat) (hs : sorted_by_key pinyin)
    (fuel : Nat) (hfuel : pinyin.length < fuel) :
    (∃ e ∈ pinyin, e.pre = s ∧
      im_lookup pinyin s fuel 0 ((pinyin.length : Int) - 1) = some (some e)) ∨
    ((∀ e ∈ pinyin, e.pre ≠ s) ∧
      im_lookup pinyin s fuel 0 ((pinyin.length : Int) - 1) = some none) := by
  apply im_lookup_sorted pinyin s hs
  · exact Int.le_refl _
  · omega
  · omega
  · omega
  · intro i hi h; omega
  · intro i hi h; omega

/-! ## Calls of `im_keyboard` that change the preedit -/

/-- The arm of a letter key. -/
theorem im_keyboard_switch_letter (to_utf8 : Nat → List Nat) (_im : im) (k : im_keycode)
    (handled : Bool) (c : Nat) (h : key_letter k = some c) :
    im_keyboard_switch to_utf8 _im k handled = some (push_letter _im handled c) := by
  cases k <;> simp only [key_letter, Option.some.injEq, reduceCtorEq] at h <;> subst h <;> rfl

/-- The arm of BACKSPACE with a preedit that is not empty. -/
theorem im_keyboard_switch_backspace (to_utf8 : Nat → List Nat) (_im : im) (handled : Bool)
    (h : _im.preedit ≠ []) :
    im_keyboard_switch to_utf8 _im KEY_BACKSPACE handled
      = some ({ state := { _im with preedit := _im.preedit.dropLast }, handled := true,
                output := [] }, true) := by
  have hl : _im.preedit.length ≠ 0 := fun e => h (List.length_eq_zero.mp e)
  show (if _im.preedit.length ≠ 0 then _ else _) = _
  rw [if_pos hl]

/-- After a switch arm that set `changed`, `im_keyboard` clears the candidates
and looks the preedit up: on a dictionary in ascending order, with more fuel
than entries, it returns with the event handled, and either with the
candidates of an entry whose key is the preedit and `selected` 0, or, when the
preedit is empty or is no key, with no candidates and `selected` −1. -/
theorem im_keyboard_changed (to_utf8 : Nat → List Nat) (fuel : Nat) (_im : im)
    (k : im_keycode) (handled : Bool) (r : im_keyboard_result)
    (hsw : im_keyboard_switch to_utf8 _im k handled = some (r, true))
    (hs : sorted_by_key r.state.pinyin) (hfuel : r.state.pinyin.length < fuel) :
    ∃ cands sel,
      im_keyboard to_utf8 fuel _im k handled
        = some { state := { r.state with candidates := cands, selected := sel },
                 handled := true, output := r.output } ∧
      ((r.state.preedit ≠ [] ∧
          ∃ e ∈ r.state.pinyin, e.pre = r.state.preedit ∧ cands = e.cand ∧ sel = 0) ∨
        ((r.state.preedit = [] ∨ ∀ e ∈ r.state.pinyin, e.pre ≠ r.state.preedit) ∧
          cands = [] ∧ sel = -1)) := by
  unfold im_keyboard
  rw [hsw]
  simp only [not_true_eq_false, if_false]
  by_cases hp : r.state.preedit.length = 0
  · rw [if_pos hp]
    exact ⟨[], -1, rfl, Or.inr ⟨Or.inl (List.length_eq_zero.mp hp), rfl, rfl⟩⟩
  · rw [if_neg hp]
    have hne : r.state.preedit ≠ [] := fun e => hp (by rw [e]; rfl)
    rcases im_lookup_spec r.state.pinyin r.state.preedit hs fuel hfuel with
      ⟨e, he, hk, hl⟩ | ⟨hn, hl⟩
    · rw [hl]
      exact ⟨e.cand, 0, rfl, Or.inl ⟨hne, e, he, hk, rfl, rfl⟩⟩
    · rw [hl]
      exact ⟨[], -1, rfl, Or.inr ⟨Or.inr hn, rfl, rfl⟩⟩

/-- A letter key, or BACKSPACE on a preedit that is not empty, on a dictionary
in ascending order: the call returns with the preedit edited, the event
handled, nothing written, and the candidates looked up. -/
theorem im_keyboard_edit (to_utf8 : Nat → List Nat) (fuel : Nat) (_im : im)
    (k : im_keycode) (handled : Bool)
    (hk : (∃ c, key_letter k = some c) ∨ (k = KEY_BACKSPACE ∧ _im.preedit ≠ []))
    (hs : sorted_by_key _im.pinyin) (hfuel : _im.pinyin.length < fuel) :
    ∃ cands sel,
      im_keyboard to_utf8 fuel _im k handled
        = some { state := { _im with preedit := edited_preedit _im k, candidates := cands,
                                     selected := sel },
                 handled := true, output := [] } ∧
      ((edited_preedit _im k ≠ [] ∧
          ∃ e ∈ _im.pinyin, e.pre = edited_preedit _im k ∧ cands = e.cand ∧ sel = 0) ∨
        ((edited_preedit _im k = [] ∨ ∀ e ∈ _im.pinyin, e.pre ≠ edited_preedit _im k) ∧
          cands = [] ∧ sel = -1)) := by
  rcases hk with ⟨c, hc⟩ | ⟨hb, hne⟩
  · have hsw : im_keyboard_switch to_utf8 _im k handled
        = some ({ state := { _im with preedit := _im.preedit ++ [c] }, handled := handled,
                  output := [] }, true) :=
      im_keyboard_switch_letter to_utf8 _im k handled c hc
    obtain ⟨cands, sel, e, h⟩ :=
      im_keyboard_changed to_utf8 fuel _im k handled _ hsw hs hfuel
    have hed : edited_preedit _im k = _im.preedit ++ [c] := by
      unfold edited_preedit; rw [hc]
    rw [hed]
    exact ⟨cands, sel, e, h⟩
  · subst hb
    have hsw := im_keyboard_switch_backspace to_utf8 _im handled hne
    obtain ⟨cands, sel, e, h⟩ :=
      im_keyboard_changed to_utf8 fuel _im KEY_BACKSPACE handled _ hsw hs hfuel
    exact ⟨cands, sel, e, h⟩

/-! ## The invariant of the input method -/

/-- The conversion to `size_t` of an `int` that is not negative. -/
theorem size_t_of_int_nonneg (x : Int) (h0 : 0 ≤ x) (h1 : x < 2 ^ 63) :
    size_t_of_int x = x.toNat := by
  unfold size_t_of_int
  rw [Int.emod_eq_of_lt h0 (by omega)]

/-- The conversion to `size_t` of −1. -/
theorem size_t_of_int_neg_one : size_t_of_int (-1) = 2 ^ 64 - 1 := by decide

/-- The unsigned test `selected < length - 1` on a state that satisfies the
invariant is the signed one. -/
theorem selected_before_last_iff (_im : im) (h : im_inv _im) :
    selected_before_last _im ↔ _im.selected + 1 < _im.candidates.length := by
  obtain ⟨h1, h2, h3, h4⟩ := h
  unfold selected_before_last candidates_last
  by_cases hs : _im.selected = -1
  · have hc := h3.mp hs
    rw [hs, hc]
    simp only [List.length_nil, Nat.cast_zero, Int.zero_sub, Int.reduceNeg]
    rw [size_t_of_int_neg_one]
    simp
  · have hl : 0 < _im.candidates.length := by omega
    rw [size_t_of_int_nonneg _ (by omega) (by omega),
      size_t_of_int_nonneg _ (by omega) (by omega)]
    omega

/-- A call of `im_keyboard` that took a switch arm without `changed`. -/
theorem im_keyboard_unchanged (to_utf8 : Nat → List Nat) (fuel : Nat) (_im : im)
    (k : im_keycode) (handled : Bool) (r : im_keyboard_result)
    (hsw : im_keyboard_switch to_utf8 _im k handled = some (r, false)) :
    im_keyboard to_utf8 fuel _im k handled = some r := by
  unfold im_keyboard
  rw [hsw]
  rfl

/-- A call of `im_keyboard` that took a switch arm which emptied the preedit
and set `changed`. -/
theorem im_keyboard_emptied (to_utf8 : Nat → List Nat) (fuel : Nat) (_im : im)
    (k : im_keycode) (handled : Bool) (r : im_keyboard_result)
    (hsw : im_keyboard_switch to_utf8 _im k handled = some (r, true))
    (hp : r.state.preedit = []) :
    im_keyboard to_utf8 fuel _im k handled
      = some { state := { r.state with candidates := [], selected := -1 },
               handled := true, output := r.output } := by
  unfold im_keyboard
  rw [hsw]
  simp only [not_true_eq_false, if_false]
  rw [if_pos (by rw [hp]; rfl)]

/-- KEY_SPACE with a selected candidate. -/
theorem im_keyboard_space (to_utf8 : Nat → List Nat) (fuel : Nat) (_im : im) (handled : Bool)
    (c : Nat) (h0 : 0 ≤ _im.selected) (hc : _im.candidates[_im.selected.toNat]? = some c) :
    im_keyboard to_utf8 fuel _im KEY_SPACE handled
      = some { state := { _im with preedit := [], candidates := [], selected := -1 },
               handled := true, output := [to_utf8 c] } := by
  have hsw : im_keyboard_switch to_utf8 _im KEY_SPACE handled
      = some ({ state := { _im with preedit := [] }, handled := handled,
                output := [to_utf8 c] }, true) := by
    show (if _im.selected ≥ 0 then _ else _) = _
    rw [if_pos h0, hc]
  exact im_keyboard_emptied to_utf8 fuel _im KEY_SPACE handled _ hsw rfl

/-- KEY_SPACE without a selected candidate. -/
theorem im_keyboard_space_none (to_utf8 : Nat → List Nat) (fuel : Nat) (_im : im)
    (handled : Bool) (h0 : _im.selected < 0) :
    im_keyboard to_utf8 fuel _im KEY_SPACE handled
      = some { state := _im, handled := handled, output := [] } := by
  apply im_keyboard_unchanged
  show (if _im.selected ≥ 0 then _ else _) = _
  rw [if_neg (by omega)]

/-- The invariant, field by field. -/
theorem im_inv_mk (p c : List Nat) (pin : List im_ime) (sel a : Int) (h1 : -1 ≤ sel)
    (h2 : sel < c.length) (h3 : sel = -1 ↔ c = []) (h4 : c.length < 2 ^ 31) :
    im_inv { preedit := p, candidates := c, pinyin := pin, selected := sel, actived := a } :=
  ⟨h1, h2, h3, h4⟩

/-- The invariant holds without candidates and with `selected` −1. -/
theorem im_inv_empty (p : List Nat) (pin : List im_ime) (a : Int) :
    im_inv { preedit := p, candidates := [], pinyin := pin, selected := -1, actived := a } :=
  im_inv_mk p [] pin (-1) a (Int.le_refl _) (by simp) ⟨fun _ => rfl, fun _ => rfl⟩ (by simp)

/-- A list with an index is not empty. -/
theorem ne_nil_of_int_lt (c : List Nat) (x : Int) (h0 : 0 ≤ x) (h : x < c.length) : c ≠ [] := by
  intro e
  rw [e] at h
  simp at h
  omega

/-- One call of `im_keyboard` keeps the invariant, on a dictionary in ascending
order whose entries all have a candidate. -/
theorem im_keyboard_inv (to_utf8 : Nat → List Nat) (fuel : Nat) (_im : im)
    (k : im_keycode) (handled : Bool)
    (hs : sorted_by_key _im.pinyin) (hfuel : _im.pinyin.length < fuel)
    (hcand : ∀ e ∈ _im.pinyin, e.cand ≠ [] ∧ e.cand.length < 2 ^ 31)
    (hinv : im_inv _im) :
    ∃ r, im_keyboard to_utf8 fuel _im k handled = some r ∧ r.state.pinyin = _im.pinyin ∧
      im_inv r.state := by
  have hedit : (∃ c, key_letter k = some c) ∨ (k = KEY_BACKSPACE ∧ _im.preedit ≠ []) →
      ∃ r, im_keyboard to_utf8 fuel _im k handled = some r ∧ r.state.pinyin = _im.pinyin ∧
        im_inv r.state := by
    intro hk
    obtain ⟨cands, sel, e, h⟩ := im_keyboard_edit to_utf8 fuel _im k handled hk hs hfuel
    refine ⟨_, e, rfl, ?_⟩
    rcases h with ⟨-, e0, he0, -, hc, hsel⟩ | ⟨-, hc, hsel⟩
    · obtain ⟨hne, hlen⟩ := hcand e0 he0
      have hpos : 0 < e0.cand.length := List.length_pos.mpr hne
      subst hc hsel
      exact im_inv_mk _ _ _ _ _ (by omega) (by omega)
        ⟨fun h => by omega, fun h => absurd h hne⟩ hlen
    · subst hc hsel
      exact im_inv_empty _ _ _
  have hkeep : ∀ hd, im_keyboard_switch to_utf8 _im k handled
        = some ({ state := _im, handled := hd, output := [] }, false) →
      ∃ r, im_keyboard to_utf8 fuel _im k handled = some r ∧ r.state.pinyin = _im.pinyin ∧
        im_inv r.state := fun hd hsw =>
    ⟨_, im_keyboard_unchanged to_utf8 fuel _im k handled _ hsw, rfl, hinv⟩
  have hclear : im_inv { _im with preedit := [], candidates := [], selected := -1 } :=
    im_inv_empty _ _ _
  obtain ⟨h1, h2, h3, h4⟩ := hinv
  cases k
  case KEY_SPACE =>
    by_cases h0 : 0 ≤ _im.selected
    · have hlt : _im.selected.toNat < _im.candidates.length := by omega
      exact ⟨_, im_keyboard_space to_utf8 fuel _im handled _ h0
        (List.getElem?_eq_getElem hlt), rfl, hclear⟩
    · exact ⟨_, im_keyboard_space_none to_utf8 fuel _im handled (by omega), rfl,
        ⟨h1, h2, h3, h4⟩⟩
  case KEY_RIGHT =>
    by_cases hc : selected_before_last _im
    · have hlt := (selected_before_last_iff _im ⟨h1, h2, h3, h4⟩).mp hc
      have hne := ne_nil_of_int_lt _ _ (by omega) hlt
      refine ⟨_, im_keyboard_unchanged to_utf8 fuel _im KEY_RIGHT handled
        { state := { _im with selected := _im.selected + 1 }, handled := true, output := [] }
        ?_, rfl, ?_⟩
      · show (if selected_before_last _im then _ else _) = _
        rw [if_pos hc]
      · exact im_inv_mk _ _ _ _ _ (by omega) hlt
          ⟨fun h => by omega, fun h => absurd h hne⟩ h4
    · apply hkeep handled
      show (if selected_before_last _im then _ else _) = _
      rw [if_neg hc]
  case KEY_LEFT =>
    by_cases hc : _im.selected > 0
    · have hne := ne_nil_of_int_lt _ _ (by omega) h2
      refine ⟨_, im_keyboard_unchanged to_utf8 fuel _im KEY_LEFT handled
        { state := { _im with selected := _im.selected - 1 }, handled := true, output := [] }
        ?_, rfl, ?_⟩
      · show (if _im.selected > 0 then _ else _) = _
        rw [if_pos hc]
      · exact im_inv_mk _ _ _ _ _ (by omega) (by omega)
          ⟨fun h => by omega, fun h => absurd h hne⟩ h4
    · apply hkeep handled
      show (if _im.selected > 0 then _ else _) = _
      rw [if_neg hc]
  case KEY_HOME =>
    by_cases hc : _im.selected > 0
    · have hne := ne_nil_of_int_lt _ _ (by omega) h2
      refine ⟨_, im_keyboard_unchanged to_utf8 fuel _im KEY_HOME handled
        { state := { _im with selected := 0 }, handled := true, output := [] }
        ?_, rfl, ?_⟩
      · show (if _im.selected > 0 then _ else _) = _
        rw [if_pos hc]
      · exact im_inv_mk _ _ _ _ _ (by omega) (by omega)
          ⟨fun h => by omega, fun h => absurd h hne⟩ h4
    · apply hkeep handled
      show (if _im.selected > 0 then _ else _) = _
      rw [if_neg hc]
  case KEY_END =>
    by_cases hc : selected_before_last _im
    · have hlt := (selected_before_last_iff _im ⟨h1, h2, h3, h4⟩).mp hc
      have hne := ne_nil_of_int_lt _ _ (by omega) hlt
      refine ⟨_, im_keyboard_unchanged to_utf8 fuel _im KEY_END handled
        { state := { _im with selected := (_im.candidates.length : Int) - 1 },
          handled := true, output := [] } ?_, rfl, ?_⟩
      · show (if selected_before_last _im then _ else _) = _
        rw [if_pos hc]
      · exact im_inv_mk _ _ _ _ _ (by omega) (by omega)
          ⟨fun h => by omega, fun h => absurd h hne⟩ h4
    · apply hkeep handled
      show (if selected_before_last _im then _ else _) = _
      rw [if_neg hc]
  case KEY_ENTER =>
    by_cases hc : _im.preedit.length ≠ 0
    · refine ⟨_, im_keyboard_emptied to_utf8 fuel _im KEY_ENTER handled
        { state := { _im with preedit := [] }, handled := true, output := [_im.preedit] }
        ?_ rfl, rfl, hclear⟩
      show (if _im.preedit.length ≠ 0 then _ else _) = _
      rw [if_pos hc]
    · apply hkeep handled
      show (if _im.preedit.length ≠ 0 then _ else _) = _
      rw [if_neg hc]
  case KEY_ESC =>
    exact ⟨_, im_keyboard_unchanged to_utf8 fuel _im KEY_ESC handled
      { state := im_reset _im, handled := true, output := [] } rfl, rfl, hclear⟩
  case KEY_BACKSPACE =>
    by_cases hc : _im.preedit = []
    · apply hkeep handled
      show (if _im.preedit.length ≠ 0 then _ else _) = _
      rw [if_neg (by rw [hc]; simp)]
    · exact hedit (Or.inr ⟨rfl, hc⟩)
  case KEY_other => exact hkeep handled rfl
  all_goals exact hedit (Or.inl ⟨_, rfl⟩)

/-- Every sequence of `im_keyboard` and `im_reset` calls keeps the invariant,
on a dictionary in ascending order whose entries all have a candidate. -/
theorem im_run_inv (to_utf8 : Nat → List Nat) (fuel : Nat) (calls : List im_call) (_im : im)
    (hs : sorted_by_key _im.pinyin) (hfuel : _im.pinyin.length < fuel)
    (hcand : ∀ e ∈ _im.pinyin, e.cand ≠ [] ∧ e.cand.length < 2 ^ 31)
    (hinv : im_inv _im) :
    ∃ m, im_run to_utf8 fuel _im calls = some m ∧ m.pinyin = _im.pinyin ∧ im_inv m := by
  induction calls generalizing _im with
  | nil => exact ⟨_im, rfl, rfl, hinv⟩
  | cons c rest ih =>
    cases c with
    | keyboard k =>
      obtain ⟨r, e, hp, hi⟩ := im_keyboard_inv to_utf8 fuel _im k false hs hfuel hcand hinv
      obtain ⟨m, e1, hp1, hi1⟩ := ih r.state (hp ▸ hs) (hp ▸ hfuel) (hp ▸ hcand) hi
      refine ⟨m, ?_, hp1.trans hp, hi1⟩
      unfold im_run
      rw [e]
      exact e1
    | reset =>
      obtain ⟨m, e1, hp1, hi1⟩ := ih (im_reset _im) hs hfuel hcand (im_inv_empty _ _ _)
      exact ⟨m, e1, hp1, hi1⟩

/-! ## C26: the invariant of the input method -/

/-- C26 fails on a dictionary entry without candidates: with the dictionary
"a" → [] loaded into a new input method, the key KEY_A finds the entry and sets
`selected` to 0 while the candidates stay empty, so `selected < |candidates|`
does not hold; KEY_SPACE then reads `candidates[0]` outside the array. -/
theorem empty_entry_selected :
    ∃ m1 m2, im_ime_load im_new (fun a => a ++ [⟨[0x61], []⟩]) = some m1 ∧
      im_run utf8_encode 2 m1 [im_call.keyboard KEY_A] = some m2 ∧
      m2.preedit = [0x61] ∧ m2.candidates = [] ∧ m2.selected = 0 ∧
      ¬ (m2.selected < m2.candidates.length) ∧
      im_keyboard utf8_encode 2 m2 KEY_SPACE false = none :=
  ⟨_, _, rfl, rfl, rfl, rfl, rfl, by decide, rfl⟩

/-! ## C27: KEY_SPACE -/

/-- C27: with the dictionary entry "ni" → [U+4F60, U+597D], KEY_N then KEY_I
give preedit "ni", candidates [U+4F60, U+597D] and selected 0, and KEY_SPACE
then outputs exactly the bytes E4 BD A0 and empties the preedit.  In general
KEY_SPACE with `selected ≥ 0` an index into the candidates calls the output
callback once, with the encoding of `candidates[selected]`, and leaves preedit
empty, candidates empty and selected −1, while KEY_SPACE with `selected < 0`
outputs nothing, changes no state and leaves `*handled` as it was. -/
theorem space_commits (to_utf8 : Nat → List Nat) (fuel : Nat) (_im : im) (handled : Bool) :
    (∃ m1 r1 r2 r3,
      im_ime_load im_new (fun a => a ++ [⟨[0x6e, 0x69], [0x4F60, 0x597D]⟩]) = some m1 ∧
      im_keyboard utf8_encode 2 m1 KEY_N false = some r1 ∧
      im_keyboard utf8_encode 2 r1.state KEY_I false = some r2 ∧
      r2.state.preedit = [0x6e, 0x69] ∧ r2.state.candidates = [0x4F60, 0x597D] ∧
      r2.state.selected = 0 ∧
      im_keyboard utf8_encode 2 r2.state KEY_SPACE false = some r3 ∧
      r3.output = [[0xE4, 0xBD, 0xA0]] ∧ r3.state.preedit = []) ∧
    (∀ c, 0 ≤ _im.selected → _im.candidates[_im.selected.toNat]? = some c →
      im_keyboard to_utf8 fuel _im KEY_SPACE handled
        = some { state := { _im with preedit := [], candidates := [], selected := -1 },
                 handled := true, output := [to_utf8 c] }) ∧
    (_im.selected < 0 →
      im_keyboard to_utf8 fuel _im KEY_SPACE handled
        = some { state := _im, handled := handled, output := [] }) :=
  ⟨⟨_, _, _, _, rfl, rfl, rfl, rfl, rfl, rfl, rfl, rfl, rfl⟩,
   fun c h0 hc => im_keyboard_space to_utf8 fuel _im handled c h0 hc,
   fun h0 => im_keyboard_space_none to_utf8 fuel _im handled h0⟩

/-- C27 on a state with three candidates and the second selected, and on a new
input method. -/
theorem space_commits_witness :
    im_keyboard utf8_encode 0
        { preedit := [0x61], candidates := [0x41, 0x4F60, 0x42], pinyin := [], selected := 1,
          actived := 1 } KEY_SPACE false
      = some { state := { preedit := [], candidates := [], pinyin := [], selected := -1,
                          actived := 1 },
               handled := true, output := [utf8_encode 0x4F60] } ∧
    im_keyboard utf8_encode 0 im_new KEY_SPACE false
      = some { state := im_new, handled := false, output := [] } :=
  ⟨(space_commits utf8_encode 0
      { preedit := [0x61], candidates := [0x41, 0x4F60, 0x42], pinyin := [], selected := 1,
        actived := 1 } false).2.1 0x4F60 (by decide) rfl,
   (space_commits utf8_encode 0 im_new false).2.2 (by decide)⟩

/-! ## C28, C29: the dictionary search -/

/-- C28: for a dictionary with pairwise distinct keys, supplied in any order to
`im_ime_load`, a letter key, or BACKSPACE on a preedit that is not empty,
returns (with more fuel than entries, so the search ends for every dictionary
size, 0 included) and leaves: when the preedit it made is not empty and is the
key of an entry, exactly that entry's candidates and `selected` 0; otherwise no
candidates and `selected` −1. -/
theorem lookup_distinct_keys (to_utf8 : Nat → List Nat) (fuel : Nat) (m0 m1 _im : im)
    (cb : List im_ime → List im_ime) (k : im_keycode) (handled : Bool)
    (hload : im_ime_load m0 cb = some m1)
    (hdist : (cb m0.pinyin).Pairwise fun e1 e2 => e1.pre ≠ e2.pre)
    (hpin : _im.pinyin = m1.pinyin) (hfuel : _im.pinyin.length < fuel)
    (hk : (∃ c, key_letter k = some c) ∨ (k = KEY_BACKSPACE ∧ _im.preedit ≠ [])) :
    ∃ r, im_keyboard to_utf8 fuel _im k handled = some r ∧
      r.state.preedit = edited_preedit _im k ∧
      (∀ e ∈ cb m0.pinyin, r.state.preedit ≠ [] → e.pre = r.state.preedit →
        r.state.candidates = e.cand ∧ r.state.selected = 0) ∧
      ((r.state.preedit = [] ∨ ∀ e ∈ cb m0.pinyin, e.pre ≠ r.state.preedit) →
        r.state.candidates = [] ∧ r.state.selected = -1) := by
  obtain ⟨p, e, hperm, hsorted⟩ := im_ime_load_spec m0 cb
  rw [hload] at e
  have hp1 : m1.pinyin = p := by
    have := Option.some.inj e
    rw [this]
  have hs : sorted_by_key _im.pinyin := by rw [hpin, hp1]; exact hsorted
  have hmem : ∀ x, x ∈ _im.pinyin ↔ x ∈ cb m0.pinyin := by
    intro x; rw [hpin, hp1]; exact hperm.mem_iff
  obtain ⟨cands, sel, er, h⟩ := im_keyboard_edit to_utf8 fuel _im k handled hk hs hfuel
  refine ⟨_, er, rfl, ?_, ?_⟩
  · intro x hx hne hxk
    rcases h with ⟨-, e0, he0, hk0, hc, hsel⟩ | ⟨hn, -, -⟩
    · have hx0 : x = e0 := by
        by_contra hne0
        exact List.Pairwise.forall (fun _ _ h => Ne.symm h) hdist hx ((hmem e0).mp he0) hne0
          (hxk.trans hk0.symm)
      rw [hx0]
      exact ⟨hc, hsel⟩
    · rcases hn with hn | hn
      · exact absurd hn hne
      · exact absurd hxk (hn x ((hmem x).mpr hx))
  · intro hno
    rcases h with ⟨hne, e0, he0, hk0, -, -⟩ | ⟨-, hc, hsel⟩
    · rcases hno with hno | hno
      · exact absurd hno hne
      · exact absurd hk0 (hno e0 ((hmem e0).mp he0))
    · exact ⟨hc, hsel⟩

/-- C28 on the dictionary "b" → [2], "a" → [1], supplied in this order: the
key KEY_A on the loaded input method finds the candidates of "a". -/
theorem lookup_distinct_keys_witness :
    ∃ r, im_keyboard utf8_encode 3
        { im_new with pinyin := [⟨[0x61], [1]⟩, ⟨[0x62], [2]⟩] } KEY_A false = some r ∧
      r.state.preedit = edited_preedit
        { im_new with pinyin := [⟨[0x61], [1]⟩, ⟨[0x62], [2]⟩] } KEY_A ∧
      (∀ e ∈ (fun a => a ++ [⟨[0x62], [2]⟩, ⟨[0x61], [1]⟩] : List im_ime → List im_ime)
          im_new.pinyin,
        r.state.preedit ≠ [] → e.pre = r.state.preedit →
        r.state.candidates = e.cand ∧ r.state.selected = 0) ∧
      ((r.state.preedit = [] ∨
          ∀ e ∈ (fun a => a ++ [⟨[0x62], [2]⟩, ⟨[0x61], [1]⟩] : List im_ime → List im_ime)
            im_new.pinyin, e.pre ≠ r.state.preedit) →
        r.state.candidates = [] ∧ r.state.selected = -1) :=
  lookup_distinct_keys utf8_encode 3 im_new
    { im_new with pinyin := [⟨[0x61], [1]⟩, ⟨[0x62], [2]⟩] }
    { im_new with pinyin := [⟨[0x61], [1]⟩, ⟨[0x62], [2]⟩] }
    (fun a => a ++ [⟨[0x62], [2]⟩, ⟨[0x61], [1]⟩]) KEY_A false
    (by decide) (by decide) rfl (by decide) (Or.inl ⟨0x61, rfl⟩)

/-- C29 fails as stated: of three entries with the key "a", in the order
[1], [2], [3] of their candidates in the sorted dictionary, the search meets the
middle one first, so KEY_A leaves the candidates [2] and not those of the
left-most entry, [1]. -/
theorem equal_keys_middle_entry :
    ∃ m1 r,
      im_ime_load im_new (fun a => a ++ [⟨[0x61], [1]⟩, ⟨[0x61], [2]⟩, ⟨[0x61], [3]⟩])
        = some m1 ∧
      m1.pinyin = [⟨[0x61], [1]⟩, ⟨[0x61], [2]⟩, ⟨[0x61], [3]⟩] ∧
      im_keyboard utf8_encode 4 m1 KEY_A false = some r ∧
      r.state.preedit = [0x61] ∧ r.state.candidates = [2] ∧ r.state.selected = 0 ∧
      (m1.pinyin.find? fun e => e.pre = r.state.preedit) = some ⟨[0x61], [1]⟩ :=
  ⟨_, _, rfl, rfl, rfl, rfl, rfl, rfl, by decide⟩

/-- C29 as amended: when one or several dictionary entries have a key equal to
the preedit a letter key or BACKSPACE made, the lookup leaves the candidates of
one of these entries of the sorted dictionary (the one the binary search meets
first, not always the left-most) and `selected` 0. -/
theorem lookup_equal_keys (to_utf8 : Nat → List Nat) (fuel : Nat) (m0 m1 _im : im)
    (cb : List im_ime → List im_ime) (k : im_keycode) (handled : Bool)
    (hload : im_ime_load m0 cb = some m1)
    (hpin : _im.pinyin = m1.pinyin) (hfuel : _im.pinyin.length < fuel)
    (hk : (∃ c, key_letter k = some c) ∨ (k = KEY_BACKSPACE ∧ _im.preedit ≠ []))
    (hne : edited_preedit _im k ≠ [])
    (hex : ∃ e ∈ cb m0.pinyin, e.pre = edited_preedit _im k) :
    ∃ r, im_keyboard to_utf8 fuel _im k handled = some r ∧
      r.state.preedit = edited_preedit _im k ∧
      ∃ e ∈ _im.pinyin, e.pre = r.state.preedit ∧ r.state.candidates = e.cand ∧
        r.state.selected = 0 := by
  obtain ⟨p, e, hperm, hsorted⟩ := im_ime_load_spec m0 cb
  rw [hload] at e
  have hp1 : m1.pinyin = p := by
    have := Option.some.inj e
    rw [this]
  have hs : sorted_by_key _im.pinyin := by rw [hpin, hp1]; exact hsorted
  have hmem : ∀ x, x ∈ _im.pinyin ↔ x ∈ cb m0.pinyin := by
    intro x; rw [hpin, hp1]; exact hperm.mem_iff
  obtain ⟨cands, sel, er, h⟩ := im_keyboard_edit to_utf8 fuel _im k handled hk hs hfuel
  refine ⟨_, er, rfl, ?_⟩
  rcases h with ⟨-, e0, he0, hk0, hc, hsel⟩ | ⟨hn, -, -⟩
  · exact ⟨e0, he0, hk0, hc, hsel⟩
  · obtain ⟨x, hx, hxk⟩ := hex
    rcases hn with hn | hn
    · exact absurd hn hne
    · exact absurd hxk (hn x ((hmem x).mpr hx))

/-- The amended C29 on the dictionary with three entries of key "a". -/
theorem lookup_equal_keys_witness :
    ∃ r, im_keyboard utf8_encode 4
        { im_new with pinyin := [⟨[0x61], [1]⟩, ⟨[0x61], [2]⟩, ⟨[0x61], [3]⟩] } KEY_A false
        = some r ∧
      r.state.preedit = edited_preedit
        { im_new with pinyin := [⟨[0x61], [1]⟩, ⟨[0x61], [2]⟩, ⟨[0x61], [3]⟩] } KEY_A ∧
      ∃ e ∈ [(⟨[0x61], [1]⟩ : im_ime), ⟨[0x61], [2]⟩, ⟨[0x61], [3]⟩],
        e.pre = r.state.preedit ∧ r.state.candidates = e.cand ∧ r.state.selected = 0 :=
  lookup_equal_keys utf8_encode 4 im_new
    { im_new with pinyin := [⟨[0x61], [1]⟩, ⟨[0x61], [2]⟩, ⟨[0x61], [3]⟩] }
    { im_new with pinyin := [⟨[0x61], [1]⟩, ⟨[0x61], [2]⟩, ⟨[0x61], [3]⟩] }
    (fun a => a ++ [⟨[0x61], [1]⟩, ⟨[0x61], [2]⟩, ⟨[0x61], [3]⟩]) KEY_A false
    (by decide) rfl (by decide) (Or.inl ⟨0x61, rfl⟩) (by decide)
    ⟨⟨[0x61], [1]⟩, by decide, rfl⟩

/-! ## C30: the dictionary after `im_ime_load` -/

/-- C30: whatever entries the loader callback leaves in the dictionary,
`im_ime_load` returns with a permutation of them (each entry whole, key and
candidates together) that is in ascending order of the keys: under `strcmp`,
that is, in the lexicographic order of the bytes. -/
theorem im_ime_load_sorted (_im : im) (cb : List im_ime → List im_ime) :
    ∃ p, im_ime_load _im cb = some { _im with pinyin := p } ∧
      p.Perm (cb _im.pinyin) ∧ sorted_by_key p ∧
      p.Pairwise fun e1 e2 =>
        e1.pre = e2.pre ∨ List.Lex (fun x y : Nat => x < y) e1.pre e2.pre := by
  obtain ⟨p, e, hp, hs⟩ := im_ime_load_spec _im cb
  refine ⟨p, e, hp, hs, ?_⟩
  unfold sorted_by_key at hs
  refine hs.imp fun {a b} h => ?_
  by_cases h0 : strcmp a.pre b.pre = 0
  · exact Or.inl (strcmp_eq_zero _ _ h0)
  · exact Or.inr ((strcmp_lt_iff_lex _ _).mp (by omega))

/-! ## C31: the selection keys -/

/-- KEY_LEFT and KEY_HOME on any state. -/
theorem im_keyboard_left_home (to_utf8 : Nat → List Nat) (fuel : Nat) (_im : im)
    (handled : Bool) :
    im_keyboard to_utf8 fuel _im KEY_LEFT handled
      = some (if _im.selected > 0 then
          { state := { _im with selected := _im.selected - 1 }, handled := true, output := [] }
        else { state := _im, handled := handled, output := [] }) ∧
    im_keyboard to_utf8 fuel _im KEY_HOME handled
      = some (if _im.selected > 0 then
          { state := { _im with selected := 0 }, handled := true, output := [] }
        else { state := _im, handled := handled, output := [] }) := by
  constructor <;> apply im_keyboard_unchanged <;>
    show (if _im.selected > 0 then _ else _) = _ <;> split_ifs <;> rfl

/-- KEY_RIGHT and KEY_END on any state, by the unsigned test. -/
theorem im_keyboard_right_end (to_utf8 : Nat → List Nat) (fuel : Nat) (_im : im)
    (handled : Bool) :
    im_keyboard to_utf8 fuel _im KEY_RIGHT handled
      = some (if selected_before_last _im then
          { state := { _im with selected := _im.selected + 1 }, handled := true, output := [] }
        else { state := _im, handled := handled, output := [] }) ∧
    im_keyboard to_utf8 fuel _im KEY_END handled
      = some (if selected_before_last _im then
          { state := { _im with selected := (_im.candidates.length : Int) - 1 },
            handled := true, output := [] }
        else { state := _im, handled := handled, output := [] }) := by
  constructor <;> apply im_keyboard_unchanged <;>
    show (if selected_before_last _im then _ else _) = _ <;> split_ifs <;> rfl

/-- C31 fails as stated: with the candidates [1, 2] of the entry "a" and the
first one selected, KEY_LEFT changes nothing and does not mark the event
handled; nor does KEY_RIGHT on a new input method, which has no candidates. -/
theorem left_at_first_not_handled :
    ∃ m1 r1 r2 r3,
      im_ime_load im_new (fun a => a ++ [⟨[0x61], [1, 2]⟩]) = some m1 ∧
      im_keyboard utf8_encode 2 m1 KEY_A false = some r1 ∧
      r1.state.candidates = [1, 2] ∧ r1.state.selected = 0 ∧
      im_keyboard utf8_encode 2 r1.state KEY_LEFT false = some r2 ∧
      r2.handled = false ∧ r2.state = r1.state ∧
      im_keyboard utf8_encode 2 im_new KEY_RIGHT false = some r3 ∧
      r3.handled = false ∧ r3.state = im_new :=
  ⟨_, _, _, _, rfl, rfl, rfl, rfl, rfl, rfl, rfl, rfl, rfl, rfl⟩

/-- C31 as amended: none of KEY_RIGHT, KEY_LEFT, KEY_HOME, KEY_END changes
preedit or candidates or writes anything, and none starts a lookup.  On a state
where `selected` is −1 without candidates and an index into them otherwise,
RIGHT moves `selected` by +1 when it is not the last index, LEFT by −1 when it
is above 0, HOME sets it to 0 when it is above 0, and END sets it to
`|candidates| − 1` when it is not the last index; a key that moves `selected`
marks the event handled, and a key that does not leaves the state and
`*handled` as they were.  `selected` stays −1 or an index. -/
theorem selection_keys (to_utf8 : Nat → List Nat) (fuel : Nat) (_im : im) (handled : Bool) :
    (∀ k ∈ [KEY_RIGHT, KEY_LEFT, KEY_HOME, KEY_END],
      ∃ r, im_keyboard to_utf8 fuel _im k handled = some r ∧
        r.state.preedit = _im.preedit ∧ r.state.candidates = _im.candidates ∧
        r.state.pinyin = _im.pinyin ∧ r.output = [] ∧
        (im_inv _im → im_inv r.state)) ∧
    im_keyboard to_utf8 fuel _im KEY_LEFT handled
      = some (if _im.selected > 0 then
          { state := { _im with selected := _im.selected - 1 }, handled := true, output := [] }
        else { state := _im, handled := handled, output := [] }) ∧
    im_keyboard to_utf8 fuel _im KEY_HOME handled
      = some (if _im.selected > 0 then
          { state := { _im with selected := 0 }, handled := true, output := [] }
        else { state := _im, handled := handled, output := [] }) ∧
    (im_inv _im →
      im_keyboard to_utf8 fuel _im KEY_RIGHT handled
        = some (if _im.selected + 1 < _im.candidates.length then
            { state := { _im with selected := _im.selected + 1 }, handled := true,
              output := [] }
          else { state := _im, handled := handled, output := [] }) ∧
      im_keyboard to_utf8 fuel _im KEY_END handled
        = some (if _im.selected + 1 < _im.candidates.length then
            { state := { _im with selected := (_im.candidates.length : Int) - 1 },
              handled := true, output := [] }
          else { state := _im, handled := handled, output := [] })) := by
  obtain ⟨hl, hh⟩ := im_keyboard_left_home to_utf8 fuel _im handled
  obtain ⟨hr, he⟩ := im_keyboard_right_end to_utf8 fuel _im handled
  refine ⟨fun k hk => ?_, hl, hh, fun hinv => ?_⟩
  · simp only [List.mem_cons, List.mem_singleton, List.not_mem_nil, or_false] at hk
    rcases hk with hk | hk | hk | hk <;> subst hk
    · rw [hr]
      split_ifs with hc
      · refine ⟨_, rfl, rfl, rfl, rfl, rfl, fun hinv => ?_⟩
        have hlt := (selected_before_last_iff _im hinv).mp hc
        obtain ⟨h1, h2, h3, h4⟩ := hinv
        exact im_inv_mk _ _ _ _ _ (by omega) hlt
          ⟨fun h => by omega, fun h => absurd h (ne_nil_of_int_lt _ _ (by omega) hlt)⟩ h4
      · exact ⟨_, rfl, rfl, rfl, rfl, rfl, fun hinv => hinv⟩
    · rw [hl]
      split_ifs with hc
      · refine ⟨_, rfl, rfl, rfl, rfl, rfl, fun hinv => ?_⟩
        obtain ⟨h1, h2, h3, h4⟩ := hinv
        exact im_inv_mk _ _ _ _ _ (by omega) (by omega)
          ⟨fun h => by omega, fun h => absurd h (ne_nil_of_int_lt _ _ (by omega) h2)⟩ h4
      · exact ⟨_, rfl, rfl, rfl, rfl, rfl, fun hinv => hinv⟩
    · rw [hh]
      split_ifs with hc
      · refine ⟨_, rfl, rfl, rfl, rfl, rfl, fun hinv => ?_⟩
        obtain ⟨h1, h2, h3, h4⟩ := hinv
        exact im_inv_mk _ _ _ _ _ (by omega) (by omega)
          ⟨fun h => by omega, fun h => absurd h (ne_nil_of_int_lt _ _ (by omega) h2)⟩ h4
      · exact ⟨_, rfl, rfl, rfl, rfl, rfl, fun hinv => hinv⟩
    · rw [he]
      split_ifs with hc
      · refine ⟨_, rfl, rfl, rfl, rfl, rfl, fun hinv => ?_⟩
        have hlt := (selected_before_last_iff _im hinv).mp hc
        obtain ⟨h1, h2, h3, h4⟩ := hinv
        exact im_inv_mk _ _ _ _ _ (by omega) (by omega)
          ⟨fun h => by omega, fun h => absurd h (ne_nil_of_int_lt _ _ (by omega) hlt)⟩ h4
      · exact ⟨_, rfl, rfl, rfl, rfl, rfl, fun hinv => hinv⟩
  · have hiff := selected_before_last_iff _im hinv
    constructor
    · rw [hr]
      by_cases hc : selected_before_last _im
      · rw [if_pos hc, if_pos (hiff.mp hc)]
      · rw [if_neg hc, if_neg (fun h => hc (hiff.mpr h))]
    · rw [he]
      by_cases hc : selected_before_last _im
      · rw [if_pos hc, if_pos (hiff.mp hc)]
      · rw [if_neg hc, if_neg (fun h => hc (hiff.mpr h))]

/-- The amended C31 on three candidates with the second selected: RIGHT and
END move to the third and mark the event handled. -/
theorem selection_keys_witness :
    im_keyboard utf8_encode 0
        { preedit := [0x61], candidates := [7, 8, 9], pinyin := [], selected := 1,
          actived := 1 } KEY_RIGHT false
      = some { state := { preedit := [0x61], candidates := [7, 8, 9], pinyin := [],
                          selected := 2, actived := 1 },
               handled := true, output := [] } ∧
    im_keyboard utf8_encode 0
        { preedit := [0x61], candidates := [7, 8, 9], pinyin := [], selected := 1,
          actived := 1 } KEY_END false
      = some { state := { preedit := [0x61], candidates := [7, 8, 9], pinyin := [],
                          selected := 2, actived := 1 },
               handled := true, output := [] } :=
  ⟨((selection_keys utf8_encode 0
      { preedit := [0x61], candidates := [7, 8, 9], pinyin := [], selected := 1,
        actived := 1 } false).2.2.2
      (im_inv_mk _ _ _ _ _ (by decide) (by decide) (by decide) (by decide))).1.trans
      (by decide),
   ((selection_keys utf8_encode 0
      { preedit := [0x61], candidates := [7, 8, 9], pinyin := [], selected := 1,
        actived := 1 } false).2.2.2
      (im_inv_mk _ _ _ _ _ (by decide) (by decide) (by decide) (by decide))).2.trans
      (by decide)⟩

/-! ## C32: KEY_ENTER and KEY_ESC -/

/-- C32: KEY_ENTER with a preedit that is not empty calls the output callback
once, with the bytes of the preedit in order, leaves preedit empty, candidates
empty and `selected` −1, and marks the event handled; KEY_ESC, in every state,
leaves preedit empty, candidates empty and `selected` −1, writes nothing and
marks the event handled. -/
theorem enter_and_esc (to_utf8 : Nat → List Nat) (fuel : Nat) (_im : im) (handled : Bool) :
    (_im.preedit ≠ [] →
      im_keyboard to_utf8 fuel _im KEY_ENTER handled
        = some { state := { _im with preedit := [], candidates := [], selected := -1 },
                 handled := true, output := [_im.preedit] }) ∧
    im_keyboard to_utf8 fuel _im KEY_ESC handled
      = some { state := { _im with preedit := [], candidates := [], selected := -1 },
               handled := true, output := [] } := by
  constructor
  · intro hne
    have hc : _im.preedit.length ≠ 0 := fun e => hne (List.length_eq_zero.mp e)
    refine im_keyboard_emptied to_utf8 fuel _im KEY_ENTER handled
      { state := { _im with preedit := [] }, handled := true, output := [_im.preedit] }
      ?_ rfl
    show (if _im.preedit.length ≠ 0 then _ else _) = _
    rw [if_pos hc]
  · exact im_keyboard_unchanged to_utf8 fuel _im KEY_ESC handled
      { state := im_reset _im, handled := true, output := [] } rfl

/-- C32 on the preedit "ni" with two candidates. -/
theorem enter_and_esc_witness :
    im_keyboard utf8_encode 0
        { preedit := [0x6e, 0x69], candidates := [0x4F60, 0x597D], pinyin := [],
          selected := 0, actived := 1 } KEY_ENTER false
      = some { state := { preedit := [], candidates := [], pinyin := [], selected := -1,
                          actived := 1 },
               handled := true, output := [[0x6e, 0x69]] } :=
  (enter_and_esc utf8_encode 0
    { preedit := [0x6e, 0x69], candidates := [0x4F60, 0x597D], pinyin := [],
      selected := 0, actived := 1 } false).1 (by decide)

/-! ## C33: the ring is a FIFO of bytes -/

/-- The content of a chain with one more entry at the end. -/
theorem ring_entries_content_append (l1 l2 : List ring_entry) :
    ring_entries_content (l1 ++ l2) = ring_entries_content l1 ++ ring_entries_content l2 := by
  induction l1 with
  | nil => rfl
  | cons e r ih =>
    show e.buf ++ ring_entries_content (r ++ l2) = (e.buf ++ _) ++ _
    rw [ih, List.append_assoc]

/-- The entry `kmscon_ring_write` writes to: it has room, and with the entries
before it, it makes up the content of the ring. -/
theorem ring_write_entry_spec (entries : List ring_entry) :
    (ring_write_entry entries).2.len < RING_SIZE ∧
    ring_entries_content ((ring_write_entry entries).1 ++ [(ring_write_entry entries).2])
      = ring_entries_content entries ∧
    (ring_entries_wf entries → ring_entries_wf (ring_write_entry entries).1) := by
  rcases List.eq_nil_or_concat entries with h | ⟨init, ent, h⟩
  · subst h
    exact ⟨by decide, rfl, fun h => h⟩
  · rw [List.concat_eq_append] at h
    subst h
    have hl : (init ++ [ent]).getLast? = some ent := by simp
    unfold ring_write_entry
    rw [hl]
    dsimp only
    split_ifs with hc
    · refine ⟨(by decide : (0 : Nat) < 512), ?_, fun h => h⟩
      rw [ring_entries_content_append]
      show _ ++ ([] ++ []) = _
      simp
    · refine ⟨(by omega : ent.len < RING_SIZE), ?_, fun h e he => ?_⟩
      · rw [List.dropLast_concat]
      · rw [List.dropLast_concat] at he
        exact h e (List.mem_append_left _ he)

/-- The loop of `kmscon_ring_write` ends within as many rounds as there are
bytes, and appends the bytes to the content. -/
theorem ring_write_loop_spec (fuel : Nat) (entries : List ring_entry) (val : List Int)
    (hv : val ≠ []) (hf : val.length ≤ fuel) :
    ∃ es, ring_write_loop fuel entries val = some es ∧
      ring_entries_content es = ring_entries_content entries ++ val ∧
      (ring_entries_wf entries → ring_entries_wf es) := by
  induction fuel generalizing entries val with
  | zero =>
    have : val.length = 0 := by omega
    exact absurd (List.length_eq_zero.mp this) hv
  | succ fuel ih =>
    obtain ⟨hroom, hcont, hwf⟩ := ring_write_entry_spec entries
    have hpos : 0 < val.length := List.length_pos.mpr hv
    unfold ring_write_loop
    generalize ring_write_entry entries = p at hroom hcont hwf
    obtain ⟨before, ent⟩ := p
    dsimp only at hroom hcont hwf ⊢
    have hcp : 0 < (if val.length ≥ RING_SIZE - ent.len then RING_SIZE - ent.len
        else val.length) := by
      split_ifs <;> omega
    have hcple : (if val.length ≥ RING_SIZE - ent.len then RING_SIZE - ent.len
        else val.length) ≤ RING_SIZE - ent.len := by
      split_ifs <;> omega
    generalize (if val.length ≥ RING_SIZE - ent.len then RING_SIZE - ent.len
      else val.length) = cp at hcp hcple
    have hc1 : ring_entries_content (before ++ [{ buf := ent.buf ++ val.take cp }])
        = ring_entries_content entries ++ val.take cp := by
      rw [← hcont, ring_entries_content_append, ring_entries_content_append]
      show _ ++ ((ent.buf ++ List.take cp val) ++ []) = (_ ++ (ent.buf ++ [])) ++ _
      simp
    have hw1 : ring_entries_wf entries →
        ring_entries_wf (before ++ [{ buf := ent.buf ++ val.take cp }]) := by
      intro h e he
      rcases List.mem_append.mp he with he | he
      · exact hwf h e he
      · rw [List.mem_singleton] at he
        subst he
        have hlen : (ent.buf ++ List.take cp val).length = ent.buf.length + min cp val.length := by
          rw [List.length_append, List.length_take]
        show 0 < (ent.buf ++ List.take cp val).length ∧
          (ent.buf ++ List.take cp val).length ≤ RING_SIZE
        have : ent.buf.length < RING_SIZE := hroom
        have : cp ≤ RING_SIZE - ent.buf.length := hcple
        rw [hlen]
        omega
    split_ifs with hgo
    · have hne : val.drop cp ≠ [] := fun e => by rw [e] at hgo; simp at hgo
      have hlen : (val.drop cp).length ≤ fuel := by
        rw [List.length_drop]; omega
      obtain ⟨es, e, hc, hw⟩ := ih _ (val.drop cp) hne hlen
      refine ⟨es, e, ?_, fun h => hw (hw1 h)⟩
      rw [hc, hc1, List.append_assoc, List.take_append_drop]
    · refine ⟨_, rfl, ?_, hw1⟩
      have hd : val.drop cp = [] := by
        apply List.length_eq_zero.mp
        omega
      rw [hc1]
      conv_rhs => rw [← List.take_append_drop cp val, hd, List.append_nil]

/-- The loop of `kmscon_ring_drop` removes the first `len` bytes of the
content, all of it when there are fewer. -/
theorem ring_drop_loop_spec (entries : List ring_entry) (len : Nat) :
    ring_entries_content (ring_drop_loop entries len) = (ring_entries_content entries).drop len ∧
    (ring_entries_wf entries → ring_entries_wf (ring_drop_loop entries len)) := by
  induction entries generalizing len with
  | nil => exact ⟨by simp [ring_drop_loop, ring_entries_content], fun h => h⟩
  | cons ent rest ih =>
    have hrest : ring_entries_wf (ent :: rest) → ring_entries_wf rest :=
      fun h e he => h e (List.mem_cons_of_mem _ he)
    unfold ring_drop_loop
    split_ifs with h1 h2
    · obtain ⟨c, w⟩ := ih (len - ent.len)
      refine ⟨?_, fun h => w (hrest h)⟩
      rw [c]
      show _ = (ent.buf ++ ring_entries_content rest).drop len
      rw [List.drop_append_eq_append_drop, List.drop_eq_nil_of_le h1]
      rfl
    · refine ⟨?_, hrest⟩
      have : len = ent.buf.length := by
        have : ent.len = ent.buf.length := rfl
        omega
      show _ = (ent.buf ++ ring_entries_content rest).drop len
      rw [this, List.drop_left]
    · refine ⟨?_, fun h e he => ?_⟩
      · show ent.buf.drop len ++ ring_entries_content rest
          = (ent.buf ++ ring_entries_content rest).drop len
        have hlt : len ≤ ent.buf.length := by
          have : ent.len = ent.buf.length := rfl
          omega
        rw [List.drop_append_of_le_length hlt]
      · rcases List.mem_cons.mp he with he | he
        · subst he
          have hb := h ent (List.mem_cons_self _ _)
          have : ent.len = ent.buf.length := rfl
          show 0 < (ent.buf.drop len).length ∧ (ent.buf.drop len).length ≤ RING_SIZE
          rw [List.length_drop]
          omega
        · exact h e (List.mem_cons_of_mem _ he)

/-- C33: with the content of a ring the bytes of its entries from first to
last, `kmscon_ring_write` of `len > 0` bytes returns 0 (within `len` rounds of
its loop, `malloc` succeeding) and appends exactly these bytes, however many
entries they span; `kmscon_ring_drop (n)` removes exactly the first
`min (n, total)` bytes; and on a ring built from `kmscon_ring_new` by writes and
drops (a ring without an empty or an over-full entry, which writes and drops
keep) `kmscon_ring_peek` returns a non-empty prefix of the content when the
content is not empty and NULL when it is, and `kmscon_ring_is_empty` is true
exactly when the content is empty. -/
theorem ring_fifo (ring : kmscon_ring) :
    (∀ (val : List Int) (fuel : Nat), val ≠ [] → val.length ≤ fuel →
      ∃ r, kmscon_ring_write fuel ring val = some (0, r) ∧
        ring_content r = ring_content ring ++ val ∧ (ring_wf ring → ring_wf r)) ∧
    (∀ n : Nat,
      ring_content (kmscon_ring_drop ring n)
        = (ring_content ring).drop (min n (ring_content ring).length) ∧
      (ring_wf ring → ring_wf (kmscon_ring_drop ring n))) ∧
    ring_wf kmscon_ring_new ∧ ring_content kmscon_ring_new = [] ∧
    (ring_wf ring →
      (ring_content ring ≠ [] →
        ∃ p, kmscon_ring_peek ring = some p ∧ p ≠ [] ∧ p <+: ring_content ring) ∧
      (ring_content ring = [] → kmscon_ring_peek ring = none) ∧
      (kmscon_ring_is_empty ring = true ↔ ring_content ring = [])) := by
  refine ⟨fun val fuel hv hf => ?_, fun n => ?_, fun e he => (by cases he), rfl, fun hw => ?_⟩
  · obtain ⟨es, e, c, w⟩ := ring_write_loop_spec fuel ring.entries val hv hf
    have hl : val.length ≠ 0 := fun h => hv (List.length_eq_zero.mp h)
    refine ⟨{ entries := es }, ?_, c, w⟩
    unfold kmscon_ring_write
    rw [if_neg hl, e]
    rfl
  · have hmin : (ring_content ring).drop (min n (ring_content ring).length)
        = (ring_content ring).drop n := by
      by_cases h : n ≤ (ring_content ring).length
      · rw [Nat.min_eq_left h]
      · rw [Nat.min_eq_right (by omega), List.drop_length,
          List.drop_eq_nil_of_le (by omega)]
    rw [hmin]
    unfold kmscon_ring_drop
    split_ifs with h0
    · subst h0
      exact ⟨by simp, fun h => h⟩
    · exact ring_drop_loop_spec ring.entries n
  · obtain ⟨entries⟩ := ring
    cases entries with
    | nil =>
      exact ⟨fun h => absurd rfl h, fun _ => rfl, ⟨fun _ => rfl, fun _ => rfl⟩⟩
    | cons ent rest =>
      have hpos : 0 < ent.buf.length := (hw ent (List.mem_cons_self _ _)).1
      have hne : ent.buf ≠ [] := List.length_pos.mp hpos
      have hc : ring_content { entries := ent :: rest } ≠ [] := by
        show ent.buf ++ _ ≠ []
        simp [hne]
      refine ⟨fun _ => ⟨ent.buf, rfl, hne, ?_⟩, fun h => absurd h hc, ⟨fun h => ?_, fun h => ?_⟩⟩
      · exact List.prefix_append _ _
      · exact absurd h (by simp [kmscon_ring_is_empty])
      · exact absurd h hc

/-- C33 on a write of 1100 bytes, which spans three entries of a new ring. -/
theorem ring_fifo_witness :
    ∃ r, kmscon_ring_write 1100 kmscon_ring_new (List.replicate 1100 0x41) = some (0, r) ∧
      ring_content r = ring_content kmscon_ring_new ++ List.replicate 1100 0x41 ∧
      (ring_wf kmscon_ring_new → ring_wf r) :=
  (ring_fifo kmscon_ring_new).1 (List.replicate 1100 0x41) 1100
    (by rw [Ne, ← List.length_eq_zero, List.length_replicate]; decide)
    (by rw [List.length_replicate])

/-! ## C34: removing a hook entry while the hook is called -/

/-- One round of the loop of `kmscon_hook_call` on the first entry of a hook,
whose callback removes that entry: `kmscon_hook_rm` moves `cur_entry` to the
second entry, and the loop then moves it on once more, past the second entry,
whose callback is not called. -/
theorem hook_call_loop_rm_self (invoke : hook_entry → kmscon_hook → kmscon_hook)
    (fuel : Nat) (e1 e2 : hook_entry) (rest called : List hook_entry) (hcb : e1.cb ≠ 0)
    (hinv : invoke e1 { entries := e1 :: e2 :: rest, cur_entry := some e1.addr }
      = kmscon_hook_rm { entries := e1 :: e2 :: rest, cur_entry := some e1.addr } e1.cb) :
    hook_call_loop invoke (fuel + 1)
        { entries := e1 :: e2 :: rest, cur_entry := some e1.addr } called
      = hook_call_loop invoke fuel
          { entries := e2 :: rest, cur_entry := rest.head?.map fun e => e.addr }
          (called ++ [e1]) := by
  have hrm : kmscon_hook_rm { entries := e1 :: e2 :: rest, cur_entry := some e1.addr } e1.cb
      = { entries := e2 :: rest, cur_entry := some e2.addr } := by
    unfold kmscon_hook_rm
    rw [if_neg (by simp [hcb])]
    simp [hook_unlink]
  have hat : hook_at (e1 :: e2 :: rest) e1.addr = some e1 := by
    simp [hook_at]
  have hnext : hook_next (e2 :: rest) e2.addr = some (rest.head?.map fun e => e.addr) := by
    simp [hook_next]
  rw [hook_call_loop]
  simp only [hat, hinv, hrm, hnext]

/-- C34 fails when a callback removes its own entry: with the entries A, B, C
(callbacks 1, 2, 3, registered in the order C, B, A) and A's callback calling
`kmscon_hook_rm` on itself, `kmscon_hook_call` calls A and C only; B, which was
registered at the start and is still registered at the end, is never called. -/
theorem hook_rm_self_skips_next :
    ∃ h3 r,
      ((kmscon_hook_add ((kmscon_hook_add ((kmscon_hook_add kmscon_hook_new
        0x1030 3 0).2) 0x1020 2 0).2) 0x1010 1 0).2) = h3 ∧
      h3.entries = [⟨0x1010, 1, 0⟩, ⟨0x1020, 2, 0⟩, ⟨0x1030, 3, 0⟩] ∧
      kmscon_hook_call (remove_self 1) 4 h3 = some r ∧
      r.2 = [⟨0x1010, 1, 0⟩, ⟨0x1030, 3, 0⟩] ∧
      r.1.entries = [⟨0x1020, 2, 0⟩, ⟨0x1030, 3, 0⟩] ∧
      (⟨0x1020, 2, 0⟩ : hook_entry) ∉ r.2 :=
  ⟨_, _, rfl, rfl, rfl, rfl, rfl, by decide⟩

/-! ## C35: the digit step never overflows -/

/-- The parameter vector `kmscon_vte_new` leaves, all zero, is within range. -/
theorem argv_within_new : argv_within (-1) 655359 kmscon_vte_new := by
  intro i
  show _ ≤ (Mathlib.Vector.replicate CSI_ARG_MAX (0 : Int)).get i ∧
    (Mathlib.Vector.replicate CSI_ARG_MAX (0 : Int)).get i ≤ _
  rw [Mathlib.Vector.get_replicate]
  omega

/-- C35: after every input to a new terminal every parameter slot is within
−1..655359; and the digit step of `do_param` on such a terminal computes
`new * 10 + digit` only for `0 < new ≤ 65535`, where the value, at most 655359,
is far below `2 ^ 31` and is stored as it is: what the 32-bit arithmetic of the
code gives is the exact sum. -/
theorem param_no_overflow (u8 : List Int) :
    ∃ v, kmscon_vte_input kmscon_vte_new u8 = some v ∧
      (∀ i : Fin CSI_ARG_MAX, -1 ≤ v.csi_argv.get i ∧ v.csi_argv.get i ≤ 655359) ∧
      ∀ (data : Nat) (h : v.csi_argc < CSI_ARG_MAX), 0x30 ≤ data ∧ data ≤ 0x39 →
        (0 < v.csi_argv.get ⟨v.csi_argc, h⟩ ∧ v.csi_argv.get ⟨v.csi_argc, h⟩ ≤ 65535 →
          0 ≤ v.csi_argv.get ⟨v.csi_argc, h⟩ * 10 + ((data : Int) - 48) ∧
          v.csi_argv.get ⟨v.csi_argc, h⟩ * 10 + ((data : Int) - 48) ≤ 655359 ∧
          (655359 : Int) < 2 ^ 31 ∧
          do_param v data = some { v with csi_argv := (v.csi_argv.set ⟨v.csi_argc, h⟩
            (v.csi_argv.get ⟨v.csi_argc, h⟩ * 10 + ((data : Int) - 48))) }) ∧
        (v.csi_argv.get ⟨v.csi_argc, h⟩ ≤ 0 →
          do_param v data = some { v with csi_argv := (v.csi_argv.set ⟨v.csi_argc, h⟩
            ((data : Int) - 48)) }) ∧
        (65535 < v.csi_argv.get ⟨v.csi_argc, h⟩ → do_param v data = some v) := by
  obtain ⟨v, e, -, -, -, b⟩ := kmscon_vte_input_frame u8 kmscon_vte_new
  refine ⟨v, e, b argv_within_new, fun data h hd => ⟨fun hc => ?_, fun hc => ?_, fun hc => ?_⟩⟩
  · refine ⟨by omega, by omega, by norm_num, ?_⟩
    rw [do_param_slot v data (by omega) h, if_neg (by omega), if_pos hd]
    unfold param_digit
    rw [if_neg (by omega)]
  · rw [do_param_slot v data (by omega) h, if_neg (by omega), if_pos hd]
    unfold param_digit
    rw [if_pos hc]
  · rw [do_param_slot v data (by omega) h, if_pos (by omega)]

/-- C35 on the bytes ESC [ 6 5 5 3 5: the slots are within range. -/
theorem param_no_overflow_witness :
    ∃ v, kmscon_vte_input kmscon_vte_new [0x1b, 0x5b, 0x36, 0x35, 0x35, 0x33, 0x35] = some v ∧
      ∀ i : Fin CSI_ARG_MAX, -1 ≤ v.csi_argv.get i ∧ v.csi_argv.get i ≤ 655359 :=
  (param_no_overflow [0x1b, 0x5b, 0x36, 0x35, 0x35, 0x33, 0x35]).imp fun _ h => ⟨h.1, h.2.1⟩

/-! ## C36: `parse_data` takes a transition for every input -/

/-- In each of the 14 states the switch over the state has an arm for every
code point. -/
theorem state_rule_some (st : parser_state) (raw : Nat) (h : st ∈ parser_states) :
    ∃ r, state_rule st raw = some r := by
  simp only [parser_states, List.mem_cons, List.mem_singleton, List.not_mem_nil, or_false] at h
  rcases h with h | h | h | h | h | h | h | h | h | h | h | h | h | h <;> subst h <;>
    unfold state_rule <;> dsimp only <;> split_ifs <;> exact ⟨_, rfl⟩

/-- C36: in each of the 14 states and for every input value (the 32-bit ones
among them) `parse_data` takes exactly one transition: the rule of the first
switch when there is one, the rule of the switch over the state otherwise, and
one of the two exists; the transition returns and leads to one of the 14
states.  The path to the final "unhandled input" line, no rule in either
switch, is taken in no such state: it needs the state `STATE_NONE` or
`STATE_NUM`. -/
theorem parse_data_total (vte : kmscon_vte) (raw : Nat) :
    (vte.state ∈ parser_states →
      (∃! r : parser_state × parser_action,
        anywhere_rule raw = some r ∨
          (anywhere_rule raw = none ∧ state_rule vte.state raw = some r)) ∧
      (∃ r v, (anywhere_rule raw = some r ∨
          (anywhere_rule raw = none ∧ state_rule vte.state raw = some r)) ∧
        parse_data vte raw = do_trans vte raw r.1 r.2 ∧
        do_trans vte raw r.1 r.2 = some v ∧ v.state ∈ parser_states) ∧
      ¬ (anywhere_rule raw = none ∧ state_rule vte.state raw = none)) ∧
    (anywhere_rule raw = none ∧ state_rule vte.state raw = none →
      vte.state = STATE_NONE ∨ vte.state = STATE_NUM) := by
  constructor
  · intro h
    obtain ⟨rs, hrs⟩ := state_rule_some vte.state raw h
    obtain ⟨w, ew, -, -, hst, -, -⟩ := parse_data_frame vte raw
    cases ha : anywhere_rule raw with
    | some ra =>
      refine ⟨⟨ra, Or.inl rfl, fun y hy => ?_⟩, ⟨ra, w, Or.inl rfl, ?_, ?_, hst h⟩, ?_⟩
      · rcases hy with hy | ⟨hy, -⟩
        · exact (Option.some.inj hy).symm
        · exact absurd hy (by simp)
      · simp only [parse_data, ha]
      · rw [← ew]; simp only [parse_data, ha]
      · rintro ⟨h1, -⟩; exact absurd h1 (by simp)
    | none =>
      refine ⟨⟨rs, Or.inr ⟨rfl, hrs⟩, fun y hy => ?_⟩,
        ⟨rs, w, Or.inr ⟨rfl, hrs⟩, ?_, ?_, hst h⟩, ?_⟩
      · rcases hy with hy | ⟨-, hy⟩
        · exact absurd hy (by simp)
        · rw [hrs] at hy; exact (Option.some.inj hy).symm
      · simp only [parse_data, ha, hrs]
      · rw [← ew]; simp only [parse_data, ha, hrs]
      · rintro ⟨-, h2⟩; rw [hrs] at h2; exact absurd h2 (by simp)
  · rintro ⟨-, h2⟩
    by_contra hn
    have hm : vte.state ∈ parser_states := by
      cases hst : vte.state <;> rw [hst] at hn <;> first
        | exact absurd (Or.inl rfl) hn
        | exact absurd (Or.inr rfl) hn
        | decide
    obtain ⟨r, hr⟩ := state_rule_some _ raw hm
    rw [hr] at h2
    exact absurd h2 (by simp)

/-- C36 on a new terminal and the code point 0xFFFFFFFF. -/
theorem parse_data_total_witness :
    (∃! r : parser_state × parser_action,
      anywhere_rule 0xFFFFFFFF = some r ∨
        (anywhere_rule 0xFFFFFFFF = none ∧
          state_rule kmscon_vte_new.state 0xFFFFFFFF = some r)) ∧
    (∃ r v, (anywhere_rule 0xFFFFFFFF = some r ∨
        (anywhere_rule 0xFFFFFFFF = none ∧
          state_rule kmscon_vte_new.state 0xFFFFFFFF = some r)) ∧
      parse_data kmscon_vte_new 0xFFFFFFFF = do_trans kmscon_vte_new 0xFFFFFFFF r.1 r.2 ∧
      do_trans kmscon_vte_new 0xFFFFFFFF r.1 r.2 = some v ∧ v.state ∈ parser_states) ∧
    ¬ (anywhere_rule 0xFFFFFFFF = none ∧
        state_rule kmscon_vte_new.state 0xFFFFFFFF = none) :=
  (parse_data_total kmscon_vte_new 0xFFFFFFFF).1 (by decide)

/-! ## C37: the 7-bit and the 8-bit introducers -/

/-- The 8-bit introducers CSI and DCS. -/
theorem parse_data_c1_introducer (vte : kmscon_vte) :
    parse_data vte 0x9b = some { do_clear vte with state := STATE_CSI_ENTRY } ∧
    parse_data vte 0x90 = some { do_clear vte with state := STATE_DCS_ENTRY } := by
  have h1 : anywhere_rule 0x9b = some (STATE_CSI_ENTRY, ACTION_NONE) := by decide
  have h2 : anywhere_rule 0x90 = some (STATE_DCS_ENTRY, ACTION_NONE) := by decide
  constructor
  · simp only [parse_data, h1]
    exact do_trans_none_clear vte _ STATE_CSI_ENTRY (by decide) rfl
  · simp only [parse_data, h2]
    exact do_trans_none_clear vte _ STATE_DCS_ENTRY (by decide) rfl

/-- ESC followed by P. -/
theorem parse_all_esc_p (vte : kmscon_vte) :
    parse_all vte [0x1b, 0x50] = some { do_clear vte with state := STATE_DCS_ENTRY } := by
  have h2 : parse_data (set_state STATE_ESC (do_clear vte)) 0x50
      = some { do_clear vte with state := STATE_DCS_ENTRY } := by
    have hr : anywhere_rule 0x50 = none := by decide
    have hs : state_rule STATE_ESC 0x50 = some (STATE_DCS_ENTRY, ACTION_NONE) := by decide
    rw [parse_data_of_state_rule _ _ _ _ hr hs]
    exact do_trans_none_clear _ _ STATE_DCS_ENTRY (by decide) rfl
  simp only [parse_all, parse_data_esc, Option.some_bind, h2]

/-- C37: from every terminal the code points 0x1B 0x5B leave exactly what the
single code point 0x9B leaves, the state CSI_ENTRY with cleared parameters, and
0x1B 0x50 exactly what 0x90 leaves, DCS_ENTRY with cleared parameters: state,
parameter vector, count, attributes and flags agree, and no operation and no
reply is issued. -/
theorem introducers_7bit_8bit (vte : kmscon_vte) :
    parse_all vte [0x1b, 0x5b] = parse_data vte 0x9b ∧
    parse_data vte 0x9b
      = some { vte with state := STATE_CSI_ENTRY, csi_argc := 0,
                        csi_argv := Mathlib.Vector.replicate CSI_ARG_MAX (-1) } ∧
    parse_all vte [0x1b, 0x50] = parse_data vte 0x90 ∧
    parse_data vte 0x90
      = some { vte with state := STATE_DCS_ENTRY, csi_argc := 0,
                        csi_argv := Mathlib.Vector.replicate CSI_ARG_MAX (-1) } := by
  obtain ⟨h1, h2⟩ := parse_data_c1_introducer vte
  exact ⟨(parse_all_esc_bracket vte).trans h1.symm, h1,
    (parse_all_esc_p vte).trans h2.symm, h2⟩

/-! ## C38: the mode flags are never set -/

/-- The keyboard handler leaves everything but the trace as it is. -/
theorem handle_keyboard_frame (get_u8 : kmscon_symbol_t → List Nat) (vte : kmscon_vte)
    (ev : uterm_input_event) :
    same_but_trace vte (kmscon_vte_handle_keyboard get_u8 vte ev) := by
  unfold kmscon_vte_handle_keyboard
  split
  · exact same_but_trace_emit _ _
  · split
    · exact same_but_trace_emit _ _
    · split_ifs
      · exact same_but_trace_emit _ _
      · exact same_but_trace_refl _

/-- The arm of a keypad digit in the second switch. -/
theorem named_key_keypad_digit (flags : Nat) (ks : KeySym) (d : Nat)
    (h : keypad_digit ks = some d) :
    control_key ks = none ∧
    named_key flags ks
      = if flags &&& FLAG_KEYPAD_APPLICATION_MODE ≠ 0 then some [0x1b, 0x4f, 0x70 + d]
        else some [0x30 + d] := by
  cases ks <;> simp only [keypad_digit, Option.some.injEq, reduceCtorEq] at h <;> subst h <;>
    exact ⟨rfl, rfl⟩

/-- C38: the mode flags are 0 after `kmscon_vte_new`, and neither
`kmscon_vte_input` (on any bytes, from any terminal) nor the keyboard handler
changes them, so they are 0 on every reachable terminal; there the keyboard
handler takes the normal-mode branch of every mode-dependent key (KP_Enter and
Return write CR, Left, Home and End write ESC [ D, ESC [ H, ESC [ F, a keypad
digit writes the digit) and LF is executed as a move down with scrolling, not
as a newline. -/
theorem flags_never_set :
    kmscon_vte_new.flags = 0 ∧
    (∀ (vte : kmscon_vte) (u8 : List Int),
      ∃ v, kmscon_vte_input vte u8 = some v ∧ v.flags = vte.flags) ∧
    (∀ (get_u8 : kmscon_symbol_t → List Nat) (vte : kmscon_vte) (ev : uterm_input_event),
      (kmscon_vte_handle_keyboard get_u8 vte ev).flags = vte.flags) ∧
    (∀ u8 : List Int, ∃ v, kmscon_vte_input kmscon_vte_new u8 = some v ∧ v.flags = 0) ∧
    (∀ (get_u8 : kmscon_symbol_t → List Nat) (vte : kmscon_vte) (ev : uterm_input_event),
      vte.flags = 0 →
      (ev.keysym = XK_KP_Enter ∨ ev.keysym = XK_Return →
        kmscon_vte_handle_keyboard get_u8 vte ev = emit vte (vte_write [0x0d])) ∧
      (ev.keysym = XK_Left →
        kmscon_vte_handle_keyboard get_u8 vte ev = emit vte (vte_write [0x1b, 0x5b, 0x44])) ∧
      (ev.keysym = XK_Home →
        kmscon_vte_handle_keyboard get_u8 vte ev = emit vte (vte_write [0x1b, 0x5b, 0x48])) ∧
      (ev.keysym = XK_End →
        kmscon_vte_handle_keyboard get_u8 vte ev = emit vte (vte_write [0x1b, 0x5b, 0x46])) ∧
      (∀ d, keypad_digit ev.keysym = some d →
        kmscon_vte_handle_keyboard get_u8 vte ev = emit vte (vte_write [0x30 + d])) ∧
      (∀ ctrl, ctrl = 0x0a ∨ ctrl = 0x0b ∨ ctrl = 0x0c →
        do_execute vte ctrl = emit vte (console_move_down 1 true))) := by
  refine ⟨rfl, fun vte u8 => ?_, fun get_u8 vte ev => ?_, fun u8 => ?_,
    fun get_u8 vte ev hf => ⟨fun hk => ?_, fun hk => ?_, fun hk => ?_, fun hk => ?_,
      fun d hd => ?_, fun ctrl hc => ?_⟩⟩
  · obtain ⟨v, e, f, -⟩ := kmscon_vte_input_frame u8 vte
    exact ⟨v, e, f⟩
  · exact (handle_keyboard_frame get_u8 vte ev).2.2.2.2.2
  · obtain ⟨v, e, f, -⟩ := kmscon_vte_input_frame u8 kmscon_vte_new
    exact ⟨v, e, f⟩
  · apply handle_keyboard_named
    · rcases hk with hk | hk <;> rw [hk] <;> rfl
    · rcases hk with hk | hk <;> rw [hk, hf] <;> rfl
  · apply handle_keyboard_named
    · rw [hk]; rfl
    · rw [hk, hf]; rfl
  · apply handle_keyboard_named
    · rw [hk]; rfl
    · rw [hk, hf]; rfl
  · apply handle_keyboard_named
    · rw [hk]; rfl
    · rw [hk, hf]; rfl
  · obtain ⟨h1, h2⟩ := named_key_keypad_digit vte.flags ev.keysym d hd
    apply handle_keyboard_named _ _ _ _ h1
    rw [h2, hf]
    rfl
  · unfold do_execute
    rw [hf]
    rcases hc with hc | hc | hc <;> subst hc <;> rfl

/-- C38 on the terminal a new one becomes by the bytes ESC [ 2 0 h (which would
set LNM on a VT100): the flags are 0 and Return still writes CR alone. -/
theorem flags_never_set_witness :
    ∃ v, kmscon_vte_input kmscon_vte_new [0x1b, 0x5b, 0x32, 0x30, 0x68] = some v ∧
      v.flags = 0 ∧
      kmscon_vte_handle_keyboard (fun _ => []) v
          { keysym := XK_Return, mods := 0, unicode := 0x0d }
        = emit v (vte_write [0x0d]) :=
  (flags_never_set.2.2.2.1 [0x1b, 0x5b, 0x32, 0x30, 0x68]).imp fun v h =>
    ⟨h.1, h.2,
      ((flags_never_set.2.2.2.2 (fun _ => []) v
        { keysym := XK_Return, mods := 0, unicode := 0x0d } h.2).1 (Or.inr rfl))⟩

/-! ## C39: SGR without a parameter -/

/-- C39: the sequence ESC [ m, from every terminal, leaves all attributes as
they were (every slot is −1 when `do_csi` runs, and SGR skips such a slot),
ends in GROUND and issues nothing; ESC [ 0 m sets foreground, background, bold,
underline and inverse to the defaults. -/
theorem sgr_without_parameter (vte : kmscon_vte) :
    (∃ v, parse_all vte [0x1b, 0x5b, 0x6d] = some v ∧ v.cattr = vte.cattr ∧
      v.trace = vte.trace ∧ v.state = STATE_GROUND) ∧
    (∃ w, parse_all vte [0x1b, 0x5b] = some w ∧ (∀ i, w.csi_argv.get i = -1) ∧
      w.cattr = vte.cattr) ∧
    (∀ w : kmscon_vte, (∀ i, w.csi_argv.get i = -1) → (do_csi w 0x6d).cattr = w.cattr) ∧
    (∃ v, parse_all vte [0x1b, 0x5b, 0x30, 0x6d] = some v ∧
      v.cattr = { vte.cattr with fr := 255, fg := 255, fb := 255, br := 0, bg := 0, bb := 0,
                                 bold := false, underline := false, inverse := false } ∧
      v.trace = vte.trace ∧ v.state = STATE_GROUND) := by
  refine ⟨?_, ?_, fun w hw => ?_, ?_⟩
  · obtain ⟨v, e, c, t, s, -⟩ := parse_all_sgr vte [] (by decide)
    exact ⟨v, e, c, t, s⟩
  · refine ⟨_, parse_all_esc_bracket vte, fun i => ?_, rfl⟩
    show (Mathlib.Vector.replicate CSI_ARG_MAX (-1 : Int)).get i = -1
    rw [Mathlib.Vector.get_replicate]
  · rw [(do_csi_sgr w).1]
    have : w.csi_argv.toList = List.replicate 16 (-1) := by
      apply List.ext_getElem
      · simp
      · intro n h1 h2
        have := hw ⟨n, by simpa using h1⟩
        simp only [List.getElem_replicate]
        rw [← this]
        rfl
    rw [this, foldl_sgr_apply_unset]
  · obtain ⟨v, e, c, t, s, -⟩ := parse_all_sgr vte [[0x30]] (by decide)
    exact ⟨v, e, c, t, s⟩

/-! ## C40: control strings -/

/-- A quiet action returns and leaves state, attributes, flags and trace. -/
theorem do_action_quiet (vte : kmscon_vte) (data : Nat) (act : parser_action)
    (h : quiet_action act) :
    ∃ v, do_action vte data act = some v ∧ v.state = vte.state ∧ v.cattr = vte.cattr ∧
      v.flags = vte.flags ∧ v.trace = vte.trace := by
  rcases h with h | h | h | h | h | h | h | h | h | h | h <;> subst h
  case inr.inr.inr.inr.inl =>
    obtain ⟨v, e, -, s, c, f, t, -⟩ := do_param_frame vte data
    exact ⟨v, e, s, c, f, t⟩
  all_goals exact ⟨_, rfl, rfl, rfl, rfl, rfl⟩

/-- Entry and exit actions are quiet. -/
theorem entry_exit_quiet (st : parser_state) :
    quiet_action (entry_action st) ∧ quiet_action (exit_action st) := by
  cases st <;> decide

/-- A transition with a quiet action returns and leaves attributes, flags and
trace. -/
theorem do_trans_quiet (vte : kmscon_vte) (data : Nat) (st : parser_state)
    (act : parser_action) (h : quiet_action act) :
    ∃ v, do_trans vte data st act = some v ∧
      v.state = (if st ≠ STATE_NONE then st else vte.state) ∧ v.cattr = vte.cattr ∧
      v.flags = vte.flags ∧ v.trace = vte.trace := by
  by_cases hst : st ≠ STATE_NONE
  · rw [do_trans_of_ne_none vte data st act hst, if_pos hst]
    obtain ⟨v2, e2, -, c2, f2, t2⟩ := do_action_quiet vte data act h
    obtain ⟨v3, e3, -, c3, f3, t3⟩ := do_action_quiet v2 data _ (entry_exit_quiet st).1
    rw [e2, Option.some_bind, e3, Option.some_bind]
    exact ⟨_, rfl, rfl, c3.trans c2, f3.trans f2, t3.trans t2⟩
  · have e : st = STATE_NONE := not_not.mp hst
    subst e
    rw [do_trans_none, if_neg (by simp)]
    exact do_action_quiet vte data act h

/-- Inside a control string a code point without an anywhere rule takes a
quiet rule that stays inside the string; in OSC_STRING, DCS_PASS, DCS_IGNORE
and ST_IGNORE the rule keeps the state and its action has no effect. -/
theorem state_rule_string (st : parser_state) (raw : Nat) (h : st ∈ string_states)
    (ha : anywhere_rule raw = none) :
    ∃ tgt act, state_rule st raw = some (tgt, act) ∧ quiet_action act ∧
      (tgt = STATE_NONE ∨ tgt ∈ string_states) ∧
      (st ∈ [STATE_OSC_STRING, STATE_DCS_PASS, STATE_DCS_IGNORE, STATE_ST_IGNORE] →
        tgt = STATE_NONE ∧
        (act = ACTION_IGNORE ∨ act = ACTION_DCS_COLLECT ∨ act = ACTION_OSC_COLLECT)) := by
  have h9c : raw ≠ 0x9c := by
    intro e
    rw [e] at ha
    exact absurd ha (by decide)
  simp only [string_states, List.mem_cons, List.mem_singleton, List.not_mem_nil, or_false] at h
  rcases h with h | h | h | h | h | h | h <;> subst h <;>
    unfold state_rule <;> dsimp only <;> split_ifs <;>
    first
      | exact absurd ‹raw = 0x9c› h9c
      | exact ⟨_, _, rfl, by decide, by decide, by decide⟩

/-- Inside a control string a code point without an anywhere rule issues
nothing and stays inside the string. -/
theorem parse_data_string (vte : kmscon_vte) (raw : Nat) (h : vte.state ∈ string_states)
    (ha : anywhere_rule raw = none) :
    ∃ v, parse_data vte raw = some v ∧ v.state ∈ string_states ∧ v.cattr = vte.cattr ∧
      v.flags = vte.flags ∧ v.trace = vte.trace ∧
      (vte.state ∈ [STATE_OSC_STRING, STATE_DCS_PASS, STATE_DCS_IGNORE, STATE_ST_IGNORE] →
        v = vte) := by
  obtain ⟨tgt, act, hr, hq, ht, h4⟩ := state_rule_string vte.state raw h ha
  rw [parse_data_of_state_rule vte raw tgt act ha hr]
  obtain ⟨v, e, s, c, f, t⟩ := do_trans_quiet vte raw tgt act hq
  refine ⟨v, e, ?_, c, f, t, fun h5 => ?_⟩
  · rw [s]
    rcases ht with ht | ht
    · rw [ht]; exact h
    · split_ifs
      · exact ht
      · exact h
  · obtain ⟨e1, e2⟩ := h4 h5
    subst e1
    rw [do_trans_none] at e
    rcases e2 with e2 | e2 | e2 <;> subst e2 <;> exact (Option.some.inj e).symm

/-- A payload without anywhere-rule code points issues nothing and stays inside
the string. -/
theorem parse_all_string (payload : List Nat) (vte : kmscon_vte)
    (h : vte.state ∈ string_states) (ha : ∀ raw ∈ payload, anywhere_rule raw = none) :
    ∃ v, parse_all vte payload = some v ∧ v.state ∈ string_states ∧ v.cattr = vte.cattr ∧
      v.flags = vte.flags ∧ v.trace = vte.trace := by
  induction payload generalizing vte with
  | nil => exact ⟨vte, rfl, h, rfl, rfl, rfl⟩
  | cons raw rest ih =>
    obtain ⟨v, e, s, c, f, t, -⟩ :=
      parse_data_string vte raw h (ha raw (List.mem_cons_self _ _))
    obtain ⟨w, e1, s1, c1, f1, t1⟩ := ih v s fun r hr => ha r (List.mem_cons_of_mem _ hr)
    refine ⟨w, ?_, s1, c1.trans c, f1.trans f, t1.trans t⟩
    simp only [parse_all, e, Option.some_bind]
    exact e1

/-- An introducer of a control string leads into the string and issues
nothing, from every terminal. -/
theorem parse_all_introducer (vte : kmscon_vte) (intro : List Nat)
    (h : intro ∈ string_introducers) :
    ∃ v, parse_all vte intro = some v ∧ v.state ∈ string_states ∧ v.cattr = vte.cattr ∧
      v.flags = vte.flags ∧ v.trace = vte.trace := by
  have h8 : ∀ raw tgt, anywhere_rule raw = some (tgt, ACTION_NONE) → tgt ∈ string_states →
      ∃ v, parse_all vte [raw] = some v ∧ v.state ∈ string_states ∧ v.cattr = vte.cattr ∧
        v.flags = vte.flags ∧ v.trace = vte.trace := by
    intro raw tgt hr ht
    obtain ⟨v, e, s, c, f, t⟩ := do_trans_quiet vte raw tgt ACTION_NONE (Or.inl rfl)
    refine ⟨v, ?_, ?_, c, f, t⟩
    · rw [parse_all_singleton]
      simp only [parse_data, hr]
      exact e
    · rw [s]
      split_ifs
      · exact ht
      · rename_i hn
        rw [not_not.mp hn] at ht
        exact absurd ht (by decide)
  have h7 : ∀ raw tgt, anywhere_rule raw = none →
      state_rule STATE_ESC raw = some (tgt, ACTION_NONE) → tgt ∈ string_states →
      ∃ v, parse_all vte [0x1b, raw] = some v ∧ v.state ∈ string_states ∧
        v.cattr = vte.cattr ∧ v.flags = vte.flags ∧ v.trace = vte.trace := by
    intro raw tgt hr hs ht
    obtain ⟨v, e, s, c, f, t⟩ :=
      do_trans_quiet (set_state STATE_ESC (do_clear vte)) raw tgt ACTION_NONE (Or.inl rfl)
    refine ⟨v, ?_, ?_, c, f, t⟩
    · simp only [parse_all, parse_data_esc, Option.some_bind]
      rw [parse_data_of_state_rule _ raw tgt ACTION_NONE hr hs, e]
      rfl
    · rw [s]
      split_ifs
      · exact ht
      · rename_i hn
        rw [not_not.mp hn] at ht
        exact absurd ht (by decide)
  simp only [string_introducers, List.mem_cons, List.mem_singleton, List.not_mem_nil,
    or_false] at h
  rcases h with h | h | h | h | h | h | h | h | h | h <;> subst h
  · exact h7 0x5d STATE_OSC_STRING (by decide) (by decide) (by decide)
  · exact h8 0x9d STATE_OSC_STRING (by decide) (by decide)
  · exact h7 0x50 STATE_DCS_ENTRY (by decide) (by decide) (by decide)
  · exact h8 0x90 STATE_DCS_ENTRY (by decide) (by decide)
  · exact h7 0x58 STATE_ST_IGNORE (by decide) (by decide) (by decide)
  · exact h8 0x98 STATE_ST_IGNORE (by decide) (by decide)
  · exact h7 0x5e STATE_ST_IGNORE (by decide) (by decide) (by decide)
  · exact h8 0x9e STATE_ST_IGNORE (by decide) (by decide)
  · exact h7 0x5f STATE_ST_IGNORE (by decide) (by decide) (by decide)
  · exact h8 0x9f STATE_ST_IGNORE (by decide) (by decide)

/-- A string terminator leads to GROUND and issues nothing, from every
terminal. -/
theorem parse_all_terminator (vte : kmscon_vte) (term : List Nat)
    (h : term ∈ string_terminators) :
    ∃ v, parse_all vte term = some v ∧ v.state = STATE_GROUND ∧ v.cattr = vte.cattr ∧
      v.flags = vte.flags ∧ v.trace = vte.trace := by
  simp only [string_terminators, List.mem_cons, List.mem_singleton, List.not_mem_nil,
    or_false] at h
  rcases h with h | h <;> subst h
  · refine ⟨{ do_execute vte 0x9c with state := STATE_GROUND }, ?_, rfl, rfl, rfl, rfl⟩
    rw [parse_all_singleton]
    have hr : anywhere_rule 0x9c = some (STATE_GROUND, ACTION_EXECUTE) := by decide
    simp only [parse_data, hr]
    exact do_trans_ground_execute vte 0x9c
  · refine ⟨set_state STATE_GROUND (set_state STATE_ESC (do_clear vte)), ?_, rfl, rfl, rfl,
      rfl⟩
    simp only [parse_all, parse_data_esc, Option.some_bind]
    rw [parse_data_esc_final _ 0x5c (Or.inl ⟨rfl, by decide⟩),
      do_esc_unhandled _ _ (by decide)]
    rfl

/-- C40: in OSC_STRING, DCS_PASS, DCS_IGNORE and ST_IGNORE a code point without
an anywhere rule leaves the whole terminal as it was (state kept, no console
operation, no reply); and a control string, that is an introducer of OSC, DCS
or SOS/PM/APC (7-bit or 8-bit form), a payload free of anywhere-rule code
points, and the terminator 0x9C or ESC backslash, read from any terminal,
issues no console operation and no reply, keeps attributes and flags, and ends
in GROUND. -/
theorem string_payload_ignored (vte : kmscon_vte) :
    (∀ raw, anywhere_rule raw = none →
      vte.state ∈ [STATE_OSC_STRING, STATE_DCS_PASS, STATE_DCS_IGNORE, STATE_ST_IGNORE] →
      parse_data vte raw = some vte) ∧
    (∀ intro payload term, intro ∈ string_introducers → term ∈ string_terminators →
      (∀ raw ∈ payload, anywhere_rule raw = none) →
      ∃ v, parse_all vte (intro ++ payload ++ term) = some v ∧ v.state = STATE_GROUND ∧
        v.trace = vte.trace ∧ v.cattr = vte.cattr ∧ v.flags = vte.flags) := by
  constructor
  · intro raw ha h4
    have hs : vte.state ∈ string_states := by
      simp only [string_states, List.mem_cons, List.mem_singleton, List.not_mem_nil,
        or_false] at h4 ⊢
      tauto
    obtain ⟨v, e, -, -, -, -, hv⟩ := parse_data_string vte raw hs ha
    rw [e, hv h4]
  · intro intro payload term hi ht hp
    obtain ⟨v1, e1, s1, c1, f1, t1⟩ := parse_all_introducer vte intro hi
    obtain ⟨v2, e2, s2, c2, f2, t2⟩ := parse_all_string payload v1 s1 hp
    obtain ⟨v3, e3, s3, c3, f3, t3⟩ := parse_all_terminator v2 term ht
    refine ⟨v3, ?_, s3, t3.trans (t2.trans t1), c3.trans (c2.trans c1),
      f3.trans (f2.trans f1)⟩
    rw [parse_all_append, parse_all_append, e1, Option.some_bind, e2, Option.some_bind, e3]

/-- C40 on the OSC string ESC ] 0 ; h i ESC backslash and on a text byte met in
DCS_PASS. -/
theorem string_payload_ignored_witness :
    (∃ v, parse_all kmscon_vte_new
        ([0x1b, 0x5d] ++ [0x30, 0x3b, 0x68, 0x69] ++ [0x1b, 0x5c]) = some v ∧
      v.state = STATE_GROUND ∧ v.trace = [] ∧ v.cattr = default_cattr ∧ v.flags = 0) ∧
    parse_data { kmscon_vte_new with state := STATE_DCS_PASS } 0x41
      = some { kmscon_vte_new with state := STATE_DCS_PASS } :=
  ⟨(string_payload_ignored kmscon_vte_new).2 [0x1b, 0x5d] [0x30, 0x3b, 0x68, 0x69]
      [0x1b, 0x5c] (by decide) (by decide) (by decide),
   (string_payload_ignored { kmscon_vte_new with state := STATE_DCS_PASS }).1 0x41
      (by decide) (by decide)⟩

end Kmscon
